import Mathlib

/-!
# docker-cleanup: the reclamation engine

A shallow embedding of `docker/cleanup.go`, `utils/helpers.go` and the
subcommand bodies of `main.go`.

* Go strings are Lean strings (valid UTF-8 text); `len` and slicing count bytes.
* Every `exec.Command(...)` the program builds is a constructor of `Cmd`; the
  daemon and the host are an environment `Env σ` with an explicit state `σ`,
  threaded through every call.
* What the program does is recorded as a chronological list of `Event`s: the
  commands it ran and the lines it printed.
* `time.Duration` is an integer number of nanoseconds; `float64` values are
  integers counted in units of `2^-1074`, rounded to 53 significant bits.
-/

namespace DockerCleanup

/-! ## Go strings -/

/-- Go `unicode.IsSpace`: the Latin-1 spaces and the code points with the
White_Space property. -/
def isSpace (c : Char) : Bool :=
  let n := c.toNat
  n == 9 || n == 10 || n == 11 || n == 12 || n == 13 || n == 32 || n == 0x85 || n == 0xA0 ||
  n == 0x1680 || (0x2000 ≤ n && n ≤ 0x200A) || n == 0x2028 || n == 0x2029 ||
  n == 0x202F || n == 0x205F || n == 0x3000

/-- The separator of `strings.Split(_, "\n")`. -/
def newline : Char := Char.ofNat 10

/-- The separator of `strings.Split(_, "\t")`. -/
def tab : Char := Char.ofNat 9

/-- The separator of `strings.Split(_, ",")`. -/
def comma : Char := Char.ofNat 44

/-- Go `strings.TrimSpace`: drop leading and trailing white space. -/
def TrimSpace (s : String) : String :=
  ⟨(s.data.dropWhile isSpace).rdropWhile isSpace⟩

/-- Go `strings.Split(s, sep)` for a separator of one character (the program
only splits on "\n", "\t" and ","): one more piece than there are separators. -/
def Split (s : String) (sep : Char) : List String :=
  (s.data.splitOn sep).map String.mk

/-- The lines of a listing, as every reclaimer takes them:
`strings.Split(strings.TrimSpace(output), "\n")`. -/
def linesOf (output : String) : List String :=
  Split (TrimSpace output) newline

/-- Go `strings.Contains`. -/
def Contains (s substr : String) : Bool :=
  s.data.tails.any fun t => substr.data.isPrefixOf t

/-- Go `strings.Fields`: the maximal runs of non-space characters. -/
def Fields (s : String) : List String :=
  ((s.data.splitOnP isSpace).filter fun w => !w.isEmpty).map String.mk

/-- The bytes of a Go string. -/
def utf8Bytes (s : String) : List UInt8 :=
  s.data.flatMap String.utf8EncodeChar

/-- Go `len(s)`: the number of bytes. -/
def len (s : String) : Nat :=
  (utf8Bytes s).length

/-- Go `s[:n]`: the first `n` bytes, or `none` for the run-time panic
"slice bounds out of range" when `n > len(s)`. -/
def sliceTo (s : String) (n : Nat) : Option (List UInt8) :=
  if n ≤ len s then some ((utf8Bytes s).take n) else none

/-- A Go `map[string]bool` in which only `true` is ever stored: the keys. -/
abbrev StrSet := List String

/-- Go `m[k] = true`. -/
def StrSet.set (m : StrSet) (k : String) : StrSet :=
  k :: m

/-- Go `m[k]`: `false` for a missing key. -/
def StrSet.get (m : StrSet) (k : String) : Bool :=
  decide (k ∈ m)

/-! ## float64 and time.Duration -/

/-- Number of binary digits, by halving. -/
def bitLenAux : Nat → Nat → Nat
  | 0, _ => 0
  | fuel + 1, n => if n = 0 then 0 else bitLenAux fuel (n / 2) + 1

/-- Number of binary digits of `n` (0 for 0). -/
def bitLen (n : Nat) : Nat :=
  bitLenAux n n

/-- Nearest natural number to `n / d`, ties to even. -/
def rne (n d : Nat) : Nat :=
  let q := n / d
  let r := n % d
  if 2 * r < d then q else if d < 2 * r then q + 1 else if q % 2 = 0 then q else q + 1

/-- Round `n / d` to the nearest natural number with at most 53 significant
binary digits, ties to even. -/
def round53 (n d : Nat) : Nat :=
  let s := bitLen (n / d) - 53
  rne n (d * 2 ^ s) * 2 ^ s

/-- Round the rational `n / d` to 53 significant digits, symmetric in the sign. -/
def roundInt (n : Int) (d : Nat) : Int :=
  if n < 0 then -Int.ofNat (round53 n.natAbs d) else Int.ofNat (round53 n.natAbs d)

/-- A finite `float64`: `val` counts units of `2^-1074`, of which every finite
binary64 value is an integer multiple. Infinities and NaN do not arise: every
magnitude computed below is under `2^64`. -/
structure F64 where
  val : Int
deriving DecidableEq

set_option exponentiation.threshold 2000 in
/-- The number of `F64` units in 1. -/
def F64.one : Nat := 2 ^ 1074

/-- Go `float64(i)` for an integer `i`. -/
def F64.ofInt (i : Int) : F64 :=
  ⟨roundInt (i * Int.ofNat F64.one) 1⟩

/-- Go `a + b` on `float64`. -/
def F64.add (a b : F64) : F64 :=
  ⟨roundInt (a.val + b.val) 1⟩

/-- Go `a / b` on `float64`, for a positive divisor (the program divides by
the constant `60*60*1e9` only). -/
def F64.div (a b : F64) : F64 :=
  ⟨roundInt (a.val * Int.ofNat F64.one) b.val.natAbs⟩

/-- Go `a > b` on `float64`. -/
def F64.gt (a b : F64) : Bool :=
  decide (b.val < a.val)

/-- Go `time.Hour`, in nanoseconds. -/
def Hour : Int := 3600000000000

/-- The smallest `time.Duration` (an `int64`). -/
def minDuration : Int := -9223372036854775808

/-- The largest `time.Duration`. -/
def maxDuration : Int := 9223372036854775807

/-- Go `t.Sub(u)` for wall-clock instants given in nanoseconds: the difference,
saturated to the range of `time.Duration`. -/
def Sub (t u : Int) : Int :=
  if t - u < minDuration then minDuration
  else if maxDuration < t - u then maxDuration
  else t - u

/-- Go `Duration.Hours`:
`float64(d / Hour) + float64(d % Hour) / (60*60*1e9)`, with Go's truncating
integer division. -/
def Hours (d : Int) : F64 :=
  F64.add (F64.ofInt (d.tdiv Hour)) (F64.div (F64.ofInt (d.tmod Hour)) (F64.ofInt 3600000000000))

/-- The age test of both reclaimers:
`duration.Hours() > float64(olderThan)`. -/
def olderThanHours (d : Int) (olderThan : Int) : Bool :=
  F64.gt (Hours d) (F64.ofInt olderThan)

/-! ## Commands, environment, events -/

/-- The command lines the program builds with `exec.Command`. -/
inductive Cmd where
  /-- The command `net session` (the Windows privilege probe). -/
  | netSession
  /-- The command `docker info`. -/
  | dockerInfo
  /-- The listing `docker ps -a --filter status=exited --filter status=dead`
  with format ID, tab, State. -/
  | psStopped
  /-- The query `docker inspect -f` of `.State.FinishedAt` for one container. -/
  | inspectFinishedAt (containerID : String)
  /-- The removal `docker rm -f -v ID`. -/
  | rm (containerID : String)
  /-- The listing `docker images` with format ID, Repository, Tag, CreatedAt,
  separated by tabs. -/
  | images
  /-- The listing `docker ps -a` with format `.Image`. -/
  | psImages
  /-- The removal `docker rmi -f ID`. -/
  | rmi (imageID : String)
  /-- The removal `docker image prune -f`. -/
  | imagePrune
  /-- The listing `docker volume ls` with format `.Name`. -/
  | volumeLs
  /-- The listing `docker ps -a` with format `.Mounts`. -/
  | psMounts
  /-- The removal `docker volume rm -f NAME`. -/
  | volumeRm (volume : String)
deriving DecidableEq

/-- The commands that change the daemon: `docker rm`, `docker rmi`,
`docker image prune`, `docker volume rm`. -/
def Cmd.isMutate : Cmd → Bool
  | .rm _ => true
  | .rmi _ => true
  | .imagePrune => true
  | .volumeRm _ => true
  | _ => false

deriving instance DecidableEq for Except

/-- What `cmd.CombinedOutput()` returns: the output and the error (`none` is
Go's `nil`). -/
structure CmdResult where
  output : String
  err : Option String
deriving DecidableEq

/-- Everything outside the program: the host, the daemon behind the `docker`
command line, the clock and the standard library's time parser. Instants are
nanoseconds since the Unix epoch. -/
structure Env (σ : Type) where
  /-- Go `runtime.GOOS`. -/
  goos : String
  /-- Go `os.Geteuid()`. -/
  euid : Int
  /-- Running a command in state `s`: its result and the next state. -/
  run : Cmd → σ → CmdResult × σ
  /-- Go `time.Now()`: the reading and the next state. -/
  now : σ → Int × σ
  /-- Go `time.Parse(time.RFC3339Nano, _)`. -/
  parseRFC3339Nano : String → Except String Int
  /-- Go `time.Parse("2006-01-02 15:04:05 -0700 MST", _)`. -/
  parseCreatedAt : String → Except String Int

/-- The three resource classes, in the order of `CleanAll`. -/
inductive Phase where
  | containers
  | images
  | volumes
deriving DecidableEq

/-- The lines the program prints, one constructor per format string. -/
inductive Msg where
  /-- Printed text `No stopped containers found`. -/
  | noStoppedContainers
  /-- Printed text `Failed to get finish time for container ID: err`. -/
  | finishTimeFailed (containerID err : String)
  /-- Printed text `Failed to parse finish time for container ID: err`. -/
  | finishTimeUnparsed (containerID err : String)
  /-- Printed text `[DRY RUN] Would remove container: ID`. -/
  | wouldRemoveContainer (containerID : String)
  /-- Printed text `Failed to remove container ID: err`. -/
  | removeContainerFailed (containerID err : String)
  /-- The output of a successful removal, printed by `fmt.Print(out)`. -/
  | output (out : String)
  /-- Printed text `Failed to parse creation time for image ID: err`. -/
  | creationTimeUnparsed (imageID err : String)
  /-- Printed text `[DRY RUN] Would remove image: NAME (ID[:12])`. -/
  | wouldRemoveImage (imageName : String) (idHead : List UInt8)
  /-- Printed text `Failed to remove image ID[:12]: err`. -/
  | removeImageFailed (idHead : List UInt8) (err : String)
  /-- Printed text `Failed to remove dangling images: err`. -/
  | pruneFailed (err : String)
  /-- Printed text `[DRY RUN] Would remove volume: NAME`. -/
  | wouldRemoveVolume (volume : String)
  /-- Printed text `Failed to remove volume NAME: err`. -/
  | removeVolumeFailed (volume err : String)
  /-- Printed text `Cleaning up containers...` (resp. images, volumes). -/
  | cleaningUp (p : Phase)
  /-- Printed text `Error cleaning containers: err` of `CleanAll`. -/
  | errorCleaning (p : Phase) (err : String)
  /-- Printed text `Failed to cleanup containers: err` of `main.go`. -/
  | failedToCleanup (p : Phase) (err : String)
  /-- Printed text `Failed to initialize cleanup: err` of `main.go`. -/
  | failedToInitialize (err : String)
  /-- A precondition error printed by `fmt.Println(err)`. -/
  | fatal (err : String)
deriving DecidableEq

/-- What the program does to the outside world. -/
inductive Event where
  | call (c : Cmd)
  | print (m : Msg)
deriving DecidableEq

/-- The result of running a piece of the program from a state: the state it
leaves, the events in chronological order, and its value, `none` when the
goroutine panicked. -/
structure Run (σ α : Type) where
  st : σ
  trace : List Event
  val : Option α

/-- Run `k` after `r`, unless `r` panicked. -/
def Run.andThen {σ α β : Type} (r : Run σ α) (k : α → σ → Run σ β) : Run σ β :=
  match r.val with
  | none => ⟨r.st, r.trace, none⟩
  | some a => ⟨(k a r.st).st, r.trace ++ (k a r.st).trace, (k a r.st).val⟩

/-- What Go `executeCommand` makes of a command result: the combined output, or
an error wrapping the command's error and output. -/
def commandResult (r : CmdResult) : Except String String :=
  match r.err with
  | some err => .error ("command failed: " ++ err ++ "\nOutput: " ++ r.output)
  | none => .ok r.output

/-- Go `executeCommand`: run the command and wrap its result. -/
def executeCommand {σ : Type} (E : Env σ) (cmd : Cmd) (s : σ) : Run σ (Except String String) :=
  ⟨(E.run cmd s).2, [.call cmd], some (commandResult (E.run cmd s).1)⟩

/-- Go `fmt.Print*`. -/
def print {σ : Type} (m : Msg) (s : σ) : Run σ Unit :=
  ⟨s, [.print m], some ()⟩

/-- Go `time.Since(t)`, that is `time.Now().Sub(t)`. -/
def Since {σ : Type} (E : Env σ) (t : Int) (s : σ) : Int × σ :=
  (Sub (E.now s).1 t, (E.now s).2)

/-- The receiver of the reclaimers: Go `Cleanup`. -/
structure Cleanup where
  dryRun : Bool
  olderThan : Int
deriving DecidableEq

/-- A piece of the program that ends normally with value `a`. -/
def ret {σ α : Type} (a : α) (s : σ) : Run σ α :=
  ⟨s, [], some a⟩

/-- Go `for _, x := range xs`: the body runs on each element in turn (a
`continue` ends the body); a panic ends the loop. -/
def forEach {σ β : Type} (body : β → σ → Run σ Unit) : List β → σ → Run σ Unit
  | [], s => ret () s
  | x :: xs, s => (body x s).andThen fun _ s1 => forEach body xs s1

/-- Go `NewCleanup`: never fails. -/
def NewCleanup (dryRun : Bool) (olderThan : Int) : Cleanup × Option String :=
  (⟨dryRun, olderThan⟩, none)

/-! ## Container reclaimer -/

/-- The body of the loop of `CleanContainers` (cleanup.go, lines 44-79). -/
def containerStep {σ : Type} (E : Env σ) (c : Cleanup) (container : String) (s : σ) :
    Run σ Unit :=
  if container = "" then ret () s
  else
    match (Split container tab)[0]? with
    | none => ⟨s, [], none⟩
    | some containerID =>
      (executeCommand E (.inspectFinishedAt containerID) s).andThen fun timeOutput s1 =>
        match timeOutput with
        | .error err => print (.finishTimeFailed containerID err) s1
        | .ok out =>
          match E.parseRFC3339Nano (TrimSpace out) with
          | .error err => print (.finishTimeUnparsed containerID err) s1
          | .ok finishTime =>
            if olderThanHours (Since E finishTime s1).1 c.olderThan then
              if c.dryRun then
                print (.wouldRemoveContainer containerID) (Since E finishTime s1).2
              else
                (executeCommand E (.rm containerID) (Since E finishTime s1).2).andThen fun r s2 =>
                  match r with
                  | .error err => print (.removeContainerFailed containerID err) s2
                  | .ok out => print (.output out) s2
            else ret () (Since E finishTime s1).2

/-- Go `(*Cleanup).CleanContainers`; the value is the returned `error`. -/
def CleanContainers {σ : Type} (E : Env σ) (c : Cleanup) (s : σ) : Run σ (Option String) :=
  (executeCommand E .psStopped s).andThen fun r s1 =>
    match r with
    | .error err => ret (some ("failed to list containers: " ++ err)) s1
    | .ok output =>
      if (linesOf output).length = 0 ∨
          ((linesOf output).length = 1 ∧ (linesOf output)[0]? = some "") then
        (print .noStoppedContainers s1).andThen fun _ s2 => ret none s2
      else
        (forEach (containerStep E c) (linesOf output) s1).andThen fun _ s2 => ret none s2

/-! ## Image reclaimer -/

/-- The map `usedImages` of `CleanImages` (cleanup.go, lines 99-104). -/
def usedImagesOf (usedOutput : String) : StrSet :=
  (linesOf usedOutput).foldl (fun m img => if img ≠ "" then m.set img else m) []

/-- The body of the loop of `CleanImages` (cleanup.go, lines 106-144). The
clock is read only for an unused image: Go's `&&` does not evaluate its right
operand after a false left one. -/
def imageStep {σ : Type} (E : Env σ) (c : Cleanup) (usedImages : StrSet) (line : String)
    (s : σ) : Run σ Unit :=
  if line = "" then ret () s
  else if (Split line tab).length < 4 then ret () s
  else
    match (Split line tab)[0]?, (Split line tab)[1]?, (Split line tab)[2]?,
        (Split line tab)[3]? with
    | some imageID, some repo, some tag, some createdStr =>
      match E.parseCreatedAt createdStr with
      | .error err => print (.creationTimeUnparsed imageID err) s
      | .ok created =>
        if usedImages.get (repo ++ ":" ++ tag) then ret () s
        else if olderThanHours (Since E created s).1 c.olderThan then
          if c.dryRun then
            match sliceTo imageID 12 with
            | none => ⟨(Since E created s).2, [], none⟩
            | some idHead =>
              print (.wouldRemoveImage (repo ++ ":" ++ tag) idHead) (Since E created s).2
          else
            (executeCommand E (.rmi imageID) (Since E created s).2).andThen fun r s2 =>
              match r with
              | .error err =>
                match sliceTo imageID 12 with
                | none => ⟨s2, [], none⟩
                | some idHead => print (.removeImageFailed idHead err) s2
              | .ok out => print (.output out) s2
        else ret () (Since E created s).2
    | _, _, _, _ => ⟨s, [], none⟩

/-- The end of `CleanImages` (cleanup.go, lines 146-156): unless this is a dry
run, prune the dangling images; return nil. -/
def pruneDangling {σ : Type} (E : Env σ) (c : Cleanup) (s3 : σ) : Run σ (Option String) :=
  if c.dryRun then ret none s3
  else
    (executeCommand E .imagePrune s3).andThen fun r3 s4 =>
      (match r3 with
        | .error err => print (.pruneFailed err) s4
        | .ok out => print (.output out) s4).andThen fun _ s5 => ret none s5

/-- The part of `CleanImages` after its two listings succeeded with the outputs
`output` and `usedOutput` (cleanup.go, lines 99-156). -/
def cleanListedImages {σ : Type} (E : Env σ) (c : Cleanup) (output usedOutput : String)
    (s2 : σ) : Run σ (Option String) :=
  (forEach (imageStep E c (usedImagesOf usedOutput)) (linesOf output) s2).andThen
    fun _ s3 => pruneDangling E c s3

/-- Go `(*Cleanup).CleanImages`; the value is the returned `error`. -/
def CleanImages {σ : Type} (E : Env σ) (c : Cleanup) (s : σ) : Run σ (Option String) :=
  (executeCommand E .images s).andThen fun r s1 =>
    match r with
    | .error err => ret (some ("failed to list images: " ++ err)) s1
    | .ok output =>
      (executeCommand E .psImages s1).andThen fun r2 s2 =>
        match r2 with
        | .error err => ret (some ("failed to get used images: " ++ err)) s2
        | .ok usedOutput => cleanListedImages E c output usedOutput s2

/-! ## Volume reclaimer -/

/-- The inner loop that fills `usedVolumes` from one line of mounts
(cleanup.go, lines 176-183). -/
def addMounts (m : StrSet) (mounts : String) : StrSet :=
  (Split mounts comma).foldl
    (fun m mount =>
      if Contains mount "volume" then
        match (Fields mount).getLast? with
        | some name => m.set name
        | none => m
      else m) m

/-- The map `usedVolumes` of `CleanVolumes` (cleanup.go, lines 174-184). -/
def usedVolumesOf (usedOutput : String) : StrSet :=
  (linesOf usedOutput).foldl addMounts []

/-- The body of the loop of `CleanVolumes` (cleanup.go, lines 186-204). -/
def volumeStep {σ : Type} (E : Env σ) (c : Cleanup) (usedVolumes : StrSet) (volume : String)
    (s : σ) : Run σ Unit :=
  if volume = "" then ret () s
  else if usedVolumes.get volume then ret () s
  else if c.dryRun then print (.wouldRemoveVolume volume) s
  else
    (executeCommand E (.volumeRm volume) s).andThen fun r s2 =>
      match r with
      | .error err => print (.removeVolumeFailed volume err) s2
      | .ok out => print (.output out) s2

/-- Go `(*Cleanup).CleanVolumes`; the value is the returned `error`. -/
def CleanVolumes {σ : Type} (E : Env σ) (c : Cleanup) (s : σ) : Run σ (Option String) :=
  (executeCommand E .volumeLs s).andThen fun r s1 =>
    match r with
    | .error err => ret (some ("failed to list volumes: " ++ err)) s1
    | .ok output =>
      (executeCommand E .psMounts s1).andThen fun r2 s2 =>
        match r2 with
        | .error err => ret (some ("failed to get used volumes: " ++ err)) s2
        | .ok usedOutput =>
          (forEach (volumeStep E c (usedVolumesOf usedOutput)) (linesOf output) s2).andThen
            fun _ s3 => ret none s3

/-! ## Orchestrator -/

/-- The reclaimer of a phase. -/
def reclaimer {σ : Type} (E : Env σ) (c : Cleanup) : Phase → σ → Run σ (Option String)
  | .containers => CleanContainers E c
  | .images => CleanImages E c
  | .volumes => CleanVolumes E c

/-- One phase of `CleanAll`: announce it, run its reclaimer, print the error
it returned, if any. -/
def cleanAllPhase {σ : Type} (E : Env σ) (c : Cleanup) (p : Phase) (s : σ) : Run σ Unit :=
  (print (.cleaningUp p) s).andThen fun _ s1 =>
    (reclaimer E c p s1).andThen fun e s2 =>
      match e with
      | some err => print (.errorCleaning p err) s2
      | none => ret () s2

/-- Go `(*Cleanup).CleanAll`; the value is the returned `error`. -/
def CleanAll {σ : Type} (E : Env σ) (c : Cleanup) (s : σ) : Run σ (Option String) :=
  (cleanAllPhase E c .containers s).andThen fun _ s1 =>
    (cleanAllPhase E c .images s1).andThen fun _ s2 =>
      (cleanAllPhase E c .volumes s2).andThen fun _ s3 => ret none s3

/-! ## Preconditions (utils/helpers.go) -/

/-- Go `utils.IsAdmin`; the value is the returned `error`. -/
def IsAdmin {σ : Type} (E : Env σ) (s : σ) : Run σ (Option String) :=
  if E.goos = "windows" then
    match (E.run .netSession s).1.err with
    | some _ =>
      ⟨(E.run .netSession s).2, [.call .netSession],
        some (some "this program must be run as Administrator on Windows")⟩
    | none => ⟨(E.run .netSession s).2, [.call .netSession], some none⟩
  else if E.goos = "linux" ∨ E.goos = "darwin" then
    if E.euid ≠ 0 then
      if E.goos = "darwin" then ret (some "this program must be run with sudo on macOS") s
      else ret (some "this program must be run with sudo on Linux") s
    else ret none s
  else ret (some ("unsupported operating system: " ++ E.goos)) s

/-- Go `utils.IsDockerRunning`; the value is the returned `error`. -/
def IsDockerRunning {σ : Type} (E : Env σ) (s : σ) : Run σ (Option String) :=
  if E.goos = "windows" ∨ E.goos = "darwin" ∨ E.goos = "linux" then
    match (E.run .dockerInfo s).1.err with
    | some _ =>
      ⟨(E.run .dockerInfo s).2, [.call .dockerInfo],
        some (some
          (if E.goos = "windows" then
            "docker Desktop is not running on Windows. Please start Docker Desktop"
          else if E.goos = "darwin" then
            "docker Desktop is not running on macOS. Please start Docker Desktop"
          else "docker daemon is not running. Please start the Docker service"))⟩
    | none => ⟨(E.run .dockerInfo s).2, [.call .dockerInfo], some none⟩
  else ret (some ("unsupported operating system: " ++ E.goos)) s

/-! ## Subcommands (main.go) -/

/-- Go `os.Exit(1)` after printing `m`: the value `some 1` is the exit code the
process ends with at once. -/
def exitWith {σ : Type} (m : Msg) (s : σ) : Run σ (Option Nat) :=
  (print m s).andThen fun _ s1 => ret (some 1) s1

/-- The common opening of the four subcommand bodies: both preconditions, then
`NewCleanup`; `body` runs only when all three succeed. The value is `some code`
when `os.Exit(code)` was called and `none` when the function returned. -/
def withPreconditions {σ : Type} (E : Env σ) (dryRun : Bool) (olderThan : Int)
    (body : Cleanup → σ → Run σ (Option Nat)) (s : σ) : Run σ (Option Nat) :=
  (IsAdmin E s).andThen fun e s1 =>
    match e with
    | some err => exitWith (.fatal err) s1
    | none =>
      (IsDockerRunning E s1).andThen fun e2 s2 =>
        match e2 with
        | some err => exitWith (.fatal err) s2
        | none =>
          match (NewCleanup dryRun olderThan).2 with
          | some err => exitWith (.failedToInitialize err) s2
          | none => body (NewCleanup dryRun olderThan).1 s2

/-- The tail of `cleanupContainers`, `cleanupImages` and `cleanupVolumes`: run
the reclaimer and exit with 1 on its error. -/
def cleanupOne {σ : Type} (E : Env σ) (p : Phase) (c : Cleanup) (s : σ) : Run σ (Option Nat) :=
  (reclaimer E c p s).andThen fun e s1 =>
    match e with
    | some err => exitWith (.failedToCleanup p err) s1
    | none => ret none s1

/-- One phase of `cleanupAll` in main.go: announce it, run its reclaimer, print
the error it returned, if any, and go on. -/
def cleanupAllPhase {σ : Type} (E : Env σ) (c : Cleanup) (p : Phase) (s : σ) : Run σ Unit :=
  (print (.cleaningUp p) s).andThen fun _ s1 =>
    (reclaimer E c p s1).andThen fun e s2 =>
      match e with
      | some err => print (.failedToCleanup p err) s2
      | none => ret () s2

/-- Go `cleanupContainers` of main.go. -/
def cleanupContainers {σ : Type} (E : Env σ) (dryRun : Bool) (olderThan : Int) (s : σ) :
    Run σ (Option Nat) :=
  withPreconditions E dryRun olderThan (cleanupOne E .containers) s

/-- Go `cleanupImages` of main.go. -/
def cleanupImages {σ : Type} (E : Env σ) (dryRun : Bool) (olderThan : Int) (s : σ) :
    Run σ (Option Nat) :=
  withPreconditions E dryRun olderThan (cleanupOne E .images) s

/-- Go `cleanupVolumes` of main.go. -/
def cleanupVolumes {σ : Type} (E : Env σ) (dryRun : Bool) (olderThan : Int) (s : σ) :
    Run σ (Option Nat) :=
  withPreconditions E dryRun olderThan (cleanupOne E .volumes) s

/-- Go `cleanupAll` of main.go. -/
def cleanupAll {σ : Type} (E : Env σ) (dryRun : Bool) (olderThan : Int) (s : σ) :
    Run σ (Option Nat) :=
  withPreconditions E dryRun olderThan
    (fun c s0 =>
      (cleanupAllPhase E c .containers s0).andThen fun _ s1 =>
        (cleanupAllPhase E c .images s1).andThen fun _ s2 =>
          (cleanupAllPhase E c .volumes s2).andThen fun _ s3 => ret none s3) s

/-- The subcommands registered on the root command. -/
inductive Subcommand where
  | containers
  | images
  | volumes
  | all
deriving DecidableEq

/-- The `Run` function of each subcommand. -/
def runSubcommand {σ : Type} (E : Env σ) (dryRun : Bool) (olderThan : Int) :
    Subcommand → σ → Run σ (Option Nat)
  | .containers => cleanupContainers E dryRun olderThan
  | .images => cleanupImages E dryRun olderThan
  | .volumes => cleanupVolumes E dryRun olderThan
  | .all => cleanupAll E dryRun olderThan

/-- The exit code of the process: the argument of `os.Exit` when it was
called, 0 when the subcommand returned (then `rootCmd.Execute` returns `nil`
and `main` ends), and 2, the exit code of the Go runtime, after a panic. -/
def exitCode {σ : Type} (r : Run σ (Option Nat)) : Nat :=
  match r.val with
  | none => 2
  | some (some code) => code
  | some none => 0

/-! ## A sample environment

The theorems below hold for every environment. The concrete runs use a daemon
whose answers depend on the command only, a stopped clock, and a parser for
the timestamps in the form docker prints them. -/

/-- The value of a non-empty string of decimal digits. -/
def digitsVal (cs : List Char) : Option Nat :=
  if cs = [] then none
  else cs.foldl
    (fun acc c => acc.bind fun a => if c.isDigit then some (10 * a + (c.toNat - 48)) else none)
    (some 0)

/-- Days since 1970-01-01 of a date of the proleptic Gregorian calendar. -/
def daysFromCivil (y m d : Int) : Int :=
  let y1 := if m ≤ 2 then y - 1 else y
  let era := y1 / 400
  let yoe := y1 - era * 400
  let doy := (153 * (if 2 < m then m - 3 else m + 9) + 2) / 5 + d - 1
  let doe := yoe * 365 + yoe / 4 - yoe / 100 + doy
  era * 146097 + doe - 719468

/-- The number of days of month `m` of year `y`. -/
def daysIn (y m : Nat) : Nat :=
  if m = 2 then (if (y % 4 = 0 ∧ y % 100 ≠ 0) ∨ y % 400 = 0 then 29 else 28)
  else if m = 4 ∨ m = 6 ∨ m = 9 ∨ m = 11 then 30
  else 31

/-- Nanoseconds since the epoch of a valid civil date and time, read as UTC. -/
def civilNanos (y mo d h mi sec : Nat) : Option Int :=
  if 1 ≤ mo ∧ mo ≤ 12 ∧ 1 ≤ d ∧ d ≤ daysIn y mo ∧ h < 24 ∧ mi < 60 ∧ sec < 60 then
    some ((((daysFromCivil y mo d * 24 + h) * 60 + mi) * 60 + sec) * 1000000000)
  else none

/-- Read `YYYY-MM-DD?HH:MM:SS` with `sep` at the place of `?`; the instant as
UTC and the rest of the input. -/
def readDateTime (sep : Char) : List Char → Option (Int × List Char)
  | y1 :: y2 :: y3 :: y4 :: '-' :: m1 :: m2 :: '-' :: d1 :: d2 :: t :: h1 :: h2 :: ':' ::
      i1 :: i2 :: ':' :: s1 :: s2 :: rest =>
    if t = sep then
      (digitsVal [y1, y2, y3, y4]).bind fun y =>
      (digitsVal [m1, m2]).bind fun mo =>
      (digitsVal [d1, d2]).bind fun d =>
      (digitsVal [h1, h2]).bind fun h =>
      (digitsVal [i1, i2]).bind fun mi =>
      (digitsVal [s1, s2]).bind fun sec =>
      (civilNanos y mo d h mi sec).map fun n => (n, rest)
    else none
  | _ => none

/-- Read a fraction of a second, `.` and one to nine digits: its nanoseconds
and the rest of the input; no fraction reads as 0. -/
def readFraction : List Char → Option (Int × List Char)
  | '.' :: cs =>
    let ds := cs.takeWhile Char.isDigit
    if ds.length = 0 ∨ 9 < ds.length then none
    else (digitsVal ds).map fun v => ((v * 10 ^ (9 - ds.length) : Nat), cs.dropWhile Char.isDigit)
  | cs => some (0, cs)

/-- Drop the colon of an offset `hh:mm` when the layout has one. -/
def dropColon (colon : Bool) : List Char → Option (List Char)
  | c :: r => if colon then (if c = ':' then some r else none) else some (c :: r)
  | [] => if colon then none else some []

/-- Read a zone offset `+hh:mm` or `-hh:mm` (with `colon`) or `+hhmm`: its
nanoseconds east of UTC and the rest of the input. -/
def readOffset (colon : Bool) : List Char → Option (Int × List Char)
  | sign :: h1 :: h2 :: cs =>
    match dropColon colon cs with
    | some (m1 :: m2 :: rest) =>
      if sign = '+' ∨ sign = '-' then
        (digitsVal [h1, h2]).bind fun h =>
        (digitsVal [m1, m2]).bind fun m =>
          if h < 24 ∧ m < 60 then
            some ((if sign = '-' then -1 else 1) * (((h * 60 + m) * 60 * 1000000000 : Nat) : Int),
              rest)
          else none
      else none
    | _ => none
  | _ => none

/-- A parser for `time.RFC3339Nano` on the timestamps docker prints:
`2006-01-02T15:04:05.999999999Z`, or with an offset `+07:00` for `Z`. -/
def parseRFC3339NanoSample (str : String) : Except String Int :=
  match (readDateTime 'T' str.data).bind fun (t, r1) =>
      (readFraction r1).bind fun (f, r2) =>
        match r2 with
        | ['Z'] => some (t + f)
        | _ => (readOffset true r2).bind fun (o, r3) => if r3 = [] then some (t + f - o) else none
    with
  | some t => .ok t
  | none => .error ("parsing time \"" ++ str ++ "\"")

/-- A parser for the layout `2006-01-02 15:04:05 -0700 MST` on the timestamps
docker prints, such as `2024-01-15 10:30:00 +0000 UTC`: the numeric offset
fixes the instant, the abbreviation is three to five capital letters. -/
def parseCreatedAtSample (str : String) : Except String Int :=
  match (readDateTime ' ' str.data).bind fun (t, r1) =>
      match r1 with
      | ' ' :: r2 =>
        (readOffset false r2).bind fun (o, r3) =>
          match r3 with
          | ' ' :: z =>
            if 3 ≤ z.length ∧ z.length ≤ 5 ∧ z.all Char.isUpper then some (t - o) else none
          | _ => none
      | _ => none
    with
  | some t => .ok t
  | none => .error ("parsing time \"" ++ str ++ "\"")

/-- A successful command result. -/
def ok (output : String) : CmdResult :=
  ⟨output, none⟩

/-- A failed command result. -/
def failed (output err : String) : CmdResult :=
  ⟨output, some err⟩

/-- A Linux host run as root whose daemon answers by the command alone, with a
stopped clock. -/
def sampleEnv (answers : Cmd → CmdResult) (clock : Int) : Env Unit where
  goos := "linux"
  euid := 0
  run := fun cmd s => (answers cmd, s)
  now := fun s => (clock, s)
  parseRFC3339Nano := parseRFC3339NanoSample
  parseCreatedAt := parseCreatedAtSample

/-- The clock of the concrete runs: 2024-01-04 00:00:00 UTC. -/
def sampleNow : Int := 1704326400000000000


/-! ## Observations on a run -/

/-- The commands of a trace, in order. -/
def calls (tr : List Event) : List Cmd :=
  tr.filterMap fun e =>
    match e with
    | .call c => some c
    | .print _ => none

/-- The lines printed in a trace, in order. -/
def prints (tr : List Event) : List Msg :=
  tr.filterMap fun e =>
    match e with
    | .call _ => none
    | .print m => some m

/-- The mutate calls of a trace, in order. -/
def mutations (tr : List Event) : List Cmd :=
  (calls tr).filter Cmd.isMutate

/-- An initial listing command of the reclaimer of phase `p` fails when the
reclaimer is started in state `s`: `docker ps` for containers; `docker images`
or, after it, the used-image `docker ps` for images; `docker volume ls` or,
after it, the mounts `docker ps` for volumes. -/
def listingFails {σ : Type} (E : Env σ) : Phase → σ → Bool
  | .containers, s => (E.run .psStopped s).1.err.isSome
  | .images, s =>
    (E.run .images s).1.err.isSome || (E.run .psImages (E.run .images s).2).1.err.isSome
  | .volumes, s =>
    (E.run .volumeLs s).1.err.isSome || (E.run .psMounts (E.run .volumeLs s).2).1.err.isSome

/-- A daemon in which every command fails. -/
def deadDaemon : Cmd → CmdResult :=
  fun _ => failed "" "exit status 1"

/-- The containers a trace reports as "would remove", in order. -/
def reportedContainers (tr : List Event) : List String :=
  tr.filterMap fun e =>
    match e with
    | .print (.wouldRemoveContainer id) => some id
    | _ => none

/-- The images a trace reports as "would remove", in order: the name and the
first 12 bytes of the ID. -/
def reportedImages (tr : List Event) : List (String × List UInt8) :=
  tr.filterMap fun e =>
    match e with
    | .print (.wouldRemoveImage name idHead) => some (name, idHead)
    | _ => none

/-- The volumes a trace reports as "would remove", in order. -/
def reportedVolumes (tr : List Event) : List String :=
  tr.filterMap fun e =>
    match e with
    | .print (.wouldRemoveVolume v) => some v
    | _ => none

/-! ## Volume usage, read off the loops of `CleanVolumes` -/

/-- The entries of a mounts listing: the comma-separated entries of each of
its lines (the `mount` values of the inner loop of `CleanVolumes`). -/
def mountEntries (usedOutput : String) : List String :=
  (linesOf usedOutput).flatMap fun mounts => Split mounts comma

/-- The names `CleanVolumes` takes as in use: of every mount entry that
contains the text "volume", the last of its white-space-separated fields. -/
def recognisedMounts (usedOutput : String) : List String :=
  (mountEntries usedOutput).filterMap fun mount =>
    if Contains mount "volume" then (Fields mount).getLast? else none

/-- The volumes `CleanVolumes` acts on: the non-empty lines of the volume
listing that are not among the recognised mounts. -/
def eligibleVolumes (output usedOutput : String) : List String :=
  (linesOf output).filter fun v => v ≠ "" && !decide (v ∈ recognisedMounts usedOutput)

/-- A daemon with the volumes `vols` and the mounts listing `mounts`; its
removals succeed, every other listing is empty. -/
def volumeDaemon (vols mounts : String) : Cmd → CmdResult
  | .volumeLs => ok vols
  | .psMounts => ok mounts
  | .volumeRm v => ok (v ++ "\n")
  | _ => ok ""

/-- A daemon with the image listing `imgs` and the container image references
`refs`; its removals succeed, every other listing is empty. -/
def imageDaemon (imgs refs : String) : Cmd → CmdResult
  | .images => ok imgs
  | .psImages => ok refs
  | .rmi id => ok ("Deleted: " ++ id ++ "\n")
  | .imagePrune => ok "Total reclaimed space: 0B\n"
  | _ => ok ""

/-! ## The decisions of the loops, read off their bodies -/

/-- The decision of the loop of `CleanImages` on one line in state `s`:
`some (imageID, imageName)` when the line is not empty, has four fields at
least, its creation time parses, its name is not in use and its age exceeds
the threshold; these are the guards in front of lines 132-142 of cleanup.go. -/
def imageDecision {σ : Type} (E : Env σ) (c : Cleanup) (usedImages : StrSet) (line : String)
    (s : σ) : Option (String × String) :=
  if line = "" then none
  else
    match Split line tab with
    | imageID :: repo :: tag :: createdStr :: _ =>
      match E.parseCreatedAt createdStr with
      | .error _ => none
      | .ok created =>
        if !usedImages.get (repo ++ ":" ++ tag) &&
            olderThanHours (Since E created s).1 c.olderThan then
          some (imageID, repo ++ ":" ++ tag)
        else none
    | _ => none

/-- What the loop of `CleanImages` does with an eligible image, from the state
`s1` left by the clock reading (cleanup.go, lines 132-142). -/
def imageAction {σ : Type} (E : Env σ) (c : Cleanup) (imageID imageName : String) (s1 : σ) :
    Run σ Unit :=
  if c.dryRun then
    match sliceTo imageID 12 with
    | none => ⟨s1, [], none⟩
    | some idHead => print (.wouldRemoveImage imageName idHead) s1
  else
    (executeCommand E (.rmi imageID) s1).andThen fun r s2 =>
      match r with
      | .error err =>
        match sliceTo imageID 12 with
        | none => ⟨s2, [], none⟩
        | some idHead => print (.removeImageFailed idHead err) s2
      | .ok out => print (.output out) s2

/-- The image listing of the scenario: the image `i1` of `app:latest`, created
2024-01-01 00:00:00 UTC, 72 hours before `sampleNow`. -/
def scenarioImages : String :=
  "i1\tapp\tlatest\t2024-01-01 00:00:00 +0000 UTC\n"

/-- An image listing in which one image has two names: the image
`0123456789ab`, created 2024-01-01 00:00:00 UTC, listed as `app:latest` and as
`app:old`. -/
def sharedIdImages : String :=
  "0123456789ab\tapp\tlatest\t2024-01-01 00:00:00 +0000 UTC\n" ++
    "0123456789ab\tapp\told\t2024-01-01 00:00:00 +0000 UTC\n"

/-! ## Subcommands and preconditions, for the statements on exit codes -/

/-- The subcommand of a single reclaimer. -/
def Subcommand.ofPhase : Phase → Subcommand
  | .containers => .containers
  | .images => .images
  | .volumes => .volumes

/-- The run returned a non-nil `error`. -/
def returnedError {σ : Type} (r : Run σ (Option String)) : Bool :=
  match r.val with
  | some (some _) => true
  | _ => false

/-- A precondition fails: `IsAdmin` returns an error or, after it,
`IsDockerRunning` does. -/
def preconditionFails {σ : Type} (E : Env σ) (s : σ) : Bool :=
  returnedError (IsAdmin E s) || returnedError (IsDockerRunning E (IsAdmin E s).st)

/-- The state in which a subcommand starts its reclaimers: after both
preconditions. -/
def afterPreconditions {σ : Type} (E : Env σ) (s : σ) : σ :=
  (IsDockerRunning E (IsAdmin E s).st).st

/-- A daemon that answers `docker info` and fails every other command. -/
def listingDownDaemon : Cmd → CmdResult
  | .dockerInfo => ok "Server Version: 24.0.7\n"
  | _ => failed "" "exit status 1"

/-- A daemon whose image listing holds an image with the 3-byte ID `abc` and
an image with a 12-byte ID, both created 2024-01-01 00:00:00 UTC and used by no
container; `docker rmi -f abc` succeeds when `rmiOk` holds and fails
otherwise, every other command succeeds. -/
def shortIdDaemon (rmiOk : Bool) : Cmd → CmdResult
  | .images =>
    ok ("abc\tscratch\tv1\t2024-01-01 00:00:00 +0000 UTC\n" ++
      "0123456789ab\tdemo\tv2\t2024-01-01 00:00:00 +0000 UTC\n")
  | .rmi id =>
    if id = "abc" ∧ rmiOk = false then failed "Error response from daemon: conflict\n" "exit status 1"
    else ok ("Deleted: " ++ id ++ "\n")
  | .volumeLs => ok "v1\n"
  | .volumeRm v => ok (v ++ "\n")
  | .imagePrune => ok "Total reclaimed space: 0B\n"
  | _ => ok ""

/-! ## Representable values, for the statements on the age test -/

/-- A natural number with at most 53 significant binary digits: the magnitude,
in units of `2^-1074`, of a finite `float64`. -/
def Representable (Y : Nat) : Prop :=
  ∃ m j, m < 2 ^ 53 ∧ Y = m * 2 ^ j

/-- The decision of the loop of `CleanContainers` on one line in state `s`:
`some containerID` when the line is not empty, the finish time is obtained
and parses, and its age exceeds the threshold; these are the guards in front
of lines 67-77 of cleanup.go. -/
def containerDecision {σ : Type} (E : Env σ) (c : Cleanup) (container : String) (s : σ) :
    Option String :=
  if container = "" then none
  else
    match (Split container tab)[0]? with
    | none => none
    | some containerID =>
      match commandResult (E.run (.inspectFinishedAt containerID) s).1 with
      | .error _ => none
      | .ok out =>
        match E.parseRFC3339Nano (TrimSpace out) with
        | .error _ => none
        | .ok finishTime =>
          if olderThanHours (Since E finishTime (E.run (.inspectFinishedAt containerID) s).2).1
              c.olderThan then
            some containerID
          else none

/-- What the loop of `CleanContainers` does with an eligible container, from
the state `s2` left by the clock reading (cleanup.go, lines 67-77). -/
def containerAction {σ : Type} (E : Env σ) (c : Cleanup) (containerID : String) (s2 : σ) :
    Run σ Unit :=
  if c.dryRun then print (.wouldRemoveContainer containerID) s2
  else
    (executeCommand E (.rm containerID) s2).andThen fun r s3 =>
      match r with
      | .error err => print (.removeContainerFailed containerID err) s3
      | .ok out => print (.output out) s3

/-- A daemon with the stopped container `c1` whose finish time reads
`finishedAt`; its removal succeeds. -/
def containerDaemon (finishedAt : String) : Cmd → CmdResult
  | .psStopped => ok "c1\texited\n"
  | .inspectFinishedAt id => if id = "c1" then ok (finishedAt ++ "\n") else failed "" "exit status 1"
  | .rm id => ok (id ++ "\n")
  | _ => ok ""

/-! ## The daemon as explicit state, for the statement on idempotence -/

/-- The text of a listing: every line followed by a newline. -/
def render (ls : List String) : String :=
  ⟨ls.flatMap fun l => l.data ++ [newline]⟩

/-- The first tab-separated field of a listing line: the ID of its record. -/
def lineKey (line : String) : String :=
  ((Split line tab)[0]?).getD ""

/-- A listing line as the daemon prints it: not empty, without a newline, and
with no white space at either end. -/
def wfLine (x : String) : Bool :=
  match x.data.head?, x.data.getLast? with
  | some a, some b => !isSpace a && !isSpace b && !x.data.contains newline
  | _, _ => false

/-- Modelled from the spec: the part of the daemon that stays the same while a
reclaimer runs twice ("same clock, same containers' references"): the finish
time `docker inspect` prints for a container ID, the two container listings the
used sets are built from, the removals the daemon refuses, and the clock; with
it, the standard library's time parsers. -/
structure Daemon where
  finishedAt : String → String
  imageRefs : String
  mounts : String
  refuses : Cmd → Bool
  clock : Int
  parseRFC3339Nano : String → Except String Int
  parseCreatedAt : String → Except String Int

/-- Modelled from the spec: the records of the daemon, the state a removal
changes: the listing lines of the stopped containers, of the images and of
the volumes. -/
structure Records where
  containers : List String
  images : List String
  volumes : List String
deriving DecidableEq

/-- Modelled from the spec: a removal by ID succeeds when the daemon does not
refuse it and a record has the ID; it then deletes that record and nothing
else. -/
def removeBy (refused : Bool) (key : String → String) (id : String) (ls : List String) :
    CmdResult × List String :=
  if refused = false ∧ id ∈ ls.map key then
    (ok (id ++ "\n"), ls.filter fun y => key y ≠ id)
  else (failed ("Error response from daemon: " ++ id ++ "\n") "exit status 1", ls)

/-- Modelled from the spec: the daemon as explicit state. Listings print the
records; `docker inspect` answers for a listed container; a successful removal
deletes exactly its record; `docker image prune` and everything else change
nothing. -/
def Daemon.run (D : Daemon) : Cmd → Records → CmdResult × Records
  | .psStopped, s => (ok (render s.containers), s)
  | .inspectFinishedAt id, s =>
    if id ∈ s.containers.map lineKey then (ok (D.finishedAt id ++ "\n"), s)
    else (failed ("Error: No such object: " ++ id ++ "\n") "exit status 1", s)
  | .rm id, s =>
    ((removeBy (D.refuses (.rm id)) lineKey id s.containers).1,
      { s with containers := (removeBy (D.refuses (.rm id)) lineKey id s.containers).2 })
  | .images, s => (ok (render s.images), s)
  | .psImages, s => (ok D.imageRefs, s)
  | .rmi id, s =>
    ((removeBy (D.refuses (.rmi id)) lineKey id s.images).1,
      { s with images := (removeBy (D.refuses (.rmi id)) lineKey id s.images).2 })
  | .volumeLs, s => (ok (render s.volumes), s)
  | .psMounts, s => (ok D.mounts, s)
  | .volumeRm v, s =>
    ((removeBy (D.refuses (.volumeRm v)) id v s.volumes).1,
      { s with volumes := (removeBy (D.refuses (.volumeRm v)) id v s.volumes).2 })
  | _, s => (ok "", s)

/-- Modelled from the spec: the environment of a Linux host run as root in
front of the daemon `D`. -/
def Daemon.env (D : Daemon) : Env Records where
  goos := "linux"
  euid := 0
  run := D.run
  now := fun s => (D.clock, s)
  parseRFC3339Nano := D.parseRFC3339Nano
  parseCreatedAt := D.parseCreatedAt

/-- The records are as a daemon lists them: well-formed lines, and IDs that
are unique within each class. -/
def Records.wf (s : Records) : Prop :=
  (∀ x ∈ s.containers, wfLine x = true) ∧ (s.containers.map lineKey).Nodup ∧
    (∀ x ∈ s.images, wfLine x = true) ∧ (s.images.map lineKey).Nodup ∧
    (∀ x ∈ s.volumes, wfLine x = true) ∧ s.volumes.Nodup

/-- The per-record removal calls of a trace, in order: its mutate calls other
than `docker image prune`. -/
def itemRemovals (tr : List Event) : List Cmd :=
  (mutations tr).filter fun c => decide (c ≠ .imagePrune)

/-- The records a loop attempts to remove, given which are eligible, which
removals are refused and which refusals make the loop panic. -/
def attempts (elig refused short : String → Bool) : List String → List String
  | [] => []
  | x :: xs =>
    if elig x then
      if refused x && short x then [x] else x :: attempts elig refused short xs
    else attempts elig refused short xs

/-- The records a loop leaves. -/
def survivors (elig refused short : String → Bool) : List String → List String
  | [] => []
  | x :: xs =>
    if elig x then
      if refused x then
        if short x then x :: xs else x :: survivors elig refused short xs
      else survivors elig refused short xs
    else x :: survivors elig refused short xs

/-- The volume records the loop of `CleanVolumes` decides to remove. -/
def volumeEligible (usedVolumes : StrSet) (x : String) : Bool :=
  decide (x ≠ "") && !usedVolumes.get x

/-- The container records the loop of `CleanContainers` decides to remove in
front of the daemon `D`. -/
def containerEligible (D : Daemon) (c : Cleanup) (x : String) : Bool :=
  decide (x ≠ "") &&
    match D.parseRFC3339Nano (TrimSpace (D.finishedAt (lineKey x) ++ "\n")) with
    | .ok finishTime => olderThanHours (Sub D.clock finishTime) c.olderThan
    | .error _ => false

/-- The image records the loop of `CleanImages` decides to remove in front of
the daemon `D`. -/
def imageEligible (D : Daemon) (c : Cleanup) (x : String) : Bool :=
  (imageDecision D.env c (usedImagesOf D.imageRefs) x ⟨[], [], []⟩).isSome

/-- The removal commands of the records of a phase that the daemon holds. -/
def removalCommands : Phase → Records → List Cmd
  | .containers, s => s.containers.map fun x => Cmd.rm (lineKey x)
  | .images, s => s.images.map fun x => Cmd.rmi (lineKey x)
  | .volumes, s => s.volumes.map Cmd.volumeRm

/-- The listing lines of the records of a phase that the daemon holds. -/
def Records.of : Phase → Records → List String
  | .containers, s => s.containers
  | .images, s => s.images
  | .volumes, s => s.volumes

/-- The eligibility test of the reclaimer of a phase on a listed record, in
front of the daemon `D`: the guards of its loop. -/
def eligible (D : Daemon) (c : Cleanup) : Phase → String → Bool
  | .containers => containerEligible D c
  | .images => imageEligible D c
  | .volumes => volumeEligible (usedVolumesOf D.mounts)

/-- The removal command of a listed record of a phase. -/
def removalOf : Phase → String → Cmd
  | .containers => fun x => .rm (lineKey x)
  | .images => fun x => .rmi (lineKey x)
  | .volumes => Cmd.volumeRm

/-- The eligible set of a phase in the state `s`: the records the daemon
holds that pass the eligibility test, in listing order. -/
def eligibleSet (D : Daemon) (c : Cleanup) (p : Phase) (s : Records) : List String :=
  (Records.of p s).filter (eligible D c p)

/-- A daemon with two stopped containers, two images and two volumes, all old
and unused, that refuses the removals in `refused`. -/
def sampleDaemon (refused : List Cmd) : Daemon where
  finishedAt := fun _ => "2024-01-01T00:00:00Z"
  imageRefs := ""
  mounts := ""
  refuses := fun cmd => decide (cmd ∈ refused)
  clock := sampleNow
  parseRFC3339Nano := parseRFC3339NanoSample
  parseCreatedAt := parseCreatedAtSample

/-- The records of the sample daemon. -/
def sampleRecords : Records where
  containers := ["c1\texited", "c2\tdead"]
  images :=
    ["0123456789ab\tdemo\tv1\t2024-01-01 00:00:00 +0000 UTC",
      "ba9876543210\tdemo\tv2\t2024-01-01 00:00:00 +0000 UTC"]
  volumes := ["v1", "v2"]

/-! # Theorems -/

section Basics

variable {σ α β : Type}

@[simp] theorem ret_st (a : α) (s : σ) : (ret a s).st = s := rfl

@[simp] theorem ret_trace (a : α) (s : σ) : (ret a s).trace = [] := rfl

@[simp] theorem ret_val (a : α) (s : σ) : (ret a s).val = some a := rfl

@[simp] theorem print_st (m : Msg) (s : σ) : (print m s).st = s := rfl

@[simp] theorem print_trace (m : Msg) (s : σ) : (print m s).trace = [.print m] := rfl

@[simp] theorem print_val (m : Msg) (s : σ) : (print m s).val = some () := rfl

@[simp] theorem executeCommand_st (E : Env σ) (cmd : Cmd) (s : σ) :
    (executeCommand E cmd s).st = (E.run cmd s).2 := rfl

@[simp] theorem executeCommand_trace (E : Env σ) (cmd : Cmd) (s : σ) :
    (executeCommand E cmd s).trace = [.call cmd] := rfl

@[simp] theorem executeCommand_val (E : Env σ) (cmd : Cmd) (s : σ) :
    (executeCommand E cmd s).val = some (commandResult (E.run cmd s).1) := rfl

theorem andThen_some (r : Run σ α) (k : α → σ → Run σ β) (a : α) (h : r.val = some a) :
    r.andThen k = ⟨(k a r.st).st, r.trace ++ (k a r.st).trace, (k a r.st).val⟩ := by
  unfold Run.andThen; rw [h]

theorem andThen_none (r : Run σ α) (k : α → σ → Run σ β) (h : r.val = none) :
    r.andThen k = ⟨r.st, r.trace, none⟩ := by
  unfold Run.andThen; rw [h]

theorem andThen_val (r : Run σ α) (k : α → σ → Run σ β) :
    (r.andThen k).val =
      match r.val with
      | none => none
      | some a => (k a r.st).val := by
  unfold Run.andThen
  cases r.val <;> rfl

@[simp] theorem executeCommand_andThen (E : Env σ) (cmd : Cmd) (s : σ)
    (k : Except String String → σ → Run σ β) :
    (executeCommand E cmd s).andThen k =
      ⟨(k (commandResult (E.run cmd s).1) (E.run cmd s).2).st,
        .call cmd :: (k (commandResult (E.run cmd s).1) (E.run cmd s).2).trace,
        (k (commandResult (E.run cmd s).1) (E.run cmd s).2).val⟩ := rfl

@[simp] theorem print_andThen (m : Msg) (s : σ) (k : Unit → σ → Run σ β) :
    (print m s).andThen k = ⟨(k () s).st, .print m :: (k () s).trace, (k () s).val⟩ := rfl

@[simp] theorem ret_andThen (a : α) (s : σ) (k : α → σ → Run σ β) :
    (ret a s).andThen k = k a s := rfl

theorem commandResult_error_iff (r : CmdResult) :
    (∃ e, commandResult r = .error e) ↔ r.err.isSome = true := by
  unfold commandResult; cases r.err <;> simp

theorem commandResult_of_none (r : CmdResult) (h : r.err.isSome = false) :
    commandResult r = .ok r.output := by
  unfold commandResult; cases hr : r.err <;> simp_all

@[simp] theorem calls_append (a b : List Event) : calls (a ++ b) = calls a ++ calls b := by
  simp [calls]

@[simp] theorem mutations_append (a b : List Event) :
    mutations (a ++ b) = mutations a ++ mutations b := by
  simp [mutations]

@[simp] theorem mutations_nil : mutations [] = [] := rfl

@[simp] theorem mutations_print (m : Msg) (tr : List Event) :
    mutations (.print m :: tr) = mutations tr := by
  simp [mutations, calls]

@[simp] theorem mutations_call (c : Cmd) (tr : List Event) :
    mutations (.call c :: tr) = if c.isMutate then c :: mutations tr else mutations tr := by
  simp [mutations, calls, List.filter_cons]

end Basics

section Listing

variable {σ : Type}

/-- A reclaimer whose listing fails returns an error and mutates nothing. -/
theorem reclaimer_of_listingFails (E : Env σ) (c : Cleanup) (p : Phase) (s : σ)
    (h : listingFails E p s = true) :
    (∃ msg, (reclaimer E c p s).val = some (some msg)) ∧
      mutations (reclaimer E c p s).trace = [] := by
  cases p
  · obtain ⟨e, he⟩ := (commandResult_error_iff _).2 h
    simp [reclaimer, CleanContainers, he, Cmd.isMutate]
  · simp only [listingFails, Bool.or_eq_true] at h
    rcases hi : (E.run .images s).1.err.isSome with _ | _
    · rw [hi] at h
      obtain ⟨e, he⟩ := (commandResult_error_iff _).2 (by simpa using h)
      simp [reclaimer, CleanImages, commandResult_of_none _ hi, he, Cmd.isMutate]
    · obtain ⟨e, he⟩ := (commandResult_error_iff _).2 hi
      simp [reclaimer, CleanImages, he, Cmd.isMutate]
  · simp only [listingFails, Bool.or_eq_true] at h
    rcases hi : (E.run .volumeLs s).1.err.isSome with _ | _
    · rw [hi] at h
      obtain ⟨e, he⟩ := (commandResult_error_iff _).2 (by simpa using h)
      simp [reclaimer, CleanVolumes, commandResult_of_none _ hi, he, Cmd.isMutate]
    · obtain ⟨e, he⟩ := (commandResult_error_iff _).2 hi
      simp [reclaimer, CleanVolumes, he, Cmd.isMutate]

/-- C6. If an initial listing command of a reclaimer fails, the reclaimer
returns a non-nil error and its trace holds no mutate call. -/
theorem listing_failure_is_fatal (E : Env σ) (c : Cleanup) (p : Phase) (s : σ)
    (h : listingFails E p s = true) :
    (∃ msg, (reclaimer E c p s).val = some (some msg)) ∧
      mutations (reclaimer E c p s).trace = [] := by
  cases p
  · obtain ⟨e, he⟩ := (commandResult_error_iff _).2 h
    simp [reclaimer, CleanContainers, he, Cmd.isMutate]
  · simp only [listingFails, Bool.or_eq_true] at h
    rcases hi : (E.run .images s).1.err.isSome with _ | _
    · rw [hi] at h
      obtain ⟨e, he⟩ := (commandResult_error_iff _).2 (by simpa using h)
      simp [reclaimer, CleanImages, commandResult_of_none _ hi, he, Cmd.isMutate]
    · obtain ⟨e, he⟩ := (commandResult_error_iff _).2 hi
      simp [reclaimer, CleanImages, he, Cmd.isMutate]
  · simp only [listingFails, Bool.or_eq_true] at h
    rcases hi : (E.run .volumeLs s).1.err.isSome with _ | _
    · rw [hi] at h
      obtain ⟨e, he⟩ := (commandResult_error_iff _).2 (by simpa using h)
      simp [reclaimer, CleanVolumes, commandResult_of_none _ hi, he, Cmd.isMutate]
    · obtain ⟨e, he⟩ := (commandResult_error_iff _).2 hi
      simp [reclaimer, CleanVolumes, he, Cmd.isMutate]

/-- C6, at a daemon in which every command fails: the image reclaimer, live. -/
theorem listing_failure_is_fatal_witness :
    listingFails (sampleEnv deadDaemon sampleNow) .images () = true ∧
      ((∃ msg, (reclaimer (sampleEnv deadDaemon sampleNow) ⟨false, 24⟩ .images ()).val
          = some (some msg)) ∧
        mutations (reclaimer (sampleEnv deadDaemon sampleNow) ⟨false, 24⟩ .images ()).trace
          = []) :=
  ⟨by decide, listing_failure_is_fatal _ _ _ _ (by decide)⟩

end Listing

section Loops

variable {σ β γ : Type}

@[simp] theorem forEach_nil (body : β → σ → Run σ Unit) (s : σ) :
    forEach body [] s = ret () s := rfl

theorem forEach_cons (body : β → σ → Run σ Unit) (x : β) (xs : List β) (s : σ) :
    forEach body (x :: xs) s = (body x s).andThen fun _ s1 => forEach body xs s1 := rfl

/-- A loop whose body never panics does not panic. -/
theorem forEach_val (body : β → σ → Run σ Unit) (hv : ∀ x s, (body x s).val = some ())
    (xs : List β) (s : σ) : (forEach body xs s).val = some () := by
  induction xs generalizing s with
  | nil => rfl
  | cons x xs ih => rw [forEach_cons, andThen_some _ _ _ (hv x s)]; exact ih _

/-- Every event of a loop is an event of one of its iterations. -/
theorem forEach_trace_mem (body : β → σ → Run σ Unit) (xs : List β) (s : σ) (e : Event)
    (h : e ∈ (forEach body xs s).trace) : ∃ x ∈ xs, ∃ s1, e ∈ (body x s1).trace := by
  induction xs generalizing s with
  | nil => simp at h
  | cons x xs ih =>
    rw [forEach_cons] at h
    unfold Run.andThen at h
    split at h
    · exact ⟨x, List.mem_cons_self _ _, s, h⟩
    · rcases List.mem_append.1 h with h1 | h2
      · exact ⟨x, List.mem_cons_self _ _, s, h1⟩
      · obtain ⟨y, hy, s1, h3⟩ := ih _ h2
        exact ⟨y, List.mem_cons_of_mem _ hy, s1, h3⟩

/-- An additive observation of a loop whose body never panics and shows the
same thing in every state: the observations of the iterations, in order. -/
theorem forEach_obs (obs : List Event → List γ) (hnil : obs [] = [])
    (happ : ∀ a b, obs (a ++ b) = obs a ++ obs b) (body : β → σ → Run σ Unit)
    (f : β → List γ) (hv : ∀ x s, (body x s).val = some ())
    (hf : ∀ x s, obs (body x s).trace = f x) (xs : List β) (s : σ) :
    obs (forEach body xs s).trace = xs.flatMap f := by
  induction xs generalizing s with
  | nil => simpa using hnil
  | cons x xs ih =>
    rw [forEach_cons, andThen_some _ _ _ (hv x s)]
    simp [happ, hf, ih]

end Loops

section Volumes

variable {σ : Type}

theorem mem_foldl_addMounts_inner (ms : List String) (m : StrSet) (v : String) :
    v ∈ ms.foldl
        (fun m mount =>
          if Contains mount "volume" then
            match (Fields mount).getLast? with
            | some name => m.set name
            | none => m
          else m) m ↔
      v ∈ m ∨ v ∈ ms.filterMap fun mount =>
        if Contains mount "volume" then (Fields mount).getLast? else none := by
  induction ms generalizing m with
  | nil => simp
  | cons a ms ih =>
    rw [List.foldl_cons, ih, List.filterMap_cons]
    by_cases hc : Contains a "volume" = true
    · rcases hl : (Fields a).getLast? with _ | name
      · simp [hc, hl]
      · simp [hc, hl, StrSet.set]
        tauto
    · simp [hc]

theorem mem_foldl_addMounts (ls : List String) (m : StrSet) (v : String) :
    v ∈ ls.foldl addMounts m ↔
      v ∈ m ∨ v ∈ (ls.flatMap fun mounts => Split mounts comma).filterMap fun mount =>
        if Contains mount "volume" then (Fields mount).getLast? else none := by
  induction ls generalizing m with
  | nil => simp
  | cons a ls ih =>
    rw [List.foldl_cons, ih]
    simp only [addMounts, mem_foldl_addMounts_inner, List.flatMap_cons, List.filterMap_append,
      List.mem_append]
    tauto

/-- The map `usedVolumes` holds exactly the recognised mounts. -/
theorem mem_usedVolumesOf (usedOutput v : String) :
    v ∈ usedVolumesOf usedOutput ↔ v ∈ recognisedMounts usedOutput := by
  simp [usedVolumesOf, mem_foldl_addMounts, recognisedMounts, mountEntries]

theorem volumeStep_val (E : Env σ) (c : Cleanup) (used : StrSet) (v : String) (s : σ) :
    (volumeStep E c used v s).val = some () := by
  unfold volumeStep
  split_ifs
  · rfl
  · rfl
  · rfl
  · simp only [executeCommand_andThen]; split <;> rfl

theorem volumeStep_mutations (E : Env σ) (c : Cleanup) (used : StrSet) (v : String) (s : σ) :
    mutations (volumeStep E c used v s).trace =
      if v ≠ "" ∧ used.get v = false ∧ c.dryRun = false then [.volumeRm v] else [] := by
  unfold volumeStep
  split_ifs <;> simp_all [Cmd.isMutate]
  split <;> simp

theorem volumeStep_reported (E : Env σ) (c : Cleanup) (used : StrSet) (v : String) (s : σ) :
    reportedVolumes (volumeStep E c used v s).trace =
      if v ≠ "" ∧ used.get v = false ∧ c.dryRun = true then [v] else [] := by
  unfold volumeStep
  split_ifs <;> simp_all [reportedVolumes]
  split <;> simp

theorem flatMap_ite_singleton {α β : Type} (p : α → Prop) [DecidablePred p] (f : α → β)
    (xs : List α) :
    (xs.flatMap fun x => if p x then [f x] else []) = (xs.filter fun x => decide (p x)).map f := by
  induction xs with
  | nil => rfl
  | cons x xs ih =>
    by_cases h : p x <;> simp [List.flatMap_cons, List.filter_cons, h, ih]

end Volumes

section VolumesMain

variable {σ : Type}

/-- The rule `CleanVolumes` applies. When both listings succeed, it returns nil
and acts on exactly the eligible volumes, in listing order: live, it issues
`docker volume rm` for each of them and for nothing else; in a dry run it
reports each of them and issues no mutate call. A listed volume is eligible
exactly when its name is not empty and no mount entry that contains the text
"volume" has the name as its last white-space-separated field. -/
theorem volume_eligibility (E : Env σ) (c : Cleanup) (s : σ)
    (h : listingFails E .volumes s = false) :
    (CleanVolumes E c s).val = some none ∧
      mutations (CleanVolumes E c s).trace =
        (if c.dryRun then []
          else (eligibleVolumes (E.run .volumeLs s).1.output
            (E.run .psMounts (E.run .volumeLs s).2).1.output).map Cmd.volumeRm) ∧
      reportedVolumes (CleanVolumes E c s).trace =
        (if c.dryRun then eligibleVolumes (E.run .volumeLs s).1.output
            (E.run .psMounts (E.run .volumeLs s).2).1.output
          else []) ∧
      ∀ v, v ∈ eligibleVolumes (E.run .volumeLs s).1.output
            (E.run .psMounts (E.run .volumeLs s).2).1.output ↔
          v ∈ linesOf (E.run .volumeLs s).1.output ∧ v ≠ "" ∧
            ¬ ∃ entry ∈ mountEntries (E.run .psMounts (E.run .volumeLs s).2).1.output,
              Contains entry "volume" = true ∧ (Fields entry).getLast? = some v := by
  simp only [listingFails, Bool.or_eq_false_iff] at h
  have h1 := commandResult_of_none _ h.1
  have h2 := commandResult_of_none _ h.2
  have hm := forEach_obs mutations rfl mutations_append
    (volumeStep E c (usedVolumesOf (E.run .psMounts (E.run .volumeLs s).2).1.output))
    _ (volumeStep_val E c _) (volumeStep_mutations E c _)
    (linesOf (E.run .volumeLs s).1.output) (E.run .psMounts (E.run .volumeLs s).2).2
  have hr := forEach_obs reportedVolumes rfl (fun a b => by simp [reportedVolumes])
    (volumeStep E c (usedVolumesOf (E.run .psMounts (E.run .volumeLs s).2).1.output))
    _ (volumeStep_val E c _) (volumeStep_reported E c _)
    (linesOf (E.run .volumeLs s).1.output) (E.run .psMounts (E.run .volumeLs s).2).2
  have hv := forEach_val
    (volumeStep E c (usedVolumesOf (E.run .psMounts (E.run .volumeLs s).2).1.output))
    (volumeStep_val E c _)
    (linesOf (E.run .volumeLs s).1.output) (E.run .psMounts (E.run .volumeLs s).2).2
  refine ⟨?_, ?_, ?_, ?_⟩
  · simp [CleanVolumes, h1, h2, andThen_some _ _ _ hv]
  · simp only [CleanVolumes, executeCommand_andThen, h1, h2, andThen_some _ _ _ hv, ret_trace,
      List.append_nil, mutations_call, Cmd.isMutate, Bool.false_eq_true, if_false, hm]
    cases hd : c.dryRun
    · simp [flatMap_ite_singleton, eligibleVolumes, StrSet.get, mem_usedVolumesOf]
    · simp
  · have hcall : ∀ (cmd : Cmd) (tr : List Event),
        reportedVolumes (.call cmd :: tr) = reportedVolumes tr := by
      intro cmd tr; simp [reportedVolumes]
    simp only [CleanVolumes, executeCommand_andThen, h1, h2, andThen_some _ _ _ hv, ret_trace,
      List.append_nil, hcall, hr]
    cases hd : c.dryRun
    · simp
    · simp [flatMap_ite_singleton, eligibleVolumes, StrSet.get, mem_usedVolumesOf]
  · intro v
    simp only [eligibleVolumes, recognisedMounts, List.mem_filter, List.mem_filterMap,
      Bool.and_eq_true, decide_eq_true_eq, Bool.not_eq_true', decide_eq_false_iff_not]
    constructor
    · rintro ⟨hl, hne, hno⟩
      refine ⟨hl, hne, ?_⟩
      rintro ⟨entry, he, hc, hf⟩
      exact hno ⟨entry, he, by simp [hc, hf]⟩
    · rintro ⟨hl, hne, hno⟩
      refine ⟨hl, hne, ?_⟩
      rintro ⟨entry, he, hf⟩
      by_cases hc : Contains entry "volume" = true
      · exact hno ⟨entry, he, hc, by simpa [hc] using hf⟩
      · simp [hc] at hf

/-- The rule of `CleanVolumes` at the volumes `dbvolume` and `v2` with a
container that mounts `dbvolume`: live, only `v2` is removed. -/
theorem volume_eligibility_witness :
    listingFails (sampleEnv (volumeDaemon "dbvolume\nv2\n" "dbvolume\n") sampleNow) .volumes ()
        = false ∧
      mutations
          (CleanVolumes (sampleEnv (volumeDaemon "dbvolume\nv2\n" "dbvolume\n") sampleNow)
            ⟨false, 24⟩ ()).trace = [.volumeRm "v2"] :=
  ⟨by decide, (volume_eligibility _ _ _ (by decide)).2.1.trans (by decide)⟩

/-- C2 at the failing input: with the volumes `v1` and `v2` and a mounts
listing whose only entry is `v1`, the name of the volume a container mounts,
the entry is not recorded in `usedVolumes`, because it does not contain the
text "volume": the live run issues `docker volume rm -f v1` and the dry run
reports `v1`. -/
theorem referenced_volume_is_eligible :
    "v1" ∈ mountEntries "v1\n" ∧
      mutations
          (CleanVolumes (sampleEnv (volumeDaemon "v1\nv2\n" "v1\n") sampleNow)
            ⟨false, 24⟩ ()).trace = [.volumeRm "v1", .volumeRm "v2"] ∧
      reportedVolumes
          (CleanVolumes (sampleEnv (volumeDaemon "v1\nv2\n" "v1\n") sampleNow)
            ⟨true, 24⟩ ()).trace = ["v1", "v2"] := by
  decide

end VolumesMain

section Images

variable {σ : Type}

theorem name_ne_empty (repo tag : String) : repo ++ ":" ++ tag ≠ "" := by
  intro h
  have := congrArg String.length h
  simp only [String.length_append] at this
  have h1 : ":".length = 1 := by decide
  have h2 : "".length = 0 := by decide
  omega

theorem mem_usedImagesOf_aux (ls : List String) (m : StrSet) (k : String) :
    k ∈ ls.foldl (fun m img => if img ≠ "" then m.set img else m) m ↔
      k ∈ m ∨ (k ≠ "" ∧ k ∈ ls) := by
  induction ls generalizing m with
  | nil => simp
  | cons a ls ih =>
    rw [List.foldl_cons, ih]
    by_cases ha : a = ""
    · subst ha
      simp only [ne_eq, not_true_eq_false, if_false, List.mem_cons]
      constructor
      · rintro (h | ⟨h1, h2⟩)
        · exact Or.inl h
        · exact Or.inr ⟨h1, Or.inr h2⟩
      · rintro (h | ⟨h1, h2 | h2⟩)
        · exact Or.inl h
        · exact absurd h2 h1
        · exact Or.inr ⟨h1, h2⟩
    · simp only [ne_eq, ha, not_false_eq_true, if_true, StrSet.set, List.mem_cons]
      constructor
      · rintro ((h | h) | ⟨h1, h2⟩)
        · exact Or.inr ⟨h ▸ ha, Or.inl h⟩
        · exact Or.inl h
        · exact Or.inr ⟨h1, Or.inr h2⟩
      · rintro (h | ⟨h1, h2 | h2⟩)
        · exact Or.inl (Or.inr h)
        · exact Or.inl (Or.inl h2)
        · exact Or.inr ⟨h1, h2⟩

/-- The map `usedImages` holds exactly the non-empty lines of the listing of
container image references. -/
theorem mem_usedImagesOf (usedOutput k : String) :
    k ∈ usedImagesOf usedOutput ↔ k ≠ "" ∧ k ∈ linesOf usedOutput := by
  unfold usedImagesOf
  rw [mem_usedImagesOf_aux]
  simp

theorem usedImages_get_name (usedOutput repo tag : String) :
    (usedImagesOf usedOutput).get (repo ++ ":" ++ tag) = true ↔
      repo ++ ":" ++ tag ∈ linesOf usedOutput := by
  simp [StrSet.get, mem_usedImagesOf, name_ne_empty]

/-- The loop body of `CleanImages` on a line with four fields at least. -/
theorem imageStep_fields (E : Env σ) (c : Cleanup) (used : StrSet) (line : String) (s : σ)
    (imageID repo tag createdStr : String) (rest : List String) (hne : line ≠ "")
    (hs : Split line tab = imageID :: repo :: tag :: createdStr :: rest) :
    imageStep E c used line s =
      match E.parseCreatedAt createdStr with
      | .error err => print (.creationTimeUnparsed imageID err) s
      | .ok created =>
        if used.get (repo ++ ":" ++ tag) then ret () s
        else if olderThanHours (Since E created s).1 c.olderThan then
          if c.dryRun then
            match sliceTo imageID 12 with
            | none => ⟨(Since E created s).2, [], none⟩
            | some idHead =>
              print (.wouldRemoveImage (repo ++ ":" ++ tag) idHead) (Since E created s).2
          else
            (executeCommand E (.rmi imageID) (Since E created s).2).andThen fun r s2 =>
              match r with
              | .error err =>
                match sliceTo imageID 12 with
                | none => ⟨s2, [], none⟩
                | some idHead => print (.removeImageFailed idHead err) s2
              | .ok out => print (.output out) s2
        else ret () (Since E created s).2 := by
  unfold imageStep
  simp [hne, hs]

/-- The loop body of `CleanImages` on a line it skips: an empty line or one
with fewer than four fields. -/
theorem imageStep_skip (E : Env σ) (c : Cleanup) (used : StrSet) (line : String) (s : σ)
    (h : line = "" ∨ (Split line tab).length < 4) : imageStep E c used line s = ret () s := by
  unfold imageStep
  rcases h with h | h
  · simp [h]
  · simp [h]

/-- A line is skipped or has four fields at least. -/
theorem line_cases (line : String) :
    (line = "" ∨ (Split line tab).length < 4) ∨
      (line ≠ "" ∧ ∃ imageID repo tag createdStr rest,
        Split line tab = imageID :: repo :: tag :: createdStr :: rest) := by
  by_cases hne : line = ""
  · exact Or.inl (Or.inl hne)
  · rcases hs : Split line tab with _ | ⟨a, _ | ⟨b, _ | ⟨c, _ | ⟨d, rest⟩⟩⟩⟩
    · exact Or.inl (Or.inr (by simp))
    · exact Or.inl (Or.inr (by simp))
    · exact Or.inl (Or.inr (by simp))
    · exact Or.inl (Or.inr (by simp))
    · exact Or.inr ⟨hne, a, b, c, d, rest, rfl⟩

end Images

section ImageDecision

variable {σ : Type}

theorem imageDecision_skip (E : Env σ) (c : Cleanup) (used : StrSet) (line : String) (s : σ)
    (h : line = "" ∨ (Split line tab).length < 4) : imageDecision E c used line s = none := by
  unfold imageDecision
  rcases h with h | h
  · simp [h]
  · split_ifs
    · rfl
    · rcases hs : Split line tab with _ | ⟨a, _ | ⟨b, _ | ⟨d, _ | ⟨e, rest⟩⟩⟩⟩
      · rfl
      · rfl
      · rfl
      · rfl
      · rw [hs] at h
        simp only [List.length_cons] at h
        omega

theorem imageDecision_some (E : Env σ) (c : Cleanup) (used : StrSet) (line : String) (s : σ)
    (imageID imageName : String) :
    imageDecision E c used line s = some (imageID, imageName) ↔
      line ≠ "" ∧ ∃ repo tag createdStr rest created,
        Split line tab = imageID :: repo :: tag :: createdStr :: rest ∧
        imageName = repo ++ ":" ++ tag ∧
        E.parseCreatedAt createdStr = .ok created ∧
        used.get imageName = false ∧
        olderThanHours (Since E created s).1 c.olderThan = true := by
  rcases line_cases line with hsk | ⟨hne, a, b, d, e, rest, hs⟩
  · rw [imageDecision_skip E c used line s hsk]
    constructor
    · intro h
      cases h
    · rintro ⟨hne, repo, tag, createdStr, rest, created, hs, _⟩
      rcases hsk with h | h
      · exact absurd h hne
      · rw [hs] at h
        simp only [List.length_cons] at h
        omega
  · unfold imageDecision
    simp only [hne, if_false, hs]
    rcases hp : E.parseCreatedAt e with err | created
    · constructor
      · intro h
        cases h
      · rintro ⟨_, repo, tag, createdStr, rest1, created1, h1, h2, h3, h4, h5⟩
        simp only [List.cons.injEq] at h1
        obtain ⟨rfl, rfl, rfl, rfl, rfl⟩ := h1
        rw [hp] at h3
        cases h3
    · simp only [Bool.and_eq_true, Bool.not_eq_true']
      constructor
      · intro hd
        split_ifs at hd with hc
        simp only [Option.some.injEq, Prod.mk.injEq] at hd
        obtain ⟨rfl, rfl⟩ := hd
        exact ⟨hne, b, d, e, rest, created, rfl, rfl, hp, hc.1, hc.2⟩
      · rintro ⟨_, repo, tag, createdStr, rest1, created1, h1, h2, h3, h4, h5⟩
        simp only [List.cons.injEq] at h1
        obtain ⟨rfl, rfl, rfl, rfl, rfl⟩ := h1
        rw [hp] at h3
        cases h3
        subst h2
        simp [h4, h5]

/-- On a line it decides against, the loop body of `CleanImages` does not
panic and prints at most the parse failure. -/
theorem imageStep_of_none (E : Env σ) (c : Cleanup) (used : StrSet) (line : String) (s : σ)
    (h : imageDecision E c used line s = none) :
    (imageStep E c used line s).val = some () ∧
      ((imageStep E c used line s).trace = [] ∨
        ∃ id err, (imageStep E c used line s).trace = [.print (.creationTimeUnparsed id err)]) := by
  rcases line_cases line with hsk | ⟨hne, a, b, d, e, rest, hs⟩
  · rw [imageStep_skip E c used line s hsk]
    exact ⟨rfl, Or.inl rfl⟩
  · rw [imageStep_fields E c used line s a b d e rest hne hs]
    unfold imageDecision at h
    simp only [hne, if_false, hs] at h
    rcases hp : E.parseCreatedAt e with err | created
    · exact ⟨rfl, Or.inr ⟨a, err, rfl⟩⟩
    · rw [hp] at h
      simp only at h ⊢
      by_cases hu : used.get (b ++ ":" ++ d) = true
      · simp only [hu, if_true]
        exact ⟨rfl, Or.inl rfl⟩
      · simp only [hu, Bool.false_eq_true, if_false]
        by_cases ho : olderThanHours (Since E created s).1 c.olderThan = true
        · simp [hu, ho] at h
        · simp only [ho, Bool.false_eq_true, if_false]
          exact ⟨rfl, Or.inl rfl⟩

/-- On an eligible image, the loop body of `CleanImages` reads the clock and
acts on the image. -/
theorem imageStep_of_some (E : Env σ) (c : Cleanup) (used : StrSet) (line : String) (s : σ)
    (imageID imageName : String) (h : imageDecision E c used line s = some (imageID, imageName)) :
    imageStep E c used line s = imageAction E c imageID imageName (E.now s).2 := by
  obtain ⟨hne, repo, tag, createdStr, rest, created, hs, rfl, hp, hu, ho⟩ :=
    (imageDecision_some E c used line s imageID imageName).1 h
  rw [imageStep_fields E c used line s imageID repo tag createdStr rest hne hs, hp]
  simp only [hu, Bool.false_eq_true, if_false, ho, if_true]
  rfl

end ImageDecision

section Panics

variable {σ β : Type}

/-- A loop panics exactly when, after some iterations that do not, the next
one does. -/
theorem forEach_panics_iff (body : β → σ → Run σ Unit) (xs : List β) (s : σ) :
    (forEach body xs s).val = none ↔
      ∃ pre x post, xs = pre ++ x :: post ∧ (forEach body pre s).val = some () ∧
        (body x (forEach body pre s).st).val = none := by
  induction xs generalizing s with
  | nil =>
    constructor
    · intro h
      cases h
    · rintro ⟨pre, x, post, h, _⟩
      simp at h
  | cons y ys ih =>
    rw [forEach_cons]
    rcases hy : (body y s).val with _ | u
    · rw [andThen_none _ _ hy]
      exact ⟨fun _ => ⟨[], y, ys, rfl, rfl, hy⟩, fun _ => rfl⟩
    · rw [andThen_some _ _ _ hy]
      simp only
      rw [ih]
      constructor
      · rintro ⟨pre, x, post, h1, h2, h3⟩
        refine ⟨y :: pre, x, post, by simp [h1], ?_, ?_⟩
        · rw [forEach_cons, andThen_some _ _ _ hy]
          exact h2
        · rw [forEach_cons, andThen_some _ _ _ hy]
          exact h3
      · rintro ⟨pre, x, post, h1, h2, h3⟩
        rcases pre with _ | ⟨z, pre⟩
        · simp only [List.nil_append, List.cons.injEq] at h1
          obtain ⟨rfl, rfl⟩ := h1
          simp only [forEach_nil, ret_st] at h3
          rw [hy] at h3
          cases h3
        · simp only [List.cons_append, List.cons.injEq] at h1
          obtain ⟨rfl, rfl⟩ := h1
          rw [forEach_cons, andThen_some _ _ _ hy] at h2 h3
          exact ⟨pre, x, post, rfl, h2, h3⟩

theorem sliceTo_eq_none (s : String) (n : Nat) : sliceTo s n = none ↔ len s < n := by
  unfold sliceTo
  split_ifs with h
  · simp
    omega
  · simp
    omega

/-- Acting on an eligible image panics exactly when its ID is shorter than 12
bytes and the run is a dry run or the removal fails. -/
theorem imageAction_panics_iff (E : Env σ) (c : Cleanup) (imageID imageName : String) (s1 : σ) :
    (imageAction E c imageID imageName s1).val = none ↔
      len imageID < 12 ∧
        (c.dryRun = true ∨ (E.run (.rmi imageID) s1).1.err.isSome = true) := by
  unfold imageAction
  rcases hsl : sliceTo imageID 12 with _ | idHead
  · have hlen := (sliceTo_eq_none imageID 12).1 hsl
    cases hd : c.dryRun
    · simp only [Bool.false_eq_true, if_false, executeCommand_andThen, false_or]
      unfold commandResult
      rcases he : (E.run (.rmi imageID) s1).1.err with _ | err
      · simp
      · simp [hlen]
    · simp [hlen]
  · have hlen : ¬ len imageID < 12 := by
      intro h
      rw [(sliceTo_eq_none imageID 12).2 h] at hsl
      cases hsl
    cases hd : c.dryRun
    · simp only [Bool.false_eq_true, if_false, executeCommand_andThen, false_or]
      unfold commandResult
      rcases he : (E.run (.rmi imageID) s1).1.err with _ | err
      · simp [hlen]
      · simp [hlen]
    · simp [hlen]

end Panics

section ImagesMain

variable {σ : Type}

/-- The run of `CleanImages` when both listings succeed. -/
theorem CleanImages_listed (E : Env σ) (c : Cleanup) (s : σ)
    (h : listingFails E .images s = false) :
    (CleanImages E c s).st =
        (cleanListedImages E c (E.run .images s).1.output
          (E.run .psImages (E.run .images s).2).1.output
          (E.run .psImages (E.run .images s).2).2).st ∧
      (CleanImages E c s).trace =
        .call .images :: .call .psImages ::
          (cleanListedImages E c (E.run .images s).1.output
            (E.run .psImages (E.run .images s).2).1.output
            (E.run .psImages (E.run .images s).2).2).trace ∧
      (CleanImages E c s).val =
        (cleanListedImages E c (E.run .images s).1.output
          (E.run .psImages (E.run .images s).2).1.output
          (E.run .psImages (E.run .images s).2).2).val := by
  simp only [listingFails, Bool.or_eq_false_iff] at h
  simp [CleanImages, commandResult_of_none _ h.1, commandResult_of_none _ h.2]

/-- The end of `CleanImages` does not panic. -/
theorem pruneDangling_val (E : Env σ) (c : Cleanup) (s3 : σ) :
    (pruneDangling E c s3).val = some none := by
  unfold pruneDangling
  split_ifs
  · rfl
  · simp only [executeCommand_andThen]
    cases commandResult (E.run Cmd.imagePrune s3).1 <;> rfl

/-- `CleanImages` panics exactly when its loop does. -/
theorem CleanImages_panics_iff (E : Env σ) (c : Cleanup) (s : σ) :
    (CleanImages E c s).val = none ↔
      listingFails E .images s = false ∧
        (forEach (imageStep E c (usedImagesOf (E.run .psImages (E.run .images s).2).1.output))
          (linesOf (E.run .images s).1.output) (E.run .psImages (E.run .images s).2).2).val
          = none := by
  rcases hl : listingFails E .images s with _ | _
  · rw [(CleanImages_listed E c s hl).2.2]
    simp only [true_and]
    unfold cleanListedImages
    rcases hv : (forEach (imageStep E c
        (usedImagesOf (E.run .psImages (E.run .images s).2).1.output))
        (linesOf (E.run .images s).1.output) (E.run .psImages (E.run .images s).2).2).val
      with _ | u
    · simp [andThen_none _ _ hv]
    · rw [andThen_some _ _ _ hv]
      simp only [pruneDangling_val, reduceCtorEq]
  · obtain ⟨msg, hm⟩ := (reclaimer_of_listingFails E c .images s hl).1
    simp only [reclaimer] at hm
    simp [hm]

end ImagesMain

section ImageClaims

variable {σ : Type}

/-- C10. In the loop of `CleanImages`, a line with fewer than four fields is
skipped, so the accesses `parts[0]` to `parts[3]` are in range; an iteration
panics exactly when the image of its line is eligible, its ID is shorter than
12 bytes, and the run is a dry run or the removal fails; `CleanImages` panics
exactly when, after iterations that do not, an iteration does; and it does
not panic when every listed image ID has 12 bytes at least. -/
theorem image_indexing_safety (E : Env σ) (c : Cleanup) (s : σ) :
    (∀ used line s1, (line = "" ∨ (Split line tab).length < 4) →
        imageStep E c used line s1 = ret () s1) ∧
      (∀ used line s1, (imageStep E c used line s1).val = none ↔
        ∃ imageID imageName, imageDecision E c used line s1 = some (imageID, imageName) ∧
          len imageID < 12 ∧
          (c.dryRun = true ∨ (E.run (.rmi imageID) (E.now s1).2).1.err.isSome = true)) ∧
      ((CleanImages E c s).val = none ↔
        listingFails E .images s = false ∧
          ∃ pre line post imageID imageName,
            linesOf (E.run .images s).1.output = pre ++ line :: post ∧
            (forEach (imageStep E c
                (usedImagesOf (E.run .psImages (E.run .images s).2).1.output)) pre
              (E.run .psImages (E.run .images s).2).2).val = some () ∧
            imageDecision E c (usedImagesOf (E.run .psImages (E.run .images s).2).1.output)
                line
                (forEach (imageStep E c
                  (usedImagesOf (E.run .psImages (E.run .images s).2).1.output)) pre
                  (E.run .psImages (E.run .images s).2).2).st
              = some (imageID, imageName) ∧
            len imageID < 12 ∧
            (c.dryRun = true ∨
              (E.run (.rmi imageID)
                (E.now (forEach (imageStep E c
                  (usedImagesOf (E.run .psImages (E.run .images s).2).1.output)) pre
                  (E.run .psImages (E.run .images s).2).2).st).2).1.err.isSome = true)) ∧
      ((∀ line ∈ linesOf (E.run .images s).1.output, ∀ imageID repo tag createdStr rest,
          Split line tab = imageID :: repo :: tag :: createdStr :: rest → 12 ≤ len imageID) →
        (CleanImages E c s).val ≠ none) := by
  have hstep : ∀ used line s1, (imageStep E c used line s1).val = none ↔
      ∃ imageID imageName, imageDecision E c used line s1 = some (imageID, imageName) ∧
        len imageID < 12 ∧
        (c.dryRun = true ∨ (E.run (.rmi imageID) (E.now s1).2).1.err.isSome = true) := by
    intro used line s1
    rcases hd : imageDecision E c used line s1 with _ | ⟨imageID, imageName⟩
    · rw [(imageStep_of_none E c used line s1 hd).1]
      simp
    · rw [imageStep_of_some E c used line s1 imageID imageName hd, imageAction_panics_iff]
      simp
  have hrun : (CleanImages E c s).val = none ↔
      listingFails E .images s = false ∧
        ∃ pre line post imageID imageName,
          linesOf (E.run .images s).1.output = pre ++ line :: post ∧
          (forEach (imageStep E c
              (usedImagesOf (E.run .psImages (E.run .images s).2).1.output)) pre
            (E.run .psImages (E.run .images s).2).2).val = some () ∧
          imageDecision E c (usedImagesOf (E.run .psImages (E.run .images s).2).1.output)
              line
              (forEach (imageStep E c
                (usedImagesOf (E.run .psImages (E.run .images s).2).1.output)) pre
                (E.run .psImages (E.run .images s).2).2).st
            = some (imageID, imageName) ∧
          len imageID < 12 ∧
          (c.dryRun = true ∨
            (E.run (.rmi imageID)
              (E.now (forEach (imageStep E c
                (usedImagesOf (E.run .psImages (E.run .images s).2).1.output)) pre
                (E.run .psImages (E.run .images s).2).2).st).2).1.err.isSome = true) := by
    rw [CleanImages_panics_iff, forEach_panics_iff]
    constructor
    · rintro ⟨hl, pre, line, post, h1, h2, h3⟩
      obtain ⟨imageID, imageName, h4, h5, h6⟩ := (hstep _ _ _).1 h3
      exact ⟨hl, pre, line, post, imageID, imageName, h1, h2, h4, h5, h6⟩
    · rintro ⟨hl, pre, line, post, imageID, imageName, h1, h2, h4, h5, h6⟩
      exact ⟨hl, pre, line, post, h1, h2, (hstep _ _ _).2 ⟨imageID, imageName, h4, h5, h6⟩⟩
  refine ⟨fun used line s1 h => imageStep_skip E c used line s1 h, hstep, hrun, ?_⟩
  intro hlen hnone
  obtain ⟨_, pre, line, post, imageID, imageName, h1, _, h4, h5, _⟩ := hrun.1 hnone
  obtain ⟨_, repo, tag, createdStr, rest, _, hs, _⟩ := (imageDecision_some _ _ _ _ _ _ _).1 h4
  have := hlen line (by rw [h1]; simp) imageID repo tag createdStr rest hs
  omega

theorem imageAction_events (E : Env σ) (c : Cleanup) (imageID imageName : String) (s1 : σ)
    (e : Event) (h : e ∈ (imageAction E c imageID imageName s1).trace) :
    e = .call (.rmi imageID) ∨ (∃ idHead, e = .print (.wouldRemoveImage imageName idHead)) ∨
      (∃ idHead err, e = .print (.removeImageFailed idHead err)) ∨
      ∃ out, e = .print (.output out) := by
  unfold imageAction at h
  rcases hsl : sliceTo imageID 12 with _ | idHead
  · rcases hr : commandResult (E.run (.rmi imageID) s1).1 with err | out
    · cases hd : c.dryRun <;> simp [hsl, hr, hd] at h
      exact Or.inl h
    · cases hd : c.dryRun <;> simp [hsl, hr, hd] at h
      rcases h with h | h
      · exact Or.inl h
      · exact Or.inr (Or.inr (Or.inr ⟨out, h⟩))
  · rcases hr : commandResult (E.run (.rmi imageID) s1).1 with err | out
    · cases hd : c.dryRun <;> simp [hsl, hr, hd] at h
      · rcases h with h | h
        · exact Or.inl h
        · exact Or.inr (Or.inr (Or.inl ⟨idHead, err, h⟩))
      · exact Or.inr (Or.inl ⟨idHead, h⟩)
    · cases hd : c.dryRun <;> simp [hsl, hr, hd] at h
      · rcases h with h | h
        · exact Or.inl h
        · exact Or.inr (Or.inr (Or.inr ⟨out, h⟩))
      · exact Or.inr (Or.inl ⟨idHead, h⟩)

theorem pruneDangling_events (E : Env σ) (c : Cleanup) (s3 : σ) (e : Event)
    (h : e ∈ (pruneDangling E c s3).trace) :
    e = .call .imagePrune ∨ (∃ err, e = .print (.pruneFailed err)) ∨
      ∃ out, e = .print (.output out) := by
  unfold pruneDangling at h
  split_ifs at h
  · simp at h
  · simp only [executeCommand_andThen, List.mem_cons] at h
    rcases h with h | h
    · exact Or.inl h
    · rcases hr : commandResult (E.run Cmd.imagePrune s3).1 with err | out
      · simp only [hr, print_andThen, ret_trace, List.mem_singleton] at h
        exact Or.inr (Or.inl ⟨err, h⟩)
      · simp only [hr, print_andThen, ret_trace, List.mem_singleton] at h
        exact Or.inr (Or.inr ⟨out, h⟩)

/-- Where the removal calls and the reports of `CleanImages` come from: an
iteration of its loop on an eligible image. -/
theorem CleanImages_acts_on_eligible (E : Env σ) (c : Cleanup) (s : σ) (e : Event)
    (he : e ∈ (CleanImages E c s).trace)
    (hk : (∃ imageID, e = .call (.rmi imageID)) ∨
      ∃ imageName idHead, e = .print (.wouldRemoveImage imageName idHead)) :
    ∃ line ∈ linesOf (E.run .images s).1.output, ∃ s1 imageID imageName,
      imageDecision E c (usedImagesOf (E.run .psImages (E.run .images s).2).1.output) line s1
          = some (imageID, imageName) ∧
        (e = .call (.rmi imageID) ∨ ∃ idHead, e = .print (.wouldRemoveImage imageName idHead)) := by
  rcases hl : listingFails E .images s with _ | _
  · rw [(CleanImages_listed E c s hl).2.1] at he
    simp only [List.mem_cons] at he
    rcases he with he | he | he
    · rcases hk with ⟨_, hk⟩ | ⟨_, _, hk⟩ <;> rw [he] at hk <;> cases hk
    · rcases hk with ⟨_, hk⟩ | ⟨_, _, hk⟩ <;> rw [he] at hk <;> cases hk
    · have hloop : e ∈ (forEach (imageStep E c
          (usedImagesOf (E.run .psImages (E.run .images s).2).1.output))
          (linesOf (E.run .images s).1.output) (E.run .psImages (E.run .images s).2).2).trace := by
        unfold cleanListedImages Run.andThen at he
        split at he
        · exact he
        · rcases List.mem_append.1 he with he | he
          · exact he
          · rcases pruneDangling_events E c _ e he with h | ⟨_, h⟩ | ⟨_, h⟩ <;>
              rcases hk with ⟨_, hk⟩ | ⟨_, _, hk⟩ <;> rw [h] at hk <;> cases hk
      obtain ⟨line, hline, s1, hs1⟩ := forEach_trace_mem _ _ _ _ hloop
      rcases hd : imageDecision E c
          (usedImagesOf (E.run .psImages (E.run .images s).2).1.output) line s1
        with _ | ⟨imageID, imageName⟩
      · rcases (imageStep_of_none E c _ line s1 hd).2 with h | ⟨_, _, h⟩
        · rw [h] at hs1
          simp at hs1
        · rw [h] at hs1
          simp only [List.mem_singleton] at hs1
          rcases hk with ⟨_, hk⟩ | ⟨_, _, hk⟩ <;> rw [hs1] at hk <;> cases hk
      · rw [imageStep_of_some E c _ line s1 imageID imageName hd] at hs1
        refine ⟨line, hline, s1, imageID, imageName, hd, ?_⟩
        rcases imageAction_events E c imageID imageName _ e hs1 with h | h | ⟨_, _, h⟩ | ⟨_, h⟩
        · exact Or.inl h
        · exact Or.inr h
        · rcases hk with ⟨_, hk⟩ | ⟨_, _, hk⟩ <;> rw [h] at hk <;> cases hk
        · rcases hk with ⟨_, hk⟩ | ⟨_, _, hk⟩ <;> rw [h] at hk <;> cases hk
  · have hm := (reclaimer_of_listingFails E c .images s hl).2
    simp only [reclaimer] at hm
    exfalso
    simp only [listingFails, Bool.or_eq_true] at hl
    rcases hi : (E.run .images s).1.err.isSome with _ | _
    · rw [hi] at hl
      obtain ⟨err, herr⟩ := (commandResult_error_iff _).2 (by simpa using hl)
      simp only [CleanImages, executeCommand_andThen, commandResult_of_none _ hi, herr, ret_trace,
        List.mem_cons, List.mem_nil_iff, or_false] at he
      rcases he with he | he <;>
        rcases hk with ⟨_, hk⟩ | ⟨_, _, hk⟩ <;> rw [he] at hk <;> cases hk
    · obtain ⟨err, herr⟩ := (commandResult_error_iff _).2 hi
      simp only [CleanImages, executeCommand_andThen, herr, ret_trace,
        List.mem_cons, List.mem_nil_iff, or_false] at he
      rcases hk with ⟨_, hk⟩ | ⟨_, _, hk⟩ <;> rw [he] at hk <;> cases hk

end ImageClaims

section UsedImages

variable {σ : Type}

set_option maxRecDepth 100000 in
set_option exponentiation.threshold 2000 in
/-- The usage test of `CleanImages`, line by line. Every `docker rmi` call is
for the ID of some listed line whose `repository:tag` is not among the
container image references, and every "would remove" report names an image
that is not among them. In the scenario, the image `i1` of `app:latest`,
72 hours old, with a container referencing `app:latest` and a threshold of 24
hours, is neither removed nor reported, and is removed once no container
references it. -/
theorem removal_stems_from_unreferenced_name (E : Env σ) (c : Cleanup) (s : σ) :
    (∀ imageID, Event.call (.rmi imageID) ∈ (CleanImages E c s).trace →
        ∃ line ∈ linesOf (E.run .images s).1.output, ∃ repo tag createdStr rest,
          Split line tab = imageID :: repo :: tag :: createdStr :: rest ∧
          repo ++ ":" ++ tag ∉ linesOf (E.run .psImages (E.run .images s).2).1.output) ∧
      (∀ imageName idHead,
        Event.print (.wouldRemoveImage imageName idHead) ∈ (CleanImages E c s).trace →
          imageName ∉ linesOf (E.run .psImages (E.run .images s).2).1.output) ∧
      (mutations (CleanImages (sampleEnv (imageDaemon scenarioImages "app:latest\n") sampleNow)
            ⟨false, 24⟩ ()).trace = [.imagePrune] ∧
        (CleanImages (sampleEnv (imageDaemon scenarioImages "app:latest\n") sampleNow)
            ⟨true, 24⟩ ()).trace = [.call .images, .call .psImages] ∧
        mutations (CleanImages (sampleEnv (imageDaemon scenarioImages "") sampleNow)
            ⟨false, 24⟩ ()).trace = [.rmi "i1", .imagePrune]) := by
  refine ⟨?_, ?_, by decide⟩
  · intro imageID he
    obtain ⟨line, hline, s1, imageID1, imageName, hd, hk⟩ :=
      CleanImages_acts_on_eligible E c s _ he (Or.inl ⟨imageID, rfl⟩)
    obtain ⟨_, repo, tag, createdStr, rest, created, hs, rfl, _, hu, _⟩ :=
      (imageDecision_some _ _ _ _ _ _ _).1 hd
    rcases hk with hk | ⟨_, hk⟩
    · simp only [Event.call.injEq, Cmd.rmi.injEq] at hk
      subst hk
      refine ⟨line, hline, repo, tag, createdStr, rest, hs, ?_⟩
      intro hmem
      rw [(usedImages_get_name _ repo tag).2 hmem] at hu
      cases hu
    · cases hk
  · intro imageName idHead he
    obtain ⟨line, hline, s1, imageID1, imageName1, hd, hk⟩ :=
      CleanImages_acts_on_eligible E c s _ he (Or.inr ⟨imageName, idHead, rfl⟩)
    obtain ⟨_, repo, tag, createdStr, rest, created, hs, rfl, _, hu, _⟩ :=
      (imageDecision_some _ _ _ _ _ _ _).1 hd
    rcases hk with hk | ⟨_, hk⟩
    · cases hk
    · simp only [Event.print.injEq, Msg.wouldRemoveImage.injEq] at hk
      obtain ⟨rfl, _⟩ := hk
      intro hmem
      rw [(usedImages_get_name _ repo tag).2 hmem] at hu
      cases hu

set_option maxRecDepth 100000 in
set_option exponentiation.threshold 2000 in
/-- C3 at the failing input: the image `0123456789ab`, 72 hours old, is listed
as `app:latest`, which a container references, and as `app:old`. The usage
test is made on the name of each line and the removal on the ID: for the line
`app:old` the live run issues `docker rmi -f 0123456789ab` and the dry run
reports the image, although a container uses it. A reference that is printed
without its tag, `nginx`, does not protect the image `nginx:latest` either. -/
theorem used_image_is_removed_under_other_name :
    usedImagesOf "app:latest\n" = ["app:latest"] ∧
      mutations (CleanImages (sampleEnv (imageDaemon sharedIdImages "app:latest\n") sampleNow)
          ⟨false, 24⟩ ()).trace = [.rmi "0123456789ab", .imagePrune] ∧
      reportedImages (CleanImages (sampleEnv (imageDaemon sharedIdImages "app:latest\n")
          sampleNow) ⟨true, 24⟩ ()).trace = [("app:old", utf8Bytes "0123456789ab")] ∧
      mutations (CleanImages (sampleEnv (imageDaemon
          "0123456789ab\tnginx\tlatest\t2024-01-01 00:00:00 +0000 UTC\n" "nginx\n")
          sampleNow) ⟨false, 24⟩ ()).trace = [.rmi "0123456789ab", .imagePrune] := by
  decide

end UsedImages

section ExitCodes

variable {σ : Type}

theorem Split_head (s : String) (sep : Char) : ∃ p, (Split s sep)[0]? = some p := by
  unfold Split
  rcases h : s.data.splitOn sep with _ | ⟨a, rest⟩
  · exact absurd h (List.splitOnP_ne_nil _ _)
  · exact ⟨String.mk a, by simp⟩

/-- The loop body of `CleanContainers` on a line that is not empty. -/
theorem containerStep_id (E : Env σ) (c : Cleanup) (container : String) (s : σ)
    (containerID : String) (hne : container ≠ "")
    (hp : (Split container tab)[0]? = some containerID) :
    containerStep E c container s =
      (executeCommand E (.inspectFinishedAt containerID) s).andThen fun timeOutput s1 =>
        match timeOutput with
        | .error err => print (.finishTimeFailed containerID err) s1
        | .ok out =>
          match E.parseRFC3339Nano (TrimSpace out) with
          | .error err => print (.finishTimeUnparsed containerID err) s1
          | .ok finishTime =>
            if olderThanHours (Since E finishTime s1).1 c.olderThan then
              if c.dryRun then
                print (.wouldRemoveContainer containerID) (Since E finishTime s1).2
              else
                (executeCommand E (.rm containerID) (Since E finishTime s1).2).andThen fun r s2 =>
                  match r with
                  | .error err => print (.removeContainerFailed containerID err) s2
                  | .ok out => print (.output out) s2
            else ret () (Since E finishTime s1).2 := by
  unfold containerStep
  rw [if_neg hne, hp]

/-- The loop body of `CleanContainers` does not panic: `parts[0]` is in range. -/
theorem containerStep_val (E : Env σ) (c : Cleanup) (container : String) (s : σ) :
    (containerStep E c container s).val = some () := by
  by_cases hne : container = ""
  · unfold containerStep
    rw [if_pos hne]
    rfl
  · obtain ⟨p, hp⟩ := Split_head container tab
    rw [containerStep_id E c container s p hne hp]
    simp only [executeCommand_andThen]
    rcases commandResult (E.run (Cmd.inspectFinishedAt p) s).1 with err | out
    · rfl
    · simp only
      rcases E.parseRFC3339Nano (TrimSpace out) with err | finishTime
      · rfl
      · simp only
        by_cases ho : olderThanHours (Since E finishTime (E.run (Cmd.inspectFinishedAt p) s).2).1
            c.olderThan = true
        · rw [if_pos ho]
          cases hd : c.dryRun
          · simp only [Bool.false_eq_true, if_false, executeCommand_andThen]
            split <;> rfl
          · rfl
        · rw [if_neg ho]
          rfl

/-- `CleanContainers` does not panic. -/
theorem CleanContainers_val (E : Env σ) (c : Cleanup) (s : σ) :
    ∃ e, (CleanContainers E c s).val = some e := by
  unfold CleanContainers
  simp only [executeCommand_andThen]
  rcases commandResult (E.run Cmd.psStopped s).1 with err | output
  · exact ⟨_, rfl⟩
  · simp only
    split_ifs
    · exact ⟨_, rfl⟩
    · rw [andThen_some _ _ _ (forEach_val _ (containerStep_val E c) _ _)]
      exact ⟨_, rfl⟩

/-- `CleanVolumes` does not panic. -/
theorem CleanVolumes_val (E : Env σ) (c : Cleanup) (s : σ) :
    ∃ e, (CleanVolumes E c s).val = some e := by
  unfold CleanVolumes
  simp only [executeCommand_andThen]
  rcases commandResult (E.run Cmd.volumeLs s).1 with err | output
  · exact ⟨_, rfl⟩
  · simp only
    rcases commandResult (E.run Cmd.psMounts (E.run Cmd.volumeLs s).2).1 with err | usedOutput
    · exact ⟨_, rfl⟩
    · simp only
      rw [andThen_some _ _ _ (forEach_val _ (volumeStep_val E c _) _ _)]
      exact ⟨_, rfl⟩

/-- After its listings `CleanImages` panics or returns nil. -/
theorem cleanListedImages_val (E : Env σ) (c : Cleanup) (output usedOutput : String) (s2 : σ) :
    (cleanListedImages E c output usedOutput s2).val = none ∨
      (cleanListedImages E c output usedOutput s2).val = some none := by
  unfold cleanListedImages
  rcases hv : (forEach (imageStep E c (usedImagesOf usedOutput)) (linesOf output) s2).val
    with _ | u
  · rw [andThen_none _ _ hv]
    exact Or.inl rfl
  · rw [andThen_some _ _ _ hv]
    exact Or.inr (pruneDangling_val E c _)

/-- A reclaimer returns an error exactly when its listing fails. -/
theorem returnedError_reclaimer (E : Env σ) (c : Cleanup) (p : Phase) (s : σ) :
    returnedError (reclaimer E c p s) = listingFails E p s := by
  rcases hl : listingFails E p s with _ | _
  · cases p
    · simp only [listingFails] at hl
      simp only [returnedError, reclaimer, CleanContainers, executeCommand_andThen,
        commandResult_of_none _ hl]
      split_ifs
      · rfl
      · rw [andThen_some _ _ _ (forEach_val _ (containerStep_val E c) _ _)]
        rfl
    · simp only [returnedError, reclaimer, (CleanImages_listed E c s hl).2.2]
      rcases cleanListedImages_val E c (E.run .images s).1.output
          (E.run .psImages (E.run .images s).2).1.output
          (E.run .psImages (E.run .images s).2).2 with h | h <;> rw [h]
    · simp only [listingFails, Bool.or_eq_false_iff] at hl
      simp only [returnedError, reclaimer, CleanVolumes, executeCommand_andThen,
        commandResult_of_none _ hl.1, commandResult_of_none _ hl.2]
      rw [andThen_some _ _ _ (forEach_val _ (volumeStep_val E c _) _ _)]
      rfl
  · obtain ⟨msg, hm⟩ := (reclaimer_of_listingFails E c p s hl).1
    simp [returnedError, hm]

theorem IsAdmin_val (E : Env σ) (s : σ) : ∃ e, (IsAdmin E s).val = some e := by
  unfold IsAdmin
  by_cases h : E.goos = "windows"
  · rw [if_pos h]
    cases (E.run Cmd.netSession s).1.err <;> exact ⟨_, rfl⟩
  · rw [if_neg h]
    split_ifs <;> exact ⟨_, rfl⟩

theorem IsDockerRunning_val (E : Env σ) (s : σ) : ∃ e, (IsDockerRunning E s).val = some e := by
  unfold IsDockerRunning
  by_cases h : E.goos = "windows" ∨ E.goos = "darwin" ∨ E.goos = "linux"
  · rw [if_pos h]
    cases (E.run Cmd.dockerInfo s).1.err <;> exact ⟨_, rfl⟩
  · rw [if_neg h]
    exact ⟨_, rfl⟩

theorem returnedError_false {r : Run σ (Option String)} (h : ∃ e, r.val = some e)
    (hr : returnedError r = false) : r.val = some none := by
  obtain ⟨e, he⟩ := h
  unfold returnedError at hr
  rw [he] at hr ⊢
  cases e
  · rfl
  · simp at hr

theorem returnedError_true {r : Run σ (Option String)} (hr : returnedError r = true) :
    ∃ err, r.val = some (some err) := by
  unfold returnedError at hr
  split at hr
  · rename_i err h
    exact ⟨err, h⟩
  · cases hr

/-- A failing precondition ends the subcommand with `os.Exit(1)`. -/
theorem withPreconditions_fails (E : Env σ) (dryRun : Bool) (olderThan : Int)
    (body : Cleanup → σ → Run σ (Option Nat)) (s : σ) (h : preconditionFails E s = true) :
    (withPreconditions E dryRun olderThan body s).val = some (some 1) := by
  unfold withPreconditions
  unfold preconditionFails at h
  rcases ha : returnedError (IsAdmin E s) with _ | _
  · rw [ha] at h
    rw [andThen_some _ _ _ (returnedError_false (IsAdmin_val E s) ha)]
    obtain ⟨err, he⟩ := returnedError_true (by simpa using h)
    simp only
    rw [andThen_some _ _ _ he]
    rfl
  · obtain ⟨err, he⟩ := returnedError_true ha
    rw [andThen_some _ _ _ he]
    rfl

/-- After both preconditions pass the subcommand goes on with its body. -/
theorem withPreconditions_passes (E : Env σ) (dryRun : Bool) (olderThan : Int)
    (body : Cleanup → σ → Run σ (Option Nat)) (s : σ) (h : preconditionFails E s = false) :
    (withPreconditions E dryRun olderThan body s).val =
      (body ⟨dryRun, olderThan⟩ (afterPreconditions E s)).val := by
  unfold withPreconditions
  unfold preconditionFails at h
  simp only [Bool.or_eq_false_iff] at h
  rw [andThen_some _ _ _ (returnedError_false (IsAdmin_val E s) h.1)]
  simp only
  rw [andThen_some _ _ _ (returnedError_false (IsDockerRunning_val E _) h.2)]
  rfl

theorem cleanupOne_val (E : Env σ) (p : Phase) (c : Cleanup) (s : σ) :
    (cleanupOne E p c s).val =
      match (reclaimer E c p s).val with
      | none => none
      | some (some _) => some (some 1)
      | some none => some none := by
  unfold cleanupOne Run.andThen
  rcases (reclaimer E c p s).val with _ | _ | err <;> rfl

theorem cleanupAllPhase_val (E : Env σ) (c : Cleanup) (p : Phase) (s : σ) :
    (cleanupAllPhase E c p s).val = (reclaimer E c p s).val.map fun _ => () := by
  unfold cleanupAllPhase
  simp only [print_andThen]
  unfold Run.andThen
  rcases (reclaimer E c p s).val with _ | _ | err <;> rfl

/-- The body of `cleanupAll` never calls `os.Exit`. -/
theorem cleanupAll_body_val (E : Env σ) (c : Cleanup) (s0 : σ) :
    ((cleanupAllPhase E c .containers s0).andThen fun _ s1 =>
        (cleanupAllPhase E c .images s1).andThen fun _ s2 =>
          (cleanupAllPhase E c .volumes s2).andThen fun _ s3 =>
            ret (none : Option Nat) s3).val = none ∨
      ((cleanupAllPhase E c .containers s0).andThen fun _ s1 =>
        (cleanupAllPhase E c .images s1).andThen fun _ s2 =>
          (cleanupAllPhase E c .volumes s2).andThen fun _ s3 =>
            ret (none : Option Nat) s3).val = some none := by
  simp only [andThen_val, ret_val]
  rcases (cleanupAllPhase E c .containers s0).val with _ | u1
  · exact Or.inl rfl
  · rcases (cleanupAllPhase E c .images (cleanupAllPhase E c .containers s0).st).val with _ | u2
    · exact Or.inl rfl
    · rcases (cleanupAllPhase E c .volumes
          (cleanupAllPhase E c .images (cleanupAllPhase E c .containers s0).st).st).val
        with _ | u3
      · exact Or.inl rfl
      · exact Or.inr rfl

end ExitCodes

section ExitCodeClaims

variable {σ : Type}

theorem exitCode_single (E : Env σ) (dryRun : Bool) (olderThan : Int) (p : Phase) (s : σ) :
    (exitCode (runSubcommand E dryRun olderThan (Subcommand.ofPhase p) s) = 1 ↔
        preconditionFails E s = true ∨ listingFails E p (afterPreconditions E s) = true) ∧
      (exitCode (runSubcommand E dryRun olderThan (Subcommand.ofPhase p) s) = 0 ∨
        exitCode (runSubcommand E dryRun olderThan (Subcommand.ofPhase p) s) = 1 ∨
        (runSubcommand E dryRun olderThan (Subcommand.ofPhase p) s).val = none) := by
  have hrun : runSubcommand E dryRun olderThan (Subcommand.ofPhase p) s =
      withPreconditions E dryRun olderThan (cleanupOne E p) s := by
    cases p <;> rfl
  rw [hrun]
  rcases hpre : preconditionFails E s with _ | _
  · have hv := withPreconditions_passes E dryRun olderThan (cleanupOne E p) s hpre
    have hre := returnedError_reclaimer E ⟨dryRun, olderThan⟩ p (afterPreconditions E s)
    unfold exitCode
    rw [hv, cleanupOne_val]
    unfold returnedError at hre
    rcases hr : (reclaimer E ⟨dryRun, olderThan⟩ p (afterPreconditions E s)).val with _ | _ | err
    · rw [hr] at hre
      simp [← hre]
    · rw [hr] at hre
      simp [← hre]
    · rw [hr] at hre
      simp [← hre]
  · have hv := withPreconditions_fails E dryRun olderThan (cleanupOne E p) s hpre
    unfold exitCode
    rw [hv]
    simp

theorem exitCode_all (E : Env σ) (dryRun : Bool) (olderThan : Int) (s : σ) :
    (exitCode (runSubcommand E dryRun olderThan .all s) = 1 ↔ preconditionFails E s = true) ∧
      (exitCode (runSubcommand E dryRun olderThan .all s) = 0 ∨
        exitCode (runSubcommand E dryRun olderThan .all s) = 1 ∨
        (runSubcommand E dryRun olderThan .all s).val = none) := by
  simp only [runSubcommand, cleanupAll]
  rcases hpre : preconditionFails E s with _ | _
  · have hv := withPreconditions_passes E dryRun olderThan
      (fun c s0 =>
        (cleanupAllPhase E c .containers s0).andThen fun _ s1 =>
          (cleanupAllPhase E c .images s1).andThen fun _ s2 =>
            (cleanupAllPhase E c .volumes s2).andThen fun _ s3 => ret none s3) s hpre
    unfold exitCode
    rw [hv]
    rcases cleanupAll_body_val E ⟨dryRun, olderThan⟩ (afterPreconditions E s) with h | h
    · rw [h]
      simp
    · rw [h]
      simp
  · have hv := withPreconditions_fails E dryRun olderThan
      (fun c s0 =>
        (cleanupAllPhase E c .containers s0).andThen fun _ s1 =>
          (cleanupAllPhase E c .images s1).andThen fun _ s2 =>
            (cleanupAllPhase E c .volumes s2).andThen fun _ s3 => ret none s3) s hpre
    unfold exitCode
    rw [hv]
    simp

/-- C8, amended. For the subcommands `containers`, `images` and `volumes` the
exit code is 1 exactly when a precondition fails or the listing of the
reclaimer fails; for `all` it is 1 exactly when a precondition fails; in every
other case the exit code is 0, unless the run ended in a panic. -/
theorem exit_codes (E : Env σ) (dryRun : Bool) (olderThan : Int) (s : σ) :
    (∀ p, exitCode (runSubcommand E dryRun olderThan (Subcommand.ofPhase p) s) = 1 ↔
        preconditionFails E s = true ∨ listingFails E p (afterPreconditions E s) = true) ∧
      (exitCode (runSubcommand E dryRun olderThan .all s) = 1 ↔
        preconditionFails E s = true) ∧
      (∀ sub, exitCode (runSubcommand E dryRun olderThan sub s) = 0 ∨
        exitCode (runSubcommand E dryRun olderThan sub s) = 1 ∨
        (runSubcommand E dryRun olderThan sub s).val = none) := by
  refine ⟨fun p => (exitCode_single E dryRun olderThan p s).1,
    (exitCode_all E dryRun olderThan s).1, ?_⟩
  intro sub
  cases sub
  · exact (exitCode_single E dryRun olderThan .containers s).2
  · exact (exitCode_single E dryRun olderThan .images s).2
  · exact (exitCode_single E dryRun olderThan .volumes s).2
  · exact (exitCode_all E dryRun olderThan s).2

/-- C8 as stated fails for `all`: on a root Linux host whose daemon answers
`docker info` and fails every listing, no precondition fails, the listing of
each reclaimer fails, and the exit code is 0, while `containers` exits with 1. -/
theorem all_exits_zero_on_listing_failure :
    preconditionFails (sampleEnv listingDownDaemon sampleNow) () = false ∧
      listingFails (sampleEnv listingDownDaemon sampleNow) .containers
        (afterPreconditions (sampleEnv listingDownDaemon sampleNow) ()) = true ∧
      exitCode (runSubcommand (sampleEnv listingDownDaemon sampleNow) false 24 .all ()) = 0 ∧
      exitCode (runSubcommand (sampleEnv listingDownDaemon sampleNow) false 24 .containers ())
        = 1 := by
  decide

set_option maxRecDepth 100000 in
set_option exponentiation.threshold 2000 in
/-- C1 at the failing input: with an eligible image whose ID `abc` has 3
bytes, the dry run of `CleanImages` panics at `imageID[:12]` before it reports
anything, while the live run over the same listings issues `docker rmi` for
`abc` and for the next image. -/
theorem dry_run_aborts_on_short_image_id :
    (CleanImages (sampleEnv (shortIdDaemon true) sampleNow) ⟨true, 24⟩ ()).val = none ∧
      (CleanImages (sampleEnv (shortIdDaemon true) sampleNow) ⟨true, 24⟩ ()).trace
        = [.call .images, .call .psImages] ∧
      (CleanImages (sampleEnv (shortIdDaemon true) sampleNow) ⟨false, 24⟩ ()).val
        = some none ∧
      mutations (CleanImages (sampleEnv (shortIdDaemon true) sampleNow) ⟨false, 24⟩ ()).trace
        = [.rmi "abc", .rmi "0123456789ab", .imagePrune] := by
  decide

set_option maxRecDepth 100000 in
set_option exponentiation.threshold 2000 in
/-- C5 at the failing input: when the removal of the image with the 3-byte ID
`abc` fails, the live run of `CleanImages` panics at `imageID[:12]`: it does
not return, and the next image, removed when the removal of `abc` succeeds, is
never attempted. -/
theorem failed_removal_aborts_on_short_image_id :
    (CleanImages (sampleEnv (shortIdDaemon false) sampleNow) ⟨false, 24⟩ ()).val = none ∧
      mutations (CleanImages (sampleEnv (shortIdDaemon false) sampleNow) ⟨false, 24⟩ ()).trace
        = [.rmi "abc"] ∧
      (CleanImages (sampleEnv (shortIdDaemon true) sampleNow) ⟨false, 24⟩ ()).val
        = some none ∧
      mutations (CleanImages (sampleEnv (shortIdDaemon true) sampleNow) ⟨false, 24⟩ ()).trace
        = [.rmi "abc", .rmi "0123456789ab", .imagePrune] := by
  decide

set_option maxRecDepth 100000 in
set_option exponentiation.threshold 2000 in
/-- C7 at the failing input: with an eligible image whose ID has 3 bytes, the
dry run of `CleanAll` panics in its image phase: it does not return nil and
the volume phase never starts. -/
theorem cleanAll_aborts_on_short_image_id :
    (CleanAll (sampleEnv (shortIdDaemon true) sampleNow) ⟨true, 24⟩ ()).val = none ∧
      (CleanAll (sampleEnv (shortIdDaemon true) sampleNow) ⟨true, 24⟩ ()).trace
        = [.print (.cleaningUp .containers), .call .psStopped, .print .noStoppedContainers,
            .print (.cleaningUp .images), .call .images, .call .psImages] := by
  decide

end ExitCodeClaims

section Float

theorem bitLenAux_spec (fuel n : Nat) (h : n ≤ fuel) (hn : 0 < n) :
    2 ^ (bitLenAux fuel n - 1) ≤ n ∧ n < 2 ^ bitLenAux fuel n := by
  induction fuel generalizing n with
  | zero => omega
  | succ fuel ih =>
    unfold bitLenAux
    rw [if_neg (by omega)]
    by_cases h2 : n / 2 = 0
    · have h1 : n = 1 := by omega
      subst h1
      cases fuel <;> simp [bitLenAux]
    · have hpos : 0 < n / 2 := Nat.pos_of_ne_zero h2
      obtain ⟨ih1, ih2⟩ := ih (n / 2) (by omega) hpos
      have hb : 1 ≤ bitLenAux fuel (n / 2) := by
        by_contra hc
        have : bitLenAux fuel (n / 2) = 0 := by omega
        rw [this] at ih2
        simp at ih2
        omega
      constructor
      · have : bitLenAux fuel (n / 2) + 1 - 1 = (bitLenAux fuel (n / 2) - 1) + 1 := by omega
        rw [this, pow_succ]
        omega
      · rw [pow_succ]
        omega

theorem bitLen_zero : bitLen 0 = 0 := rfl

theorem bitLen_spec (n : Nat) (hn : 0 < n) : 2 ^ (bitLen n - 1) ≤ n ∧ n < 2 ^ bitLen n :=
  bitLenAux_spec n n (le_refl n) hn

theorem bitLen_pos (n : Nat) (hn : 0 < n) : 1 ≤ bitLen n := by
  by_contra hc
  have h0 : bitLen n = 0 := by omega
  have := (bitLen_spec n hn).2
  rw [h0] at this
  simp at this
  omega

theorem bitLen_lt_pow (n L : Nat) (h : n < 2 ^ L) : bitLen n ≤ L := by
  rcases Nat.eq_zero_or_pos n with h0 | hn
  · subst h0
    simp [bitLen_zero]
  · by_contra hc
    have h1 := (bitLen_spec n hn).1
    have h2 : 2 ^ L ≤ 2 ^ (bitLen n - 1) := Nat.pow_le_pow_right (by norm_num) (by omega)
    omega

theorem bitLen_ge_pow (n L : Nat) (h : 2 ^ L ≤ n) : L + 1 ≤ bitLen n := by
  have hn : 0 < n := lt_of_lt_of_le (by positivity) h
  by_contra hc
  have h2 := (bitLen_spec n hn).2
  have h3 : 2 ^ bitLen n ≤ 2 ^ L := Nat.pow_le_pow_right (by norm_num) (by omega)
  omega

theorem rne_ge (n d : Nat) : n / d ≤ rne n d := by
  unfold rne
  simp only
  split_ifs <;> omega

theorem rne_le_succ (n d : Nat) : rne n d ≤ n / d + 1 := by
  unfold rne
  simp only
  split_ifs <;> omega

theorem rne_ge_of_mul_le (n d Y : Nat) (hd : 0 < d) (h : Y * d ≤ n) : Y ≤ rne n d :=
  le_trans ((Nat.le_div_iff_mul_le hd).2 h) (rne_ge n d)

theorem rne_le_of_le_mul (n d Y : Nat) (hd : 0 < d) (h : n ≤ Y * d) : rne n d ≤ Y := by
  rcases Nat.lt_or_ge n (Y * d) with hlt | hge
  · have : n / d < Y := (Nat.div_lt_iff_lt_mul hd).2 hlt
    have := rne_le_succ n d
    omega
  · have hn : n = Y * d := le_antisymm h hge
    subst hn
    unfold rne
    simp only [Nat.mul_div_cancel _ hd, Nat.mul_mod_left]
    rw [if_pos (by omega)]

theorem rne_eq_succ (n d : Nat) (h : d < 2 * (n % d)) : rne n d = n / d + 1 := by
  unfold rne
  simp only
  rw [if_neg (by omega), if_pos h]

end Float

section Round

theorem round53_split (n d m j : Nat) (hm : m < 2 ^ 53) :
    (∃ Y1, m * 2 ^ j = Y1 * 2 ^ (bitLen (n / d) - 53)) ∨
      (m * 2 ^ j < 2 ^ 52 * 2 ^ (bitLen (n / d) - 53) ∧
        2 ^ 52 * 2 ^ (bitLen (n / d) - 53) ≤ n / d) := by
  by_cases hjs : bitLen (n / d) - 53 ≤ j
  · left
    refine ⟨m * 2 ^ (j - (bitLen (n / d) - 53)), ?_⟩
    rw [Nat.mul_assoc, ← pow_add]
    congr 2
    omega
  · right
    have hq : 0 < n / d := by
      rcases Nat.eq_zero_or_pos (n / d) with h0 | hp
      · rw [h0, bitLen_zero] at hjs
        omega
      · exact hp
    have hspec := (bitLen_spec (n / d) hq).1
    have he : 52 + (bitLen (n / d) - 53) = bitLen (n / d) - 1 := by omega
    constructor
    · calc m * 2 ^ j < 2 ^ 53 * 2 ^ j := Nat.mul_lt_mul_of_pos_right hm (by positivity)
        _ = 2 ^ (53 + j) := (pow_add 2 53 j).symm
        _ ≤ 2 ^ (52 + (bitLen (n / d) - 53)) := Nat.pow_le_pow_right (by norm_num) (by omega)
        _ = 2 ^ 52 * 2 ^ (bitLen (n / d) - 53) := pow_add 2 52 _
    · rw [← pow_add, he]
      exact hspec

/-- Rounding does not go below a representable value under its argument. -/
theorem round53_ge (n d Y : Nat) (hd : 0 < d) (hY : Representable Y) (h : Y * d ≤ n) :
    Y ≤ round53 n d := by
  obtain ⟨m, j, hm, rfl⟩ := hY
  unfold round53
  simp only
  have hP : 0 < 2 ^ (bitLen (n / d) - 53) := by positivity
  rcases round53_split n d m j hm with ⟨Y1, hY1⟩ | ⟨hlt, hle⟩
  · rw [hY1] at h ⊢
    apply Nat.mul_le_mul_right
    apply rne_ge_of_mul_le _ _ _ (Nat.mul_pos hd hP)
    calc Y1 * (d * 2 ^ (bitLen (n / d) - 53)) = Y1 * 2 ^ (bitLen (n / d) - 53) * d := by ring
      _ ≤ n := h
  · apply le_of_lt
    apply lt_of_lt_of_le hlt
    apply Nat.mul_le_mul_right
    apply rne_ge_of_mul_le _ _ _ (Nat.mul_pos hd hP)
    calc 2 ^ 52 * (d * 2 ^ (bitLen (n / d) - 53))
        = 2 ^ 52 * 2 ^ (bitLen (n / d) - 53) * d := by ring
      _ ≤ n / d * d := Nat.mul_le_mul_right d hle
      _ ≤ n := Nat.div_mul_le_self n d

/-- Rounding does not go above a representable value over its argument. -/
theorem round53_le (n d Y : Nat) (hd : 0 < d) (hY : Representable Y) (h : n ≤ Y * d) :
    round53 n d ≤ Y := by
  obtain ⟨m, j, hm, rfl⟩ := hY
  unfold round53
  simp only
  have hP : 0 < 2 ^ (bitLen (n / d) - 53) := by positivity
  rcases round53_split n d m j hm with ⟨Y1, hY1⟩ | ⟨hlt, hle⟩
  · rw [hY1] at h ⊢
    apply Nat.mul_le_mul_right
    apply rne_le_of_le_mul _ _ _ (Nat.mul_pos hd hP)
    calc n ≤ Y1 * 2 ^ (bitLen (n / d) - 53) * d := h
      _ = Y1 * (d * 2 ^ (bitLen (n / d) - 53)) := by ring
  · exfalso
    have h1 : m * 2 ^ j * d < n / d * d :=
      lt_of_lt_of_le (Nat.mul_lt_mul_of_pos_right hlt hd) (Nat.mul_le_mul_right d hle)
    have h2 := Nat.div_mul_le_self n d
    omega

/-- Rounding leaves a representable value as it is. -/
theorem round53_exact (Y : Nat) (hY : Representable Y) : round53 Y 1 = Y :=
  le_antisymm (round53_le Y 1 Y Nat.one_pos hY (by simp))
    (round53_ge Y 1 Y Nat.one_pos hY (by simp))

theorem round53_zero (d : Nat) : round53 0 d = 0 := by
  unfold round53 rne
  simp [bitLen_zero]

theorem roundInt_nonneg (n : Int) (d : Nat) (hn : 0 ≤ n) : 0 ≤ roundInt n d := by
  unfold roundInt
  simp only [Int.ofNat_eq_coe]
  rw [if_neg (by omega)]
  exact Int.natCast_nonneg _

theorem roundInt_nonpos (n : Int) (d : Nat) (hn : n ≤ 0) : roundInt n d ≤ 0 := by
  unfold roundInt
  simp only [Int.ofNat_eq_coe]
  split_ifs with h
  · have := Int.ofNat_nonneg (round53 n.natAbs d)
    omega
  · have h0 : n = 0 := by omega
    subst h0
    simp [round53_zero]

theorem roundInt_ge (n : Int) (d Y : Nat) (hd : 0 < d) (hY : Representable Y)
    (h : (Y : Int) * d ≤ n) : (Y : Int) ≤ roundInt n d := by
  have hn : 0 ≤ n := le_trans (by positivity) h
  unfold roundInt
  simp only [Int.ofNat_eq_coe]
  rw [if_neg (by omega)]
  have : Y * d ≤ n.natAbs := by
    zify
    rw [abs_of_nonneg hn]
    exact h
  exact_mod_cast round53_ge _ _ _ hd hY this

theorem roundInt_le (n : Int) (d Y : Nat) (hd : 0 < d) (hY : Representable Y)
    (h : n ≤ (Y : Int) * d) : roundInt n d ≤ (Y : Int) := by
  unfold roundInt
  simp only [Int.ofNat_eq_coe]
  split_ifs with hneg
  · have := Int.ofNat_nonneg (round53 n.natAbs d)
    have : (0 : Int) ≤ Y := Int.ofNat_nonneg Y
    omega
  · have hn : 0 ≤ n := by omega
    have : n.natAbs ≤ Y * d := by
      zify
      rw [abs_of_nonneg hn]
      exact h
    exact_mod_cast round53_le _ _ _ hd hY this

theorem roundInt_exact (Y : Nat) (hY : Representable Y) : roundInt (Y : Int) 1 = (Y : Int) :=
  le_antisymm (roundInt_le _ 1 Y Nat.one_pos hY (by simp))
    (roundInt_ge _ 1 Y Nat.one_pos hY (by simp))

end Round

section HoursBounds

theorem representable_mul_one (k : Nat) (hk : k < 2 ^ 53) : Representable (k * F64.one) :=
  ⟨k, 1074, hk, rfl⟩

theorem one_pos : 0 < F64.one := by
  unfold F64.one
  positivity

/-- The conversion of an integer below `2^53` is exact. -/
theorem ofInt_exact (k : Nat) (hk : k < 2 ^ 53) : (F64.ofInt k).val = (k : Int) * F64.one := by
  unfold F64.ofInt
  simp only [Int.ofNat_eq_coe]
  have := roundInt_exact (k * F64.one) (representable_mul_one k hk)
  push_cast at this
  exact this

theorem ofInt_nonpos (i : Int) (hi : i ≤ 0) : (F64.ofInt i).val ≤ 0 := by
  unfold F64.ofInt
  apply roundInt_nonpos
  simp only [Int.ofNat_eq_coe]
  have : (0 : Int) ≤ (F64.one : Int) := Int.natCast_nonneg _
  nlinarith

/-- The conversion of an integer is not below a smaller integer under `2^53`. -/
theorem ofInt_ge (i : Int) (k : Nat) (hk : k < 2 ^ 53) (h : (k : Int) ≤ i) :
    (k : Int) * F64.one ≤ (F64.ofInt i).val := by
  unfold F64.ofInt
  simp only [Int.ofNat_eq_coe]
  have := roundInt_ge (i * (F64.one : Int)) 1 (k * F64.one) Nat.one_pos
    (representable_mul_one k hk) (by
      push_cast
      have : (0 : Int) ≤ (F64.one : Int) := Int.natCast_nonneg _
      nlinarith)
  push_cast at this
  exact this

theorem tdiv_tmod_nonneg (d : Int) (hd : 0 ≤ d) :
    0 ≤ d.tdiv Hour ∧ 0 ≤ d.tmod Hour ∧ d.tmod Hour < Hour ∧
      d.tdiv Hour * Hour + d.tmod Hour = d := by
  have hH : (0 : Int) < Hour := by unfold Hour; norm_num
  rw [Int.tdiv_eq_ediv hd (le_of_lt hH), Int.tmod_eq_emod hd (le_of_lt hH)]
  refine ⟨Int.ediv_nonneg hd (le_of_lt hH), Int.emod_nonneg _ (ne_of_gt hH),
    Int.emod_lt_of_pos _ hH, ?_⟩
  have := Int.ediv_add_emod d Hour
  linarith

theorem tdiv_tmod_nonpos (d : Int) (hd : d ≤ 0) : d.tdiv Hour ≤ 0 ∧ d.tmod Hour ≤ 0 := by
  have hH : (0 : Int) < Hour := by unfold Hour; norm_num
  have h1 : (-d).tdiv Hour = -(d.tdiv Hour) := Int.neg_tdiv _ _
  have h2 : (-d).tmod Hour = -(d.tmod Hour) := by
    have e1 := Int.tmod_add_tdiv (-d) Hour
    have e2 := Int.tmod_add_tdiv d Hour
    rw [h1] at e1
    linarith
  obtain ⟨a, b, _, _⟩ := tdiv_tmod_nonneg (-d) (by omega)
  rw [h1] at a
  rw [h2] at b
  constructor <;> omega

end HoursBounds

section HoursUpper

/-- The conversion of an integer is not above a larger integer under `2^53`. -/
theorem ofInt_le (i : Int) (k : Nat) (hk : k < 2 ^ 53) (h : i ≤ (k : Int)) :
    (F64.ofInt i).val ≤ (k : Int) * F64.one := by
  unfold F64.ofInt
  simp only [Int.ofNat_eq_coe]
  have := roundInt_le (i * (F64.one : Int)) 1 (k * F64.one) Nat.one_pos
    (representable_mul_one k hk) (by
      push_cast
      have : (0 : Int) ≤ (F64.one : Int) := Int.natCast_nonneg _
      nlinarith)
  push_cast at this
  exact this

theorem hourConst_val :
    (F64.ofInt 3600000000000).val.natAbs = 3600000000000 * F64.one := by
  have h := ofInt_exact 3600000000000 (by norm_num)
  have h2 : ((3600000000000 : Nat) : Int) = (3600000000000 : Int) := by norm_num
  rw [h2] at h
  rw [h]
  have : ((3600000000000 : Int) * (F64.one : Int)).natAbs
      = (3600000000000 : Int).natAbs * (F64.one : Int).natAbs := Int.natAbs_mul _ _
  rw [this]
  simp

theorem Hours_val (d : Int) :
    (Hours d).val =
      roundInt ((F64.ofInt (d.tdiv Hour)).val +
        roundInt ((F64.ofInt (d.tmod Hour)).val * (F64.one : Int))
          (3600000000000 * F64.one)) 1 := by
  unfold Hours F64.add F64.div
  simp only [Int.ofNat_eq_coe, hourConst_val]

/-- Hours of a duration of at most `K` hours is at most `K`. -/
theorem Hours_le (d : Int) (K : Nat) (hK : K < 2 ^ 53) (hd : d ≤ (K : Int) * Hour) :
    (Hours d).val ≤ (K : Int) * F64.one := by
  have hU : (0 : Int) < (F64.one : Int) := Int.natCast_pos.2 one_pos
  have hHpos : (0 : Int) < Hour := by unfold Hour; norm_num
  have hHU : 0 < 3600000000000 * F64.one := Nat.mul_pos (by norm_num) one_pos
  rw [Hours_val]
  have key : (F64.ofInt (d.tdiv Hour)).val +
      roundInt ((F64.ofInt (d.tmod Hour)).val * (F64.one : Int)) (3600000000000 * F64.one)
        ≤ (K : Int) * F64.one := by
    rcases lt_or_le d 0 with hneg | hpos
    · obtain ⟨h1, h2⟩ := tdiv_tmod_nonpos d (le_of_lt hneg)
      have a1 := ofInt_nonpos _ h1
      have a2 := ofInt_nonpos _ h2
      have a3 : roundInt ((F64.ofInt (d.tmod Hour)).val * (F64.one : Int))
          (3600000000000 * F64.one) ≤ 0 := by
        apply roundInt_nonpos
        nlinarith
      have : (0 : Int) ≤ (K : Int) * F64.one :=
        Int.mul_nonneg (Int.natCast_nonneg K) (le_of_lt hU)
      linarith
    · obtain ⟨h1, h2, h3, h4⟩ := tdiv_tmod_nonneg d hpos
      rcases eq_or_lt_of_le h2 with hr0 | hrpos
      · -- no remainder
        have hle : d.tdiv Hour ≤ (K : Int) := by
          by_contra hc
          have : (K : Int) + 1 ≤ d.tdiv Hour := by omega
          nlinarith
        have a1 := ofInt_le _ K hK hle
        have a2 := ofInt_nonpos (d.tmod Hour) (by omega)
        have a3 : roundInt ((F64.ofInt (d.tmod Hour)).val * (F64.one : Int))
            (3600000000000 * F64.one) ≤ 0 := by
          apply roundInt_nonpos
          nlinarith
        linarith
      · -- a remainder: the hours are below K
        have hlt : d.tdiv Hour + 1 ≤ (K : Int) := by
          by_contra hc
          have : (K : Int) ≤ d.tdiv Hour := by omega
          nlinarith
        have hK1 : 1 ≤ K := by omega
        have a1 := ofInt_le (d.tdiv Hour) (K - 1) (by omega) (by
          push_cast [Nat.cast_sub hK1]
          omega)
        push_cast [Nat.cast_sub hK1] at a1
        have hr : d.tmod Hour ≤ ((3600000000000 : Nat) : Int) := by
          have : Hour = ((3600000000000 : Nat) : Int) := rfl
          rw [← this]
          exact le_of_lt h3
        have a2 := ofInt_le (d.tmod Hour) 3600000000000 (by norm_num) hr
        have a3 : roundInt ((F64.ofInt (d.tmod Hour)).val * (F64.one : Int))
            (3600000000000 * F64.one) ≤ ((1 * F64.one : Nat) : Int) := by
          apply roundInt_le _ _ _ hHU (representable_mul_one 1 (by norm_num))
          push_cast
          push_cast at a2
          nlinarith
        push_cast at a3
        linarith
  have key2 : (F64.ofInt (d.tdiv Hour)).val +
      roundInt ((F64.ofInt (d.tmod Hour)).val * (F64.one : Int)) (3600000000000 * F64.one)
        ≤ ((K * F64.one : Nat) : Int) * ((1 : Nat) : Int) := by
    push_cast
    linarith
  have := roundInt_le _ 1 (K * F64.one) Nat.one_pos (representable_mul_one K hK) key2
  push_cast at this
  exact this

/-- A duration of at most `olderThan` hours does not pass the age test. -/
theorem olderThanHours_false (d olderThan : Int) (ho : 0 ≤ olderThan)
    (hmax : d ≤ maxDuration) (hd : d ≤ olderThan * Hour) :
    olderThanHours d olderThan = false := by
  unfold olderThanHours F64.gt
  simp only [decide_eq_false_iff_not, not_lt]
  have hH : Hour = 3600000000000 := rfl
  have hM : maxDuration = 9223372036854775807 := rfl
  obtain ⟨K, hK1, hK2, hK3⟩ : ∃ K : Nat, K < 2 ^ 53 ∧ (K : Int) ≤ olderThan ∧
      d ≤ (K : Int) * Hour := by
    rcases lt_or_le olderThan 2562048 with hs | hl
    · refine ⟨olderThan.toNat, ?_, ?_, ?_⟩
      · have : olderThan.toNat < 2562048 := by omega
        omega
      · omega
      · rw [Int.toNat_of_nonneg ho]
        exact hd
    · refine ⟨2562048, by norm_num, by push_cast; omega, ?_⟩
      rw [hH]
      rw [hM] at hmax
      push_cast
      omega
  exact le_trans (Hours_le d K hK1 hK3) (ofInt_ge olderThan K hK1 hK2)

end HoursUpper

section HoursLower

theorem roundInt_natCast (n d : Nat) : roundInt (n : Int) d = (round53 n d : Int) := by
  unfold roundInt
  rw [if_neg (by omega)]
  simp

/-- Hours of a non-negative duration, in natural numbers. -/
theorem Hours_nat (d : Int) (hd : 0 ≤ d) (hmax : d ≤ maxDuration) :
    ∃ h r : Nat, d = (h : Int) * 3600000000000 + r ∧ r < 3600000000000 ∧ h < 2562048 ∧
      (Hours d).val =
        (round53 (h * F64.one +
          round53 (r * F64.one * F64.one) (3600000000000 * F64.one)) 1 : Nat) := by
  obtain ⟨h1, h2, h3, h4⟩ := tdiv_tmod_nonneg d hd
  obtain ⟨h, hh⟩ := Int.eq_ofNat_of_zero_le h1
  obtain ⟨r, hr⟩ := Int.eq_ofNat_of_zero_le h2
  have hv := Hours_val d
  rw [hr] at h3
  rw [hh, hr] at h4 hv
  simp only [Hour] at h3 h4
  simp only [maxDuration] at hmax
  have hr2 : r < 3600000000000 := by omega
  have hh2 : h < 2562048 := by omega
  refine ⟨h, r, by omega, hr2, hh2, ?_⟩
  rw [hv, ofInt_exact h (by omega), ofInt_exact r (by omega)]
  have c1 : (r : Int) * (F64.one : Int) * (F64.one : Int)
      = ((r * F64.one * F64.one : Nat) : Int) := by push_cast; ring
  rw [c1, roundInt_natCast]
  have c2 : (h : Int) * (F64.one : Int) +
      ((round53 (r * F64.one * F64.one) (3600000000000 * F64.one) : Nat) : Int)
      = ((h * F64.one +
        round53 (r * F64.one * F64.one) (3600000000000 * F64.one) : Nat) : Int) := by
    push_cast
    ring
  rw [c2, roundInt_natCast]

theorem one_eq : F64.one = 35184372088832 * 2 ^ 1029 := by
  unfold F64.one
  rw [show (35184372088832 : Nat) = 2 ^ 45 by norm_num, ← pow_add]

/-- The quotient of a positive remainder by the hour rounds to at least
`9 * 2^1029` units and to at most `2^1074 - 2^1030` units. -/
theorem fraction_bounds (r : Nat) (h1 : 1 ≤ r) (h2 : r < 3600000000000) :
    9 * 2 ^ 1029 ≤ round53 (r * F64.one * F64.one) (3600000000000 * F64.one) ∧
      round53 (r * F64.one * F64.one) (3600000000000 * F64.one) ≤ 35184372088830 * 2 ^ 1029 := by
  have hB : 0 < 2 ^ 1029 := by positivity
  have hHU : 0 < 3600000000000 * F64.one := Nat.mul_pos (by norm_num) one_pos
  constructor
  · apply round53_ge _ _ _ hHU ⟨9, 1029, by norm_num, rfl⟩
    rw [one_eq]
    generalize (2 : Nat) ^ 1029 = B at hB
    have hBB : 0 < B * B := Nat.mul_pos hB hB
    nlinarith [Nat.mul_le_mul_right (B * B) h1]
  · apply round53_le _ _ _ hHU ⟨17592186044415, 1030, by norm_num, by
      rw [show (1030 : Nat) = 1 + 1029 from rfl, pow_add]
      ring⟩
    rw [one_eq]
    generalize (2 : Nat) ^ 1029 = B at hB
    have hBB : 0 < B * B := Nat.mul_pos hB hB
    have h3 : r + 1 ≤ 3600000000000 := h2
    nlinarith [Nat.mul_le_mul_right (B * B) h3]

end HoursLower

section HoursStrict

/-- Adding a rounded positive fraction to fewer than 4096 whole hours rounds
to more than the whole hours. -/
theorem sum_gt (h f : Nat) (hh : h < 4096) (hf1 : 9 * 2 ^ 1029 ≤ f)
    (hf2 : f ≤ 35184372088830 * 2 ^ 1029) : h * F64.one < round53 (h * F64.one + f) 1 := by
  have hB : 0 < 2 ^ 1029 := by positivity
  rcases Nat.lt_or_ge h 2048 with hlow | hhigh
  · -- the sum keeps a digit for `2^1032` units
    have hY : Representable ((h * 4398046511104 + 1) * 2 ^ 1032) :=
      ⟨h * 4398046511104 + 1, 1032, by norm_num; omega, rfl⟩
    have h1032 : (2 : Nat) ^ 1032 = 8 * 2 ^ 1029 := by
      rw [show (1032 : Nat) = 3 + 1029 from rfl, pow_add]
      norm_num
    have hge := round53_ge (h * F64.one + f) 1 _ Nat.one_pos hY (by
      rw [h1032, one_eq]
      generalize (2 : Nat) ^ 1029 = B at hB hf1 hf2
      nlinarith)
    refine lt_of_lt_of_le ?_ hge
    rw [h1032, one_eq]
    generalize (2 : Nat) ^ 1029 = B at hB hf1 hf2
    nlinarith
  · -- the sum is rounded to multiples of `2^1033` units
    have h1033 : (2 : Nat) ^ 1033 = 16 * 2 ^ 1029 := by
      rw [show (1033 : Nat) = 4 + 1029 from rfl, pow_add]
      norm_num
    have h1085 : (2 : Nat) ^ 1085 = 72057594037927936 * 2 ^ 1029 := by
      rw [show (1085 : Nat) = 56 + 1029 from rfl, pow_add]
      norm_num
    have h1086 : (2 : Nat) ^ 1086 = 144115188075855872 * 2 ^ 1029 := by
      rw [show (1086 : Nat) = 57 + 1029 from rfl, pow_add]
      norm_num
    have hlen : bitLen ((h * F64.one + f) / 1) = 1086 := by
      rw [Nat.div_one]
      apply le_antisymm
      · apply bitLen_lt_pow
        rw [h1086, one_eq]
        generalize (2 : Nat) ^ 1029 = B at hB hf1 hf2
        nlinarith
      · apply bitLen_ge_pow _ 1085
        rw [h1085, one_eq]
        generalize (2 : Nat) ^ 1029 = B at hB hf1 hf2
        nlinarith
    unfold round53
    simp only [hlen, one_mul]
    rw [show (1086 - 53 : Nat) = 1033 from rfl]
    have hP : 0 < 2 ^ 1033 := by positivity
    have hsplit : h * F64.one + f = f + (h * 2199023255552) * 2 ^ 1033 := by
      rw [h1033, one_eq]
      ring
    have hrne : h * 2199023255552 + 1 ≤ rne (h * F64.one + f) (2 ^ 1033) := by
      rcases Nat.lt_or_ge f (2 ^ 1033) with hsmall | hbig
      · have hq : (h * F64.one + f) / 2 ^ 1033 = h * 2199023255552 := by
          rw [hsplit, Nat.add_mul_div_right _ _ hP, Nat.div_eq_of_lt hsmall, Nat.zero_add]
        have hm : (h * F64.one + f) % 2 ^ 1033 = f := by
          rw [hsplit, Nat.add_mul_mod_self_right, Nat.mod_eq_of_lt hsmall]
        rw [rne_eq_succ _ _ (by rw [hm, h1033]; omega), hq]
      · apply rne_ge_of_mul_le _ _ _ hP
        rw [hsplit]
        nlinarith
    calc h * F64.one = (h * 2199023255552) * 2 ^ 1033 := by
          rw [h1033, one_eq]
          ring
      _ < (h * 2199023255552 + 1) * 2 ^ 1033 := by nlinarith
      _ ≤ rne (h * F64.one + f) (2 ^ 1033) * 2 ^ 1033 := Nat.mul_le_mul_right _ hrne

/-- Below 4096 hours, a duration of more than `olderThan` hours passes the age
test. -/
theorem olderThanHours_true (d olderThan : Int) (ho : 0 ≤ olderThan) (ho2 : olderThan < 4096)
    (hmax : d ≤ maxDuration) (hd : olderThan * Hour < d) :
    olderThanHours d olderThan = true := by
  unfold olderThanHours F64.gt
  simp only [decide_eq_true_eq]
  have hH : Hour = 3600000000000 := rfl
  rw [hH] at hd
  obtain ⟨k, hk⟩ := Int.eq_ofNat_of_zero_le ho
  subst hk
  have hk2 : k < 4096 := by omega
  rw [ofInt_exact k (by omega)]
  obtain ⟨h, r, hdr, hr, hh, hv⟩ := Hours_nat d (by omega) hmax
  rw [hv]
  have hkh : k ≤ h := by
    by_contra hc
    have : h + 1 ≤ k := by omega
    have : ((h : Int) + 1) * 3600000000000 ≤ (k : Int) * 3600000000000 := by
      have : ((h + 1 : Nat) : Int) ≤ (k : Int) := by exact_mod_cast this
      push_cast at this
      nlinarith
    omega
  have goal : k * F64.one <
      round53 (h * F64.one +
        round53 (r * F64.one * F64.one) (3600000000000 * F64.one)) 1 := by
    rcases Nat.lt_or_ge k h with hlt | hge
    · have := round53_ge (h * F64.one +
        round53 (r * F64.one * F64.one) (3600000000000 * F64.one)) 1 (h * F64.one)
        Nat.one_pos (representable_mul_one h (by omega)) (by omega)
      have h2 : k * F64.one < h * F64.one := Nat.mul_lt_mul_of_pos_right hlt one_pos
      omega
    · have hkeq : k = h := le_antisymm hkh hge
      subst hkeq
      have hr1 : 1 ≤ r := by
        by_contra hc
        have : r = 0 := by omega
        subst this
        simp at hdr
        omega
      obtain ⟨f1, f2⟩ := fraction_bounds r hr1 hr
      exact sum_gt k _ hk2 f1 f2
  have := Int.ofNat_lt.2 goal
  push_cast at this
  exact this

end HoursStrict

section ContainerDecision

variable {σ : Type}

theorem containerDecision_some (E : Env σ) (c : Cleanup) (container : String) (s : σ)
    (containerID : String) :
    containerDecision E c container s = some containerID ↔
      container ≠ "" ∧ (Split container tab)[0]? = some containerID ∧
        ∃ out finishTime,
          commandResult (E.run (.inspectFinishedAt containerID) s).1 = .ok out ∧
          E.parseRFC3339Nano (TrimSpace out) = .ok finishTime ∧
          olderThanHours (Since E finishTime (E.run (.inspectFinishedAt containerID) s).2).1
            c.olderThan = true := by
  unfold containerDecision
  by_cases hne : container = ""
  · simp [hne]
  · obtain ⟨p, hp⟩ := Split_head container tab
    rw [if_neg hne, hp]
    simp only [ne_eq, hne, not_false_eq_true, Option.some.injEq, true_and]
    rcases hr : commandResult (E.run (.inspectFinishedAt p) s).1 with err | out
    · constructor
      · intro h
        cases h
      · rintro ⟨rfl, out, finishTime, h1, _⟩
        rw [hr] at h1
        cases h1
    · simp only
      rcases hparse : E.parseRFC3339Nano (TrimSpace out) with err | finishTime
      · constructor
        · intro h
          cases h
        · rintro ⟨rfl, out1, finishTime, h1, h2, _⟩
          rw [hr] at h1
          cases h1
          rw [hparse] at h2
          cases h2
      · simp only
        constructor
        · intro h
          split_ifs at h with ho
          cases h
          exact ⟨rfl, out, finishTime, hr, hparse, ho⟩
        · rintro ⟨rfl, out1, finishTime1, h1, h2, h3⟩
          rw [hr] at h1
          cases h1
          rw [hparse] at h2
          cases h2
          rw [if_pos h3]

end ContainerDecision

section AgeBoundary

variable {σ : Type}

/-- On a line it decides against, the loop body of `CleanContainers` issues no
mutate call and reports nothing. -/
theorem containerStep_of_none (E : Env σ) (c : Cleanup) (container : String) (s : σ)
    (h : containerDecision E c container s = none) :
    mutations (containerStep E c container s).trace = [] ∧
      reportedContainers (containerStep E c container s).trace = [] := by
  by_cases hne : container = ""
  · unfold containerStep
    rw [if_pos hne]
    exact ⟨rfl, rfl⟩
  · obtain ⟨p, hp⟩ := Split_head container tab
    rw [containerStep_id E c container s p hne hp]
    unfold containerDecision at h
    rw [if_neg hne, hp] at h
    simp only [executeCommand_andThen] at h ⊢
    rcases hr : commandResult (E.run (.inspectFinishedAt p) s).1 with err | out
    · simp [reportedContainers, Cmd.isMutate]
    · rw [hr] at h
      simp only at h ⊢
      rcases hparse : E.parseRFC3339Nano (TrimSpace out) with err | finishTime
      · simp [reportedContainers, Cmd.isMutate]
      · rw [hparse] at h
        simp only at h ⊢
        by_cases ho : olderThanHours
            (Since E finishTime (E.run (.inspectFinishedAt p) s).2).1 c.olderThan = true
        · rw [if_pos ho] at h
          cases h
        · rw [if_neg ho]
          simp [reportedContainers, Cmd.isMutate]

/-- On an eligible container, the loop body of `CleanContainers` asks for the
finish time, reads the clock and acts on the container. -/
theorem containerStep_of_some (E : Env σ) (c : Cleanup) (container : String) (s : σ)
    (containerID : String) (h : containerDecision E c container s = some containerID) :
    containerStep E c container s =
      ⟨(containerAction E c containerID
          (E.now (E.run (.inspectFinishedAt containerID) s).2).2).st,
        .call (.inspectFinishedAt containerID) ::
          (containerAction E c containerID
            (E.now (E.run (.inspectFinishedAt containerID) s).2).2).trace,
        (containerAction E c containerID
          (E.now (E.run (.inspectFinishedAt containerID) s).2).2).val⟩ := by
  obtain ⟨hne, hp, out, finishTime, hr, hparse, ho⟩ :=
    (containerDecision_some E c container s containerID).1 h
  rw [containerStep_id E c container s containerID hne hp]
  simp only [executeCommand_andThen, hr, hparse, ho, if_true]
  rfl

theorem Sub_le_max (t u : Int) : Sub t u ≤ maxDuration := by
  unfold Sub
  simp only [minDuration, maxDuration]
  split_ifs <;> omega

theorem Sub_le (t u b : Int) (hb : 0 ≤ b) (h : t - u ≤ b) : Sub t u ≤ b := by
  unfold Sub
  simp only [minDuration, maxDuration]
  split_ifs <;> omega

theorem lt_Sub (t u b : Int) (hb : b < maxDuration) (h : b < t - u) : b < Sub t u := by
  unfold Sub
  simp only [minDuration, maxDuration] at hb ⊢
  split_ifs <;> omega

section HoursSlack

/-- The quotient of a remainder by the hour rounds to at least `c * 2^1029`
units when `c / 2^45 <= r / 3.6e12`. -/
theorem fraction_ge (r c : Nat) (hc : c < 2 ^ 53)
    (h : c * 3600000000000 ≤ r * 35184372088832) :
    c * 2 ^ 1029 ≤ round53 (r * F64.one * F64.one) (3600000000000 * F64.one) := by
  have hHU : 0 < 3600000000000 * F64.one := Nat.mul_pos (by norm_num) one_pos
  apply round53_ge _ _ _ hHU ⟨c, 1029, hc, rfl⟩
  rw [one_eq]
  generalize (2 : Nat) ^ 1029 = B
  have h2 := Nat.mul_le_mul_right (35184372088832 * (B * B)) h
  calc c * B * (3600000000000 * (35184372088832 * B))
      = c * 3600000000000 * (35184372088832 * (B * B)) := by ring
    _ ≤ r * 35184372088832 * (35184372088832 * (B * B)) := h2
    _ = r * (35184372088832 * B) * (35184372088832 * B) := by ring

/-- Adding a rounded fraction to fewer than `4096 * 2^i` whole hours rounds to
more than the whole hours when the fraction exceeds half the spacing of
`float64` below `4096 * 2^i`, which is `2^(i-42)`. -/
theorem sum_gt_pow (i h f : Nat) (hi : i ≤ 10) (hh : h < 4096 * 2 ^ i)
    (hf1 : (8 * 2 ^ i + 1) * 2 ^ 1029 ≤ f) (hf2 : f ≤ 35184372088830 * 2 ^ 1029) :
    h * F64.one < round53 (h * F64.one + f) 1 := by
  have hPQ : 2 ^ i * 2 ^ (41 - i) = 2199023255552 := by
    rw [← pow_add, show i + (41 - i) = 41 by omega]
    norm_num
  have h1032 : (2 : Nat) ^ (1032 + i) = 8 * (2 ^ i * 2 ^ 1029) := by
    rw [show 1032 + i = 3 + (i + 1029) by omega, pow_add, pow_add]
    norm_num
  have h1033 : (2 : Nat) ^ (1033 + i) = 16 * (2 ^ i * 2 ^ 1029) := by
    rw [show 1033 + i = 4 + (i + 1029) by omega, pow_add, pow_add]
    norm_num
  have h1085 : (2 : Nat) ^ (1085 + i) = 72057594037927936 * (2 ^ i * 2 ^ 1029) := by
    rw [show 1085 + i = 56 + (i + 1029) by omega, pow_add, pow_add]
    norm_num
  have h1086 : (2 : Nat) ^ (1086 + i) = 144115188075855872 * (2 ^ i * 2 ^ 1029) := by
    rw [show 1086 + i = 57 + (i + 1029) by omega, pow_add, pow_add]
    norm_num
  have hone : F64.one = 16 * (2 ^ (41 - i) * (2 ^ i * 2 ^ 1029)) := by
    rw [one_eq, show (35184372088832 : Nat) = 16 * 2199023255552 by norm_num, ← hPQ]
    ring
  have hP : 0 < 2 ^ i := by positivity
  have hQ : 0 < 2 ^ (41 - i) := by positivity
  have hB : 0 < 2 ^ 1029 := by positivity
  have hf1a : 8 * (2 ^ i * 2 ^ 1029) + 2 ^ 1029 ≤ f := by
    calc 8 * (2 ^ i * 2 ^ 1029) + 2 ^ 1029 = (8 * 2 ^ i + 1) * 2 ^ 1029 := by ring
      _ ≤ f := hf1
  have hQU : 2 ^ (41 - i) * (2 ^ i * 2 ^ 1029) = 2199023255552 * 2 ^ 1029 := by
    rw [← hPQ]
    ring
  have hU : 0 < 2 ^ i * 2 ^ 1029 := Nat.mul_pos hP hB
  have hnum : h * F64.one = 16 * (h * 2 ^ (41 - i) * (2 ^ i * 2 ^ 1029)) := by
    rw [hone]
    ring
  have hWup : h * 2 ^ (41 - i) + 2 ^ (41 - i) ≤ 4096 * 2199023255552 := by
    have h1 : (h + 1) * 2 ^ (41 - i) ≤ 4096 * 2 ^ i * 2 ^ (41 - i) :=
      Nat.mul_le_mul_right _ hh
    calc h * 2 ^ (41 - i) + 2 ^ (41 - i) = (h + 1) * 2 ^ (41 - i) := by ring
      _ ≤ 4096 * 2 ^ i * 2 ^ (41 - i) := h1
      _ = 4096 * 2199023255552 := by rw [Nat.mul_assoc, hPQ]
  rw [hnum]
  rcases Nat.lt_or_ge h (2048 * 2 ^ i) with hlow | hhigh
  · -- the sum keeps a digit for half the spacing
    have hWA : h * 2 ^ (41 - i) + 2 ^ (41 - i) ≤ 2048 * 2199023255552 := by
      have h1 : (h + 1) * 2 ^ (41 - i) ≤ 2048 * 2 ^ i * 2 ^ (41 - i) :=
        Nat.mul_le_mul_right _ hlow
      calc h * 2 ^ (41 - i) + 2 ^ (41 - i) = (h + 1) * 2 ^ (41 - i) := by ring
        _ ≤ 2048 * 2 ^ i * 2 ^ (41 - i) := h1
        _ = 2048 * 2199023255552 := by rw [Nat.mul_assoc, hPQ]
    generalize h * 2 ^ (41 - i) = W at hWA ⊢
    have hm : 2 * W + 1 < 2 ^ 53 := by
      norm_num
      omega
    have hY : Representable ((2 * W + 1) * 2 ^ (1032 + i)) := ⟨2 * W + 1, 1032 + i, hm, rfl⟩
    have e1 : (2 * W + 1) * (8 * (2 ^ i * 2 ^ 1029)) * 1
        = 16 * (W * (2 ^ i * 2 ^ 1029)) + 8 * (2 ^ i * 2 ^ 1029) := by ring
    have hge := round53_ge (16 * (W * (2 ^ i * 2 ^ 1029)) + f) 1 _ Nat.one_pos hY (by
      rw [h1032, e1]
      omega)
    refine lt_of_lt_of_le ?_ hge
    rw [h1032]
    rw [Nat.mul_one] at e1
    rw [e1]
    omega
  · -- the sum is rounded to multiples of the spacing
    have hWB : 2048 * 2199023255552 ≤ h * 2 ^ (41 - i) := by
      calc 2048 * 2199023255552 = 2048 * 2 ^ i * 2 ^ (41 - i) := by rw [Nat.mul_assoc, hPQ]
        _ ≤ h * 2 ^ (41 - i) := Nat.mul_le_mul_right _ hhigh
    generalize h * 2 ^ (41 - i) = W at hWup hWB ⊢
    have hVup : W * (2 ^ i * 2 ^ 1029) + 2199023255552 * 2 ^ 1029
        ≤ 9007199254740992 * (2 ^ i * 2 ^ 1029) := by
      have h1 := Nat.mul_le_mul_right (2 ^ i * 2 ^ 1029) hWup
      rw [Nat.add_mul, hQU] at h1
      exact h1
    have hVlo : 4503599627370496 * (2 ^ i * 2 ^ 1029) ≤ W * (2 ^ i * 2 ^ 1029) :=
      Nat.mul_le_mul_right (2 ^ i * 2 ^ 1029) hWB
    have hlen : bitLen ((16 * (W * (2 ^ i * 2 ^ 1029)) + f) / 1) = 1086 + i := by
      rw [Nat.div_one]
      apply le_antisymm
      · apply bitLen_lt_pow
        rw [h1086]
        omega
      · have hlo := bitLen_ge_pow (16 * (W * (2 ^ i * 2 ^ 1029)) + f) (1085 + i) (by
          rw [h1085]
          omega)
        omega
    unfold round53
    simp only [hlen, one_mul]
    rw [show 1086 + i - 53 = 1033 + i by omega, h1033]
    have hD : 0 < 16 * (2 ^ i * 2 ^ 1029) := by omega
    have hsplit : 16 * (W * (2 ^ i * 2 ^ 1029)) + f = f + W * (16 * (2 ^ i * 2 ^ 1029)) := by
      ring
    have hrne : W + 1 ≤ rne (16 * (W * (2 ^ i * 2 ^ 1029)) + f) (16 * (2 ^ i * 2 ^ 1029)) := by
      rcases Nat.lt_or_ge f (16 * (2 ^ i * 2 ^ 1029)) with hsmall | hbig
      · have hq : (16 * (W * (2 ^ i * 2 ^ 1029)) + f) / (16 * (2 ^ i * 2 ^ 1029)) = W := by
          rw [hsplit, Nat.add_mul_div_right _ _ hD, Nat.div_eq_of_lt hsmall, Nat.zero_add]
        have hmod : (16 * (W * (2 ^ i * 2 ^ 1029)) + f) % (16 * (2 ^ i * 2 ^ 1029)) = f := by
          rw [hsplit, Nat.add_mul_mod_self_right, Nat.mod_eq_of_lt hsmall]
        rw [rne_eq_succ _ _ (by rw [hmod]; omega), hq]
      · apply rne_ge_of_mul_le _ _ _ hD
        rw [hsplit, Nat.add_mul]
        omega
    calc 16 * (W * (2 ^ i * 2 ^ 1029)) = W * (16 * (2 ^ i * 2 ^ 1029)) := by ring
      _ < (W + 1) * (16 * (2 ^ i * 2 ^ 1029)) := by
          rw [Nat.add_mul]
          omega
      _ ≤ rne (16 * (W * (2 ^ i * 2 ^ 1029)) + f) (16 * (2 ^ i * 2 ^ 1029)) *
            (16 * (2 ^ i * 2 ^ 1029)) := Nat.mul_le_mul_right _ hrne

/-- A duration that exceeds `olderThan` hours by the rounding slack at
`olderThan` passes the age test: below `4096 * 2^i` hours, `r` nanoseconds with
`(8 * 2^i + 1) / 2^45 <= r / 3.6e12` are enough. -/
theorem olderThanHours_slack (d olderThan : Int) (i r : Nat) (ho : 0 ≤ olderThan)
    (hi : i ≤ 10) (ho2 : olderThan < 4096 * 2 ^ i)
    (hr : (8 * 2 ^ i + 1) * 3600000000000 ≤ r * 35184372088832)
    (hmax : d ≤ maxDuration) (hd : olderThan * Hour + r ≤ d) :
    olderThanHours d olderThan = true := by
  unfold olderThanHours F64.gt
  simp only [decide_eq_true_eq]
  have hH : Hour = 3600000000000 := rfl
  rw [hH] at hd
  have hpow : 2 ^ i ≤ 1024 := by
    calc 2 ^ i ≤ 2 ^ 10 := Nat.pow_le_pow_right (by norm_num) hi
      _ = 1024 := by norm_num
  obtain ⟨k, hk⟩ := Int.eq_ofNat_of_zero_le ho
  subst hk
  have hk2 : k < 4096 * 2 ^ i := by exact_mod_cast ho2
  rw [ofInt_exact k (by norm_num; omega)]
  obtain ⟨h, r0, hdr, hr0, hh, hv⟩ := Hours_nat d (by omega) hmax
  rw [hv]
  have hkh : k ≤ h := by
    by_contra hc
    have : h + 1 ≤ k := by omega
    have : ((h : Int) + 1) * 3600000000000 ≤ (k : Int) * 3600000000000 := by
      have : ((h + 1 : Nat) : Int) ≤ (k : Int) := by exact_mod_cast this
      push_cast at this
      nlinarith
    omega
  have goal : k * F64.one <
      round53 (h * F64.one +
        round53 (r0 * F64.one * F64.one) (3600000000000 * F64.one)) 1 := by
    rcases Nat.lt_or_ge k h with hlt | hge
    · have := round53_ge (h * F64.one +
        round53 (r0 * F64.one * F64.one) (3600000000000 * F64.one)) 1 (h * F64.one)
        Nat.one_pos (representable_mul_one h (by omega)) (by omega)
      have h2 : k * F64.one < h * F64.one := Nat.mul_lt_mul_of_pos_right hlt one_pos
      omega
    · have hkeq : k = h := le_antisymm hkh hge
      subst hkeq
      have hrr : r ≤ r0 := by omega
      have hr1 : 1 ≤ r0 := by omega
      have f1 := fraction_ge r0 (8 * 2 ^ i + 1) (by norm_num; omega) (by
        have := Nat.mul_le_mul_right 35184372088832 hrr
        omega)
      exact sum_gt_pow i k _ hi hk2 f1 (fraction_bounds r0 hr1 hr0).2
  have := Int.ofNat_lt.2 goal
  push_cast at this
  exact this

/-- The quotient of a remainder by the hour rounds to at most `c * 2^1029`
units when `r / 3.6e12 <= c / 2^45`. -/
theorem fraction_le (r c : Nat) (hc : c < 2 ^ 53)
    (h : r * 35184372088832 ≤ c * 3600000000000) :
    round53 (r * F64.one * F64.one) (3600000000000 * F64.one) ≤ c * 2 ^ 1029 := by
  have hHU : 0 < 3600000000000 * F64.one := Nat.mul_pos (by norm_num) one_pos
  apply round53_le _ _ _ hHU ⟨c, 1029, hc, rfl⟩
  rw [one_eq]
  generalize (2 : Nat) ^ 1029 = B
  have h2 := Nat.mul_le_mul_right (35184372088832 * (B * B)) h
  calc r * (35184372088832 * B) * (35184372088832 * B)
      = r * 35184372088832 * (35184372088832 * (B * B)) := by ring
    _ ≤ c * 3600000000000 * (35184372088832 * (B * B)) := h2
    _ = c * B * (3600000000000 * (35184372088832 * B)) := by ring

/-- Adding a fraction of at most half the spacing of `float64` to whole hours
between `2048 * 2^i` and `4096 * 2^i` rounds to the whole hours. -/
theorem sum_eq_pow (i h f : Nat) (hi : i ≤ 10) (hlo : 2048 * 2 ^ i ≤ h)
    (hh : h < 4096 * 2 ^ i) (hf : f ≤ 8 * 2 ^ i * 2 ^ 1029) :
    round53 (h * F64.one + f) 1 = h * F64.one := by
  have hPQ : 2 ^ i * 2 ^ (41 - i) = 2199023255552 := by
    rw [← pow_add, show i + (41 - i) = 41 by omega]
    norm_num
  have h1033 : (2 : Nat) ^ (1033 + i) = 16 * (2 ^ i * 2 ^ 1029) := by
    rw [show 1033 + i = 4 + (i + 1029) by omega, pow_add, pow_add]
    norm_num
  have h1085 : (2 : Nat) ^ (1085 + i) = 72057594037927936 * (2 ^ i * 2 ^ 1029) := by
    rw [show 1085 + i = 56 + (i + 1029) by omega, pow_add, pow_add]
    norm_num
  have h1086 : (2 : Nat) ^ (1086 + i) = 144115188075855872 * (2 ^ i * 2 ^ 1029) := by
    rw [show 1086 + i = 57 + (i + 1029) by omega, pow_add, pow_add]
    norm_num
  have hone : F64.one = 16 * (2 ^ (41 - i) * (2 ^ i * 2 ^ 1029)) := by
    rw [one_eq, show (35184372088832 : Nat) = 16 * 2199023255552 by norm_num, ← hPQ]
    ring
  have hP : 0 < 2 ^ i := by positivity
  have hB : 0 < 2 ^ 1029 := by positivity
  have hU : 0 < 2 ^ i * 2 ^ 1029 := Nat.mul_pos hP hB
  have hfa : f ≤ 8 * (2 ^ i * 2 ^ 1029) := by
    calc f ≤ 8 * 2 ^ i * 2 ^ 1029 := hf
      _ = 8 * (2 ^ i * 2 ^ 1029) := by ring
  have hQU : 2 ^ (41 - i) * (2 ^ i * 2 ^ 1029) = 2199023255552 * 2 ^ 1029 := by
    rw [← hPQ]
    ring
  have hnum : h * F64.one = 16 * (h * 2 ^ (41 - i) * (2 ^ i * 2 ^ 1029)) := by
    rw [hone]
    ring
  have heven : h * 2 ^ (41 - i) % 2 = 0 := by
    rw [show 41 - i = (40 - i) + 1 by omega, pow_succ, ← Nat.mul_assoc]
    exact Nat.mul_mod_left _ _
  have hWup : h * 2 ^ (41 - i) + 2 ^ (41 - i) ≤ 4096 * 2199023255552 := by
    have h1 : (h + 1) * 2 ^ (41 - i) ≤ 4096 * 2 ^ i * 2 ^ (41 - i) :=
      Nat.mul_le_mul_right _ hh
    calc h * 2 ^ (41 - i) + 2 ^ (41 - i) = (h + 1) * 2 ^ (41 - i) := by ring
      _ ≤ 4096 * 2 ^ i * 2 ^ (41 - i) := h1
      _ = 4096 * 2199023255552 := by rw [Nat.mul_assoc, hPQ]
  have hWB : 2048 * 2199023255552 ≤ h * 2 ^ (41 - i) := by
    calc 2048 * 2199023255552 = 2048 * 2 ^ i * 2 ^ (41 - i) := by rw [Nat.mul_assoc, hPQ]
      _ ≤ h * 2 ^ (41 - i) := Nat.mul_le_mul_right _ hlo
  rw [hnum]
  generalize h * 2 ^ (41 - i) = W at hWup hWB heven ⊢
  have hVup : W * (2 ^ i * 2 ^ 1029) + 2199023255552 * 2 ^ 1029
      ≤ 9007199254740992 * (2 ^ i * 2 ^ 1029) := by
    have h1 := Nat.mul_le_mul_right (2 ^ i * 2 ^ 1029) hWup
    rw [Nat.add_mul, hQU] at h1
    exact h1
  have hVlo : 4503599627370496 * (2 ^ i * 2 ^ 1029) ≤ W * (2 ^ i * 2 ^ 1029) :=
    Nat.mul_le_mul_right (2 ^ i * 2 ^ 1029) hWB
  have hUB : 2 ^ i * 2 ^ 1029 ≤ 1024 * 2 ^ 1029 :=
    Nat.mul_le_mul_right _ (by
      calc 2 ^ i ≤ 2 ^ 10 := Nat.pow_le_pow_right (by norm_num) hi
        _ = 1024 := by norm_num)
  generalize 2 ^ i * 2 ^ 1029 = U at hU hfa hVup hVlo hUB h1033 h1085 h1086 ⊢
  generalize (2 : Nat) ^ 1029 = B at hB hVup hUB
  have hlen : bitLen ((16 * (W * U) + f) / 1) = 1086 + i := by
    rw [Nat.div_one]
    apply le_antisymm
    · apply bitLen_lt_pow
      rw [h1086]
      omega
    · have hlo2 := bitLen_ge_pow (16 * (W * U) + f) (1085 + i) (by
        rw [h1085]
        omega)
      omega
  unfold round53
  simp only [hlen, one_mul]
  rw [show 1086 + i - 53 = 1033 + i by omega, h1033]
  have hD : 0 < 16 * U := by omega
  have hsplit : 16 * (W * U) + f = f + W * (16 * U) := by ring
  have hsmall : f < 16 * U := by omega
  have hq : (16 * (W * U) + f) / (16 * U) = W := by
    rw [hsplit, Nat.add_mul_div_right _ _ hD, Nat.div_eq_of_lt hsmall, Nat.zero_add]
  have hmod : (16 * (W * U) + f) % (16 * U) = f := by
    rw [hsplit, Nat.add_mul_mod_self_right, Nat.mod_eq_of_lt hsmall]
  have hrne : rne (16 * (W * U) + f) (16 * U) = W := by
    unfold rne
    simp only [hq, hmod]
    by_cases c1 : 2 * f < 16 * U
    · rw [if_pos c1]
    · rw [if_neg c1, if_neg (by omega), if_pos heven]
  rw [hrne]
  ring

/-- No whole number of nanoseconds lies strictly between half the spacing of
`float64` below `4096 * 2^i` hours and the slack of the age test. -/
theorem slack_gap (i r : Nat) (hi : i ≤ 10)
    (h : r * 2 ^ 45 < (8 * 2 ^ i + 1) * 3600000000000) :
    r * 35184372088832 ≤ 8 * 2 ^ i * 3600000000000 := by
  interval_cases i <;> norm_num at h ⊢ <;> omega

/-- A duration that exceeds `olderThan` hours by less than the rounding slack
fails the age test, for `olderThan` between `2048 * 2^i` and `4096 * 2^i`. -/
theorem olderThanHours_below (d olderThan : Int) (i r : Nat) (hi : i ≤ 10)
    (ho1 : 2048 * 2 ^ i ≤ olderThan) (ho2 : olderThan < 4096 * 2 ^ i)
    (hr : r * 2 ^ 45 < (8 * 2 ^ i + 1) * 3600000000000)
    (hmax : d ≤ maxDuration) (hd : d ≤ olderThan * Hour + r) :
    olderThanHours d olderThan = false := by
  have hH : Hour = 3600000000000 := rfl
  have hpow : 2 ^ i ≤ 1024 := by
    calc 2 ^ i ≤ 2 ^ 10 := Nat.pow_le_pow_right (by norm_num) hi
      _ = 1024 := by norm_num
  have hP : 0 < 2 ^ i := by positivity
  have ho : 0 ≤ olderThan := by
    have : (0 : Int) ≤ 2048 * 2 ^ i := by positivity
    omega
  have hgap := slack_gap i r hi hr
  rcases le_or_lt d (olderThan * Hour) with hle | hgt
  · exact olderThanHours_false d olderThan ho hmax hle
  · unfold olderThanHours F64.gt
    simp only [decide_eq_false_iff_not, not_lt]
    rw [hH] at hd hgt
    obtain ⟨k, hk⟩ := Int.eq_ofNat_of_zero_le ho
    subst hk
    have hk1 : 2048 * 2 ^ i ≤ k := by exact_mod_cast ho1
    have hk2 : k < 4096 * 2 ^ i := by exact_mod_cast ho2
    rw [ofInt_exact k (by norm_num; omega)]
    obtain ⟨h, r0, hdr, hr0, hh, hv⟩ := Hours_nat d (by omega) hmax
    rw [hv]
    have hrs : r ≤ 838 := by omega
    have hkh : k = h := by
      have e1 : (k : Int) * 3600000000000 < (h : Int) * 3600000000000 + 3600000000000 := by
        omega
      have e2 : (h : Int) * 3600000000000 < (k : Int) * 3600000000000 + 3600000000000 := by
        omega
      have e3 : (k : Int) < h + 1 := by nlinarith
      have e4 : (h : Int) < k + 1 := by nlinarith
      omega
    subst hkh
    have hrr : r0 ≤ r := by omega
    have f1 := fraction_le r0 (8 * 2 ^ i) (by norm_num; omega) (by
      have := Nat.mul_le_mul_right 35184372088832 hrr
      omega)
    rw [sum_eq_pow i k _ hi hk1 hk2 (by
      calc round53 (r0 * F64.one * F64.one) (3600000000000 * F64.one)
          ≤ 8 * 2 ^ i * 2 ^ 1029 := f1
        _ = 8 * 2 ^ i * 2 ^ 1029 := rfl)]
    push_cast
    exact le_refl _

theorem le_Sub (t u b : Int) (hb0 : 0 ≤ b) (hb : b ≤ maxDuration) (h : b ≤ t - u) :
    b ≤ Sub t u := by
  unfold Sub
  simp only [minDuration, maxDuration] at hb ⊢
  split_ifs <;> omega

/-- The age test on `time.Since` at every threshold: an excess over the
threshold of the rounding slack passes it, a smaller one does not; a
microsecond passes it at every threshold up to 2562047 hours; from 2562048
hours on nothing passes it, since a `time.Duration` does not exceed 2562047
hours and 48 minutes. -/
theorem age_test_slack (now t olderThan : Int) (ho : 0 ≤ olderThan) :
    (∀ i r : Nat, i ≤ 10 → olderThan < 4096 * 2 ^ i → olderThan ≤ 2562047 →
        (8 * 2 ^ i + 1) * 3600000000000 ≤ r * 2 ^ 45 →
        olderThan * Hour + r ≤ now - t → olderThanHours (Sub now t) olderThan = true) ∧
      (olderThan ≤ 2562047 → olderThan * Hour + 1000 ≤ now - t →
        olderThanHours (Sub now t) olderThan = true) ∧
      (2562048 ≤ olderThan → olderThanHours (Sub now t) olderThan = false) ∧
      (∀ i r : Nat, i ≤ 10 → 2048 * 2 ^ i ≤ olderThan → olderThan < 4096 * 2 ^ i →
        r * 2 ^ 45 < (8 * 2 ^ i + 1) * 3600000000000 →
        now - t ≤ olderThan * Hour + r → olderThanHours (Sub now t) olderThan = false) := by
  have hH : Hour = 3600000000000 := rfl
  have key : ∀ i r : Nat, i ≤ 10 → olderThan < 4096 * 2 ^ i → olderThan ≤ 2562047 →
      (8 * 2 ^ i + 1) * 3600000000000 ≤ r * 2 ^ 45 → r ≤ 1000 →
      olderThan * Hour + r ≤ now - t → olderThanHours (Sub now t) olderThan = true := by
    intro i r hi h1 h2 hr hr2 hd
    apply olderThanHours_slack _ _ i r ho hi h1 (by norm_num at hr ⊢; exact hr)
      (Sub_le_max now t)
    apply le_Sub _ _ _ (by rw [hH]; omega) (by simp only [hH, maxDuration]; omega) hd
  have hpow : ∀ i : Nat, i ≤ 10 → 2 ^ i ≤ 1024 := by
    intro i hi
    calc 2 ^ i ≤ 2 ^ 10 := Nat.pow_le_pow_right (by norm_num) hi
      _ = 1024 := by norm_num
  refine ⟨?_, ?_, ?_, ?_⟩
  · intro i r hi h1 h2 hr hd
    rcases Nat.le_total r 1000 with hle | hge
    · exact key i r hi h1 h2 hr hle hd
    · have := hpow i hi
      exact key i 1000 hi h1 h2 (by norm_num; omega) (le_refl _) (by
        have : ((1000 : Nat) : Int) ≤ (r : Int) := by exact_mod_cast hge
        push_cast at this ⊢
        omega)
  · intro h2 hd
    exact key 10 1000 (le_refl _) (by norm_num; omega) h2 (by norm_num) (le_refl _)
      (by push_cast; exact hd)
  · intro h
    apply olderThanHours_false _ _ ho (Sub_le_max now t)
    have := Sub_le_max now t
    simp only [maxDuration, hH] at this ⊢
    omega
  · intro i r hi h1 h2 hr hd
    apply olderThanHours_below _ _ i r hi h1 h2 hr (Sub_le_max now t)
    exact Sub_le now t _ (by rw [hH]; omega) hd

end HoursSlack

/-- The age test on `time.Since`: false up to the threshold, true above it
when the threshold is under 4096 hours. -/
theorem age_test (now t olderThan : Int) (ho : 0 ≤ olderThan) :
    (now - t ≤ olderThan * Hour → olderThanHours (Sub now t) olderThan = false) ∧
      (olderThan < 4096 → olderThan * Hour < now - t →
        olderThanHours (Sub now t) olderThan = true) := by
  have hH : (0 : Int) < Hour := by unfold Hour; norm_num
  constructor
  · intro h
    exact olderThanHours_false _ _ ho (Sub_le_max now t)
      (Sub_le now t _ (Int.mul_nonneg ho (le_of_lt hH)) h)
  · intro h1 h2
    apply olderThanHours_true _ _ ho h1 (Sub_le_max now t)
    apply lt_Sub _ _ _ _ h2
    simp only [Hour, maxDuration]
    omega

/-- C4, amended. For a threshold `olderThan >= 0`: a stopped container whose
finish time is obtained and parses, and an unused image whose creation time
parses, is not eligible when its age (the clock reading minus the timestamp)
is `olderThan` hours or less, and is eligible when its age exceeds `olderThan`
hours by the rounding slack of `float64` at the threshold: under 4096 hours by
however little; under `4096 * 2^i` hours (`i <= 10`) and up to 2562047 hours
by `r` nanoseconds with `(8 * 2^i + 1) * 3.6e12 <= r * 2^45` (2 ns under 8192
hours, 4 ns under 16384 hours, 839 ns at most); so by a microsecond at every
threshold up to 2562047 hours. From 2562048 hours on no record is eligible:
a `time.Duration` does not exceed 2562047 hours and 48 minutes. The slack is
exact: at a threshold between `2048 * 2^i` and `4096 * 2^i` hours, a record
whose age exceeds the threshold by fewer nanoseconds is not eligible. -/
theorem age_boundary (E : Env σ) (c : Cleanup) (ho : 0 ≤ c.olderThan) :
    (∀ container s containerID out finishTime, container ≠ "" →
        (Split container tab)[0]? = some containerID →
        commandResult (E.run (.inspectFinishedAt containerID) s).1 = .ok out →
        E.parseRFC3339Nano (TrimSpace out) = .ok finishTime →
        ((E.now (E.run (.inspectFinishedAt containerID) s).2).1 - finishTime
            ≤ c.olderThan * Hour →
          containerDecision E c container s = none) ∧
        (c.olderThan < 4096 →
          c.olderThan * Hour
            < (E.now (E.run (.inspectFinishedAt containerID) s).2).1 - finishTime →
          containerDecision E c container s = some containerID) ∧
        (∀ i r : Nat, i ≤ 10 → c.olderThan < 4096 * 2 ^ i → c.olderThan ≤ 2562047 →
          (8 * 2 ^ i + 1) * 3600000000000 ≤ r * 2 ^ 45 →
          c.olderThan * Hour + r
            ≤ (E.now (E.run (.inspectFinishedAt containerID) s).2).1 - finishTime →
          containerDecision E c container s = some containerID) ∧
        (c.olderThan ≤ 2562047 →
          c.olderThan * Hour + 1000
            ≤ (E.now (E.run (.inspectFinishedAt containerID) s).2).1 - finishTime →
          containerDecision E c container s = some containerID) ∧
        (2562048 ≤ c.olderThan → containerDecision E c container s = none) ∧
        (∀ i r : Nat, i ≤ 10 → 2048 * 2 ^ i ≤ c.olderThan → c.olderThan < 4096 * 2 ^ i →
          r * 2 ^ 45 < (8 * 2 ^ i + 1) * 3600000000000 →
          (E.now (E.run (.inspectFinishedAt containerID) s).2).1 - finishTime
            ≤ c.olderThan * Hour + r →
          containerDecision E c container s = none)) ∧
      (∀ used line s imageID repo tag createdStr rest created, line ≠ "" →
        Split line tab = imageID :: repo :: tag :: createdStr :: rest →
        E.parseCreatedAt createdStr = .ok created →
        StrSet.get used (repo ++ ":" ++ tag) = false →
        ((E.now s).1 - created ≤ c.olderThan * Hour →
          imageDecision E c used line s = none) ∧
        (c.olderThan < 4096 → c.olderThan * Hour < (E.now s).1 - created →
          imageDecision E c used line s = some (imageID, repo ++ ":" ++ tag)) ∧
        (∀ i r : Nat, i ≤ 10 → c.olderThan < 4096 * 2 ^ i → c.olderThan ≤ 2562047 →
          (8 * 2 ^ i + 1) * 3600000000000 ≤ r * 2 ^ 45 →
          c.olderThan * Hour + r ≤ (E.now s).1 - created →
          imageDecision E c used line s = some (imageID, repo ++ ":" ++ tag)) ∧
        (c.olderThan ≤ 2562047 → c.olderThan * Hour + 1000 ≤ (E.now s).1 - created →
          imageDecision E c used line s = some (imageID, repo ++ ":" ++ tag)) ∧
        (2562048 ≤ c.olderThan → imageDecision E c used line s = none) ∧
        (∀ i r : Nat, i ≤ 10 → 2048 * 2 ^ i ≤ c.olderThan → c.olderThan < 4096 * 2 ^ i →
          r * 2 ^ 45 < (8 * 2 ^ i + 1) * 3600000000000 →
          (E.now s).1 - created ≤ c.olderThan * Hour + r →
          imageDecision E c used line s = none)) := by
  constructor
  · intro container s containerID out finishTime hne hp hr hparse
    have hage := age_test (E.now (E.run (.inspectFinishedAt containerID) s).2).1 finishTime
      c.olderThan ho
    have hslack := age_test_slack (E.now (E.run (.inspectFinishedAt containerID) s).2).1
      finishTime c.olderThan ho
    have hnone : olderThanHours
        (Sub (E.now (E.run (.inspectFinishedAt containerID) s).2).1 finishTime) c.olderThan
          = false → containerDecision E c container s = none := by
      intro hf
      unfold containerDecision
      rw [if_neg hne, hp]
      simp only [hr, hparse, Since, hf, Bool.false_eq_true, if_false]
    have hsome : olderThanHours
        (Sub (E.now (E.run (.inspectFinishedAt containerID) s).2).1 finishTime) c.olderThan
          = true → containerDecision E c container s = some containerID := fun ht =>
      (containerDecision_some E c container s containerID).2
        ⟨hne, hp, out, finishTime, hr, hparse, ht⟩
    exact ⟨fun h => hnone (hage.1 h), fun h1 h2 => hsome (hage.2 h1 h2),
      fun i r hi h1 h2 h3 h4 => hsome (hslack.1 i r hi h1 h2 h3 h4),
      fun h1 h2 => hsome (hslack.2.1 h1 h2), fun h => hnone (hslack.2.2.1 h),
      fun i r hi h1 h2 h3 h4 => hnone (hslack.2.2.2 i r hi h1 h2 h3 h4)⟩
  · intro used line s imageID repo tag createdStr rest created hne hs hparse hu
    have hage := age_test (E.now s).1 created c.olderThan ho
    have hslack := age_test_slack (E.now s).1 created c.olderThan ho
    have hnone : olderThanHours (Sub (E.now s).1 created) c.olderThan = false →
        imageDecision E c used line s = none := by
      intro hf
      unfold imageDecision
      rw [if_neg hne, hs]
      simp only [hparse, Since, hf, Bool.and_false, Bool.false_eq_true, if_false]
    have hsome : olderThanHours (Sub (E.now s).1 created) c.olderThan = true →
        imageDecision E c used line s = some (imageID, repo ++ ":" ++ tag) := fun ht =>
      (imageDecision_some E c used line s imageID _).2
        ⟨hne, repo, tag, createdStr, rest, created, hs, rfl, hparse, hu, ht⟩
    exact ⟨fun h => hnone (hage.1 h), fun h1 h2 => hsome (hage.2 h1 h2),
      fun i r hi h1 h2 h3 h4 => hsome (hslack.1 i r hi h1 h2 h3 h4),
      fun h1 h2 => hsome (hslack.2.1 h1 h2), fun h => hnone (hslack.2.2.1 h),
      fun i r hi h1 h2 h3 h4 => hnone (hslack.2.2.2 i r hi h1 h2 h3 h4)⟩

set_option maxRecDepth 100000 in
set_option exponentiation.threshold 2000 in
/-- C4, amended, at the clock 2024-01-04 00:00:00 UTC. With a threshold of 24
hours, a container that finished exactly 24 hours before is not eligible, one
that finished a nanosecond earlier is. With a threshold of 4096 hours, a
container that finished 4096 hours and 2 nanoseconds before is eligible, one
that finished 4096 hours and 1 nanosecond before is not. -/
theorem age_boundary_witness :
    (0 : Int) ≤ (Cleanup.mk false 24).olderThan ∧
      containerDecision (sampleEnv (containerDaemon "2024-01-03T00:00:00Z") sampleNow)
          ⟨false, 24⟩ "c1\texited" () = none ∧
      containerDecision
          (sampleEnv (containerDaemon "2024-01-02T23:59:59.999999999Z") sampleNow)
          ⟨false, 24⟩ "c1\texited" () = some "c1" ∧
      containerDecision
          (sampleEnv (containerDaemon "2023-07-17T07:59:59.999999998Z") sampleNow)
          ⟨false, 4096⟩ "c1\texited" () = some "c1" ∧
      containerDecision
          (sampleEnv (containerDaemon "2023-07-17T07:59:59.999999999Z") sampleNow)
          ⟨false, 4096⟩ "c1\texited" () = none :=
  ⟨by decide,
    ((age_boundary (sampleEnv (containerDaemon "2024-01-03T00:00:00Z") sampleNow) ⟨false, 24⟩
      (by decide)).1 "c1\texited" () "c1" "2024-01-03T00:00:00Z\n" (sampleNow - 24 * Hour)
      (by decide) (by decide) (by decide) (by decide)).1 (by decide),
    ((age_boundary (sampleEnv (containerDaemon "2024-01-02T23:59:59.999999999Z") sampleNow)
      ⟨false, 24⟩ (by decide)).1 "c1\texited" () "c1" "2024-01-02T23:59:59.999999999Z\n"
      (sampleNow - 24 * Hour - 1) (by decide) (by decide) (by decide) (by decide)).2.1
      (by decide) (by decide),
    ((age_boundary (sampleEnv (containerDaemon "2023-07-17T07:59:59.999999998Z") sampleNow)
      ⟨false, 4096⟩ (by decide)).1 "c1\texited" () "c1" "2023-07-17T07:59:59.999999998Z\n"
      (sampleNow - 4096 * Hour - 2) (by decide) (by decide) (by decide) (by decide)).2.2.1
      1 2 (by decide) (by decide) (by decide) (by decide) (by decide),
    ((age_boundary (sampleEnv (containerDaemon "2023-07-17T07:59:59.999999999Z") sampleNow)
      ⟨false, 4096⟩ (by decide)).1 "c1\texited" () "c1" "2023-07-17T07:59:59.999999999Z\n"
      (sampleNow - 4096 * Hour - 1) (by decide) (by decide) (by decide) (by decide)).2.2.2.2.2
      1 1 (by decide) (by decide) (by decide) (by decide) (by decide)⟩

set_option maxRecDepth 100000 in
set_option exponentiation.threshold 2000 in
/-- C4 as stated fails: with a threshold of 4096 hours, a container whose age
is 4096 hours and one nanosecond is not eligible, and is not removed; one that
is a second older is removed. -/
theorem excess_of_a_nanosecond_is_rounded_away :
    parseRFC3339NanoSample "2023-07-17T07:59:59.999999999Z"
        = .ok (sampleNow - (4096 * Hour + 1)) ∧
      containerDecision
          (sampleEnv (containerDaemon "2023-07-17T07:59:59.999999999Z") sampleNow)
          ⟨false, 4096⟩ "c1\texited" () = none ∧
      mutations
          (CleanContainers
            (sampleEnv (containerDaemon "2023-07-17T07:59:59.999999999Z") sampleNow)
            ⟨false, 4096⟩ ()).trace = [] ∧
      mutations
          (CleanContainers (sampleEnv (containerDaemon "2023-07-17T07:59:59Z") sampleNow)
            ⟨false, 4096⟩ ()).trace = [.rm "c1"] := by
  decide

end AgeBoundary

section Roundtrip

theorem flatMap_newline (L : List (List Char)) (hL : L ≠ []) :
    (L.flatMap fun l => l ++ [newline]) = [newline].intercalate L ++ [newline] := by
  induction L with
  | nil => exact absurd rfl hL
  | cons a L ih =>
    rcases L with _ | ⟨b, L⟩
    · simp [List.intercalate]
    · have := ih (by simp)
      rw [List.flatMap_cons, this]
      simp [List.intercalate, List.intersperse]

theorem wfLine_data (x : String) (h : wfLine x = true) :
    (∃ a t, x.data = a :: t ∧ isSpace a = false) ∧
      (∃ init b, x.data = init ++ [b] ∧ isSpace b = false) ∧ newline ∉ x.data := by
  unfold wfLine at h
  rcases hx : x.data with _ | ⟨a, t⟩
  · rw [hx] at h
    simp at h
  · rw [hx] at h
    have hne : a :: t ≠ [] := by simp
    rw [List.getLast?_eq_getLast _ hne] at h
    simp only [List.head?_cons, Bool.and_eq_true, Bool.not_eq_true', List.contains_eq_any_beq,
      List.any_eq_false, beq_iff_eq] at h
    obtain ⟨⟨h1, h2⟩, h3⟩ := h
    refine ⟨⟨a, t, rfl, h1⟩, ⟨(a :: t).dropLast, (a :: t).getLast hne, ?_, h2⟩, ?_⟩
    · exact (List.dropLast_append_getLast hne).symm
    · intro hmem
      exact h3 newline hmem rfl

theorem wfLine_ne_empty (x : String) (h : wfLine x = true) : x ≠ "" := by
  obtain ⟨⟨a, t, ha, _⟩, _⟩ := wfLine_data x h
  intro hx
  rw [hx] at ha
  cases ha

/-- The lines of a rendered listing are the listing. -/
theorem linesOf_render (ls : List String) (hne : ls ≠ []) (hwf : ∀ x ∈ ls, wfLine x = true) :
    linesOf (render ls) = ls := by
  have hmap : ls.map String.data ≠ [] := by simpa using hne
  have hdata : (render ls).data = [newline].intercalate (ls.map String.data) ++ [newline] := by
    rw [← flatMap_newline _ hmap]
    simp [render, List.flatMap_def, List.map_map, Function.comp_def]
  have hsplit : ([newline].intercalate (ls.map String.data)).splitOn newline
      = ls.map String.data := by
    apply List.splitOn_intercalate
    · intro l hl
      obtain ⟨x, hx, rfl⟩ := List.mem_map.1 hl
      exact (wfLine_data x (hwf x hx)).2.2
    · exact hmap
  -- the text starts with a character that is not a space
  have hhead : ∃ a t, [newline].intercalate (ls.map String.data) = a :: t ∧ isSpace a = false := by
    rcases ls with _ | ⟨x, rest⟩
    · exact absurd rfl hne
    · obtain ⟨⟨a, t, ha, hsp⟩, _⟩ := wfLine_data x (hwf x (List.mem_cons_self _ _))
      rcases rest with _ | ⟨y, rest⟩
      · exact ⟨a, t, by simp [List.intercalate, ha], hsp⟩
      · exact ⟨a, _, by simp [List.intercalate, List.intersperse, ha]; rfl, hsp⟩
  -- and ends with one
  have hlast : ∃ init b, [newline].intercalate (ls.map String.data) = init ++ [b] ∧
      isSpace b = false := by
    have hl : ls.getLast hne ∈ ls := List.getLast_mem hne
    obtain ⟨_, ⟨init, b, hb, hsp⟩, _⟩ := wfLine_data _ (hwf _ hl)
    have hdec := (List.dropLast_append_getLast hne).symm
    rcases hd : ls.dropLast with _ | ⟨y, rest⟩
    · rw [hd] at hdec
      refine ⟨init, b, ?_, hsp⟩
      rw [hdec]
      simp [List.intercalate, hb]
    · refine ⟨[newline].intercalate ((y :: rest).map String.data) ++ [newline] ++ init, b, ?_, hsp⟩
      rw [hdec, hd, List.map_append, ← flatMap_newline _ (by simp)]
      have : ∀ (A : List (List Char)) (l : List Char),
          [newline].intercalate (A ++ [l]) = (A.flatMap fun l => l ++ [newline]) ++ l := by
        intro A l
        induction A with
        | nil => simp [List.intercalate]
        | cons a A ih =>
          rcases A with _ | ⟨a2, A⟩
          · simp [List.intercalate, List.intersperse]
          · have e : [newline].intercalate (a :: ((a2 :: A) ++ [l]))
                = a ++ [newline] ++ [newline].intercalate ((a2 :: A) ++ [l]) := by
              simp [List.intercalate, List.intersperse]
            rw [List.cons_append, e, ih]
            simp [List.flatMap_cons]
      rw [show List.map String.data [ls.getLast hne] = [(ls.getLast hne).data] from rfl, this, hb]
      simp
  obtain ⟨a, t, hat, hsa⟩ := hhead
  obtain ⟨init, b, hib, hsb⟩ := hlast
  have htrim : (TrimSpace (render ls)).data = [newline].intercalate (ls.map String.data) := by
    unfold TrimSpace
    simp only [hdata]
    have h1 : ([newline].intercalate (ls.map String.data) ++ [newline]).dropWhile isSpace
        = [newline].intercalate (ls.map String.data) ++ [newline] := by
      rw [hat]
      simp [List.dropWhile_cons, hsa]
    rw [h1, List.rdropWhile_concat_pos _ _ _ (by decide), hib,
      List.rdropWhile_concat_neg _ _ _ (by simp [hsb])]
  unfold linesOf Split
  rw [htrim, hsplit]
  simp [List.map_map, Function.comp_def]

end Roundtrip

section Simulation

variable {σ : Type}

/-- A second pass attempts the records whose removal the first pass was
refused. -/
theorem attempts_survivors (elig refused short : String → Bool) (xs : List String) :
    attempts elig refused short (survivors elig refused short xs) =
      (attempts elig refused short xs).filter refused := by
  induction xs with
  | nil => rfl
  | cons x xs ih =>
    by_cases he : elig x = true
    · by_cases hp : refused x = true
      · by_cases hs : short x = true
        · simp [attempts, survivors, he, hp, hs]
        · simp [attempts, survivors, he, hp, hs, ih]
      · simp [attempts, survivors, he, hp, ih]
    · simp [attempts, survivors, he, ih]

theorem survivors_sublist (elig refused short : String → Bool) (xs : List String) :
    (survivors elig refused short xs).Sublist xs := by
  induction xs with
  | nil => exact List.Sublist.refl _
  | cons x xs ih =>
    unfold survivors
    split_ifs
    · exact List.Sublist.refl _
    · exact ih.cons₂ x
    · exact ih.cons x
    · exact ih.cons₂ x

@[simp] theorem itemRemovals_append (a b : List Event) :
    itemRemovals (a ++ b) = itemRemovals a ++ itemRemovals b := by
  simp [itemRemovals]

theorem filter_key_ne (key : String → String) (done xs : List String) (x : String)
    (h : ((done ++ x :: xs).map key).Nodup) :
    (done ++ x :: xs).filter (fun y => key y ≠ key x) = done ++ xs := by
  rw [List.map_append, List.map_cons, List.nodup_append] at h
  obtain ⟨_, h2, h3⟩ := h
  rw [List.nodup_cons] at h2
  rw [List.filter_append, List.filter_cons]
  have e1 : done.filter (fun y => key y ≠ key x) = done := by
    rw [List.filter_eq_self]
    intro y hy
    simp only [ne_eq, decide_not, Bool.not_eq_true', decide_eq_false_iff_not]
    intro hk
    exact h3 (List.mem_map.2 ⟨y, hy, hk⟩) (List.mem_cons_self _ _)
  have e2 : xs.filter (fun y => key y ≠ key x) = xs := by
    rw [List.filter_eq_self]
    intro y hy
    simp only [ne_eq, decide_not, Bool.not_eq_true', decide_eq_false_iff_not]
    intro hk
    exact h2.1 (hk ▸ List.mem_map.2 ⟨y, hy, rfl⟩)
  rw [e1, e2]
  simp

/-- A loop over the listed records of a daemon in which a removal deletes its
record: what it attempts and what it leaves. -/
theorem loop_sim (body : String → σ → Run σ Unit) (lines : σ → List String)
    (key : String → String) (mk : String → Cmd) (elig refused short : String → Bool)
    (hstep : ∀ s x, x ∈ lines s → ((lines s).map key).Nodup →
      (elig x = false →
        itemRemovals (body x s).trace = [] ∧ lines (body x s).st = lines s ∧
          (body x s).val = some ()) ∧
      (elig x = true →
        itemRemovals (body x s).trace = [mk (key x)] ∧
          (refused x = true →
            lines (body x s).st = lines s ∧
              (body x s).val = if short x then none else some ()) ∧
          (refused x = false →
            lines (body x s).st = (lines s).filter (fun y => key y ≠ key x) ∧
              (body x s).val = some ())))
    (xs : List String) :
    ∀ done s, lines s = done ++ xs → ((lines s).map key).Nodup →
      itemRemovals (forEach body xs s).trace
          = (attempts elig refused short xs).map (fun x => mk (key x)) ∧
        lines (forEach body xs s).st = done ++ survivors elig refused short xs := by
  induction xs with
  | nil =>
    intro done s hl _
    simp [attempts, survivors, hl, itemRemovals, mutations, calls]
  | cons x xs ih =>
    intro done s hl hnd
    have hx : x ∈ lines s := by rw [hl]; simp
    obtain ⟨hno, hyes⟩ := hstep s x hx hnd
    rw [forEach_cons]
    by_cases he : elig x = true
    · obtain ⟨htr, hpin, hfree⟩ := hyes he
      by_cases hp : refused x = true
      · obtain ⟨hls, hval⟩ := hpin hp
        by_cases hs : short x = true
        · rw [if_pos hs] at hval
          rw [andThen_none _ _ hval]
          simp [attempts, survivors, he, hp, hs, htr, hls, hl]
        · rw [if_neg hs] at hval
          rw [andThen_some _ _ _ hval]
          have hl2 : lines (body x s).st = (done ++ [x]) ++ xs := by rw [hls, hl]; simp
          obtain ⟨i1, i2⟩ := ih (done ++ [x]) (body x s).st hl2 (by rw [hls]; exact hnd)
          simp [attempts, survivors, he, hp, hs, htr, i1, i2]
      · have hp2 : refused x = false := by simpa using hp
        obtain ⟨hls, hval⟩ := hfree hp2
        rw [andThen_some _ _ _ hval]
        have hl2 : lines (body x s).st = done ++ xs := by
          rw [hls, hl]
          exact filter_key_ne key done xs x (hl ▸ hnd)
        have hnd2 : ((lines (body x s).st).map key).Nodup := by
          rw [hls]
          exact hnd.sublist ((List.filter_sublist _).map key)
        obtain ⟨i1, i2⟩ := ih done (body x s).st hl2 hnd2
        simp [attempts, survivors, he, hp2, htr, i1, i2]
    · have he2 : elig x = false := by simpa using he
      obtain ⟨htr, hls, hval⟩ := hno he2
      rw [andThen_some _ _ _ hval]
      have hl2 : lines (body x s).st = (done ++ [x]) ++ xs := by rw [hls, hl]; simp
      obtain ⟨i1, i2⟩ := ih (done ++ [x]) (body x s).st hl2 (by rw [hls]; exact hnd)
      simp [attempts, survivors, he2, htr, i1, i2]

end Simulation

section TwiceVolumes

theorem linesOf_render_nil : linesOf (render []) = [""] := by decide

theorem removeBy_present (refused : Bool) (key : String → String) (x : String)
    (ls : List String) (hx : x ∈ ls) :
    removeBy refused key (key x) ls =
      if refused = false then (ok (key x ++ "\n"), ls.filter fun y => key y ≠ key x)
      else (failed ("Error response from daemon: " ++ key x ++ "\n") "exit status 1", ls) := by
  unfold removeBy
  have : key x ∈ ls.map key := List.mem_map.2 ⟨x, hx, rfl⟩
  by_cases hr : refused = false
  · rw [if_pos ⟨hr, this⟩, if_pos hr]
  · rw [if_neg (fun h => hr h.1), if_neg hr]

theorem volumeStep_sim (D : Daemon) (c : Cleanup) (hlive : c.dryRun = false) (used : StrSet)
    (s : Records) (x : String) (hx : x ∈ s.volumes) :
    (volumeEligible used x = false →
        itemRemovals (volumeStep D.env c used x s).trace = [] ∧
          (volumeStep D.env c used x s).st.volumes = s.volumes ∧
          (volumeStep D.env c used x s).val = some ()) ∧
      (volumeEligible used x = true →
        itemRemovals (volumeStep D.env c used x s).trace = [.volumeRm (id x)] ∧
          (D.refuses (.volumeRm x) = true →
            (volumeStep D.env c used x s).st.volumes = s.volumes ∧
              (volumeStep D.env c used x s).val = if false then none else some ()) ∧
          (D.refuses (.volumeRm x) = false →
            (volumeStep D.env c used x s).st.volumes
                = s.volumes.filter (fun y => id y ≠ id x) ∧
              (volumeStep D.env c used x s).val = some ())) := by
  unfold volumeEligible
  constructor
  · intro he
    unfold volumeStep
    by_cases hne : x = ""
    · simp [hne, itemRemovals]
    · have hu : used.get x = true := by simpa [hne] using he
      simp [hne, hu, itemRemovals]
  · intro he
    simp only [Bool.and_eq_true, decide_eq_true_eq, Bool.not_eq_true'] at he
    obtain ⟨hne, hu⟩ := he
    have hrun : D.env.run (.volumeRm x) s =
        ((removeBy (D.refuses (.volumeRm x)) id x s.volumes).1,
          { s with volumes := (removeBy (D.refuses (.volumeRm x)) id x s.volumes).2 }) := rfl
    have hrb := removeBy_present (D.refuses (.volumeRm x)) id x s.volumes hx
    simp only [id] at hrb
    unfold volumeStep
    simp only [hne, if_false, hu, Bool.false_eq_true, hlive, executeCommand_andThen, hrun, hrb]
    rcases hr : D.refuses (.volumeRm x) with _ | _
    · simp [itemRemovals, Cmd.isMutate, commandResult, ok]
    · simp [itemRemovals, Cmd.isMutate, commandResult, failed]

/-- What a live run of `CleanVolumes` attempts and leaves in front of the daemon. -/
theorem CleanVolumes_sim (D : Daemon) (c : Cleanup) (hlive : c.dryRun = false) (s : Records)
    (hwf : ∀ x ∈ s.volumes, wfLine x = true) (hnd : s.volumes.Nodup) :
    itemRemovals (CleanVolumes D.env c s).trace
        = (attempts (volumeEligible (usedVolumesOf D.mounts))
            (fun x => D.refuses (.volumeRm x)) (fun _ => false) s.volumes).map Cmd.volumeRm ∧
      (CleanVolumes D.env c s).st.volumes
        = survivors (volumeEligible (usedVolumesOf D.mounts))
            (fun x => D.refuses (.volumeRm x)) (fun _ => false) s.volumes := by
  have h1 : D.env.run .volumeLs s = (ok (render s.volumes), s) := rfl
  have h2 : D.env.run .psMounts s = (ok D.mounts, s) := rfl
  have hloop := loop_sim (volumeStep D.env c (usedVolumesOf D.mounts)) Records.volumes id
    Cmd.volumeRm (volumeEligible (usedVolumesOf D.mounts)) (fun x => D.refuses (.volumeRm x))
    (fun _ => false)
    (fun s x hx _ => volumeStep_sim D c hlive _ s x hx)
  unfold CleanVolumes
  simp only [executeCommand_andThen, h1, h2, commandResult, ok]
  rw [andThen_some _ _ _ (forEach_val _ (volumeStep_val D.env c _) _ _)]
  simp only [ret_trace, ret_st, List.append_nil]
  rcases hv : s.volumes with _ | ⟨v, vs⟩
  · rw [linesOf_render_nil]
    simp [forEach_cons, volumeStep, attempts, survivors, itemRemovals, Cmd.isMutate, hv]
  · rw [linesOf_render _ (by simp) (hv ▸ hwf)]
    obtain ⟨i1, i2⟩ := hloop (v :: vs) [] s (by simp [hv]) (by simpa [hv] using hnd)
    simp only [id] at i1
    simp [itemRemovals, Cmd.isMutate] at i1 ⊢
    exact ⟨i1, by simpa using i2⟩

end TwiceVolumes

section TwiceContainers

theorem Split_head_lineKey (x : String) : (Split x tab)[0]? = some (lineKey x) := by
  obtain ⟨p, hp⟩ := Split_head x tab
  unfold lineKey
  rw [hp]
  rfl

theorem containerStep_sim (D : Daemon) (c : Cleanup) (hlive : c.dryRun = false)
    (s : Records) (x : String) (hx : x ∈ s.containers) :
    (containerEligible D c x = false →
        itemRemovals (containerStep D.env c x s).trace = [] ∧
          (containerStep D.env c x s).st.containers = s.containers ∧
          (containerStep D.env c x s).val = some ()) ∧
      (containerEligible D c x = true →
        itemRemovals (containerStep D.env c x s).trace = [.rm (lineKey x)] ∧
          (D.refuses (.rm (lineKey x)) = true →
            (containerStep D.env c x s).st.containers = s.containers ∧
              (containerStep D.env c x s).val = if false then none else some ()) ∧
          (D.refuses (.rm (lineKey x)) = false →
            (containerStep D.env c x s).st.containers
                = s.containers.filter (fun y => lineKey y ≠ lineKey x) ∧
              (containerStep D.env c x s).val = some ())) := by
  by_cases hne : x = ""
  · have he : containerEligible D c x = false := by simp [containerEligible, hne]
    rw [he]
    simp only [true_implies, Bool.false_eq_true, false_implies, and_true]
    unfold containerStep
    rw [if_pos hne]
    exact ⟨rfl, rfl, rfl⟩
  · have hins : D.env.run (.inspectFinishedAt (lineKey x)) s
        = (ok (D.finishedAt (lineKey x) ++ "\n"), s) := by
      have hmem : lineKey x ∈ s.containers.map lineKey := List.mem_map.2 ⟨x, hx, rfl⟩
      show D.run (.inspectFinishedAt (lineKey x)) s = _
      simp only [Daemon.run, hmem, if_true]
    have hrun : D.env.run (.rm (lineKey x)) s =
        ((removeBy (D.refuses (.rm (lineKey x))) lineKey (lineKey x) s.containers).1,
          { s with containers :=
            (removeBy (D.refuses (.rm (lineKey x))) lineKey (lineKey x) s.containers).2 }) := rfl
    have hrb := removeBy_present (D.refuses (.rm (lineKey x))) lineKey x s.containers hx
    have hnow : ∀ t, Since D.env t s = (Sub D.clock t, s) := fun _ => rfl
    have hparse : D.env.parseRFC3339Nano = D.parseRFC3339Nano := rfl
    rw [containerStep_id D.env c x s (lineKey x) hne (Split_head_lineKey x)]
    simp only [executeCommand_andThen, hins, commandResult, ok, hparse, hnow, hlive,
      Bool.false_eq_true, if_false]
    unfold containerEligible
    simp only [hne, ne_eq, not_false_eq_true, decide_True, Bool.true_and]
    rcases hp : D.parseRFC3339Nano (TrimSpace (D.finishedAt (lineKey x) ++ "\n"))
      with err | finishTime
    · simp [itemRemovals, Cmd.isMutate]
    · simp only
      rcases ho : olderThanHours (Sub D.clock finishTime) c.olderThan with _ | _
      · simp [itemRemovals, Cmd.isMutate]
      · simp only [if_true, executeCommand_andThen, hrun, hrb]
        rcases hr : D.refuses (.rm (lineKey x)) with _ | _
        · simp [itemRemovals, Cmd.isMutate, commandResult, ok]
        · simp [itemRemovals, Cmd.isMutate, commandResult, failed]

/-- What a live run of `CleanContainers` attempts and leaves in front of the
daemon. -/
theorem CleanContainers_sim (D : Daemon) (c : Cleanup) (hlive : c.dryRun = false)
    (s : Records) (hwf : ∀ x ∈ s.containers, wfLine x = true)
    (hnd : (s.containers.map lineKey).Nodup) :
    itemRemovals (CleanContainers D.env c s).trace
        = (attempts (containerEligible D c) (fun x => D.refuses (.rm (lineKey x)))
            (fun _ => false) s.containers).map (fun x => Cmd.rm (lineKey x)) ∧
      (CleanContainers D.env c s).st.containers
        = survivors (containerEligible D c) (fun x => D.refuses (.rm (lineKey x)))
            (fun _ => false) s.containers := by
  have h1 : D.env.run .psStopped s = (ok (render s.containers), s) := rfl
  have hloop := loop_sim (containerStep D.env c) Records.containers lineKey
    Cmd.rm (containerEligible D c) (fun x => D.refuses (.rm (lineKey x)))
    (fun _ => false)
    (fun s x hx _ => containerStep_sim D c hlive s x hx)
  unfold CleanContainers
  simp only [executeCommand_andThen, h1, commandResult, ok]
  rcases hv : s.containers with _ | ⟨v, vs⟩
  · rw [linesOf_render_nil]
    simp [attempts, survivors, itemRemovals, Cmd.isMutate, hv]
  · rw [linesOf_render _ (by simp) (hv ▸ hwf)]
    have hv0 : v ≠ "" := wfLine_ne_empty v (hwf v (by simp [hv]))
    rw [if_neg (by simp [hv0])]
    rw [andThen_some _ _ _ (forEach_val _ (containerStep_val D.env c) _ _)]
    simp only [ret_trace, ret_st, List.append_nil]
    obtain ⟨i1, i2⟩ := hloop (v :: vs) [] s (by simp [hv]) (by simpa [hv] using hnd)
    simp [itemRemovals, Cmd.isMutate] at i1 ⊢
    exact ⟨i1, by simpa using i2⟩

end TwiceContainers

section TwiceImages

theorem imageDecision_env (D : Daemon) (c : Cleanup) (used : StrSet) (x : String)
    (s s1 : Records) :
    imageDecision D.env c used x s = imageDecision D.env c used x s1 := rfl

theorem imageDecision_lineKey {σ : Type} (E : Env σ) (c : Cleanup) (used : StrSet) (x : String)
    (s : σ) (imageID imageName : String)
    (h : imageDecision E c used x s = some (imageID, imageName)) : imageID = lineKey x := by
  obtain ⟨_, repo, tag, createdStr, rest, created, hs, _⟩ :=
    (imageDecision_some E c used x s imageID imageName).1 h
  unfold lineKey
  rw [hs]
  rfl

/-- On a line it decides against, the loop body of `CleanImages` leaves the
state as the clock reading leaves it, or untouched. -/
theorem imageStep_of_none_st {σ : Type} (E : Env σ) (c : Cleanup) (used : StrSet)
    (line : String) (s : σ) (h : imageDecision E c used line s = none) :
    (imageStep E c used line s).st = s ∨ (imageStep E c used line s).st = (E.now s).2 := by
  rcases line_cases line with hsk | ⟨hne, a, b, d, e, rest, hs⟩
  · rw [imageStep_skip E c used line s hsk]
    exact Or.inl rfl
  · rw [imageStep_fields E c used line s a b d e rest hne hs]
    unfold imageDecision at h
    simp only [hne, if_false, hs] at h
    rcases hp : E.parseCreatedAt e with err | created
    · exact Or.inl rfl
    · rw [hp] at h
      simp only at h ⊢
      by_cases hu : used.get (b ++ ":" ++ d) = true
      · simp only [hu, if_true]
        exact Or.inl rfl
      · simp only [hu, Bool.false_eq_true, if_false]
        by_cases ho : olderThanHours (Since E created s).1 c.olderThan = true
        · simp [hu, ho] at h
        · simp only [ho, Bool.false_eq_true, if_false]
          exact Or.inr rfl

theorem imageStep_sim (D : Daemon) (c : Cleanup) (hlive : c.dryRun = false)
    (s : Records) (x : String) (hx : x ∈ s.images) :
    (imageEligible D c x = false →
        itemRemovals (imageStep D.env c (usedImagesOf D.imageRefs) x s).trace = [] ∧
          (imageStep D.env c (usedImagesOf D.imageRefs) x s).st.images = s.images ∧
          (imageStep D.env c (usedImagesOf D.imageRefs) x s).val = some ()) ∧
      (imageEligible D c x = true →
        itemRemovals (imageStep D.env c (usedImagesOf D.imageRefs) x s).trace
            = [.rmi (lineKey x)] ∧
          (D.refuses (.rmi (lineKey x)) = true →
            (imageStep D.env c (usedImagesOf D.imageRefs) x s).st.images = s.images ∧
              (imageStep D.env c (usedImagesOf D.imageRefs) x s).val
                = if decide (len (lineKey x) < 12) then none else some ()) ∧
          (D.refuses (.rmi (lineKey x)) = false →
            (imageStep D.env c (usedImagesOf D.imageRefs) x s).st.images
                = s.images.filter (fun y => lineKey y ≠ lineKey x) ∧
              (imageStep D.env c (usedImagesOf D.imageRefs) x s).val = some ())) := by
  unfold imageEligible
  rw [imageDecision_env D c _ x ⟨[], [], []⟩ s]
  rcases hd : imageDecision D.env c (usedImagesOf D.imageRefs) x s with _ | ⟨imageID, imageName⟩
  · simp only [Option.isSome_none, true_implies, Bool.false_eq_true, false_implies, and_true]
    obtain ⟨hv, htr⟩ := imageStep_of_none D.env c _ x s hd
    have hst : (imageStep D.env c (usedImagesOf D.imageRefs) x s).st = s := by
      rcases imageStep_of_none_st D.env c _ x s hd with h | h
      · exact h
      · exact h
    refine ⟨?_, by rw [hst], hv⟩
    rcases htr with h | ⟨_, _, h⟩ <;> rw [h] <;> simp [itemRemovals]
  · have hid := imageDecision_lineKey D.env c _ x s imageID imageName hd
    subst hid
    simp only [Option.isSome_some, Bool.true_eq_false, false_implies, true_implies, true_and]
    rw [imageStep_of_some D.env c _ x s _ imageName hd]
    have hnow : (D.env.now s).2 = s := rfl
    have hrun : D.env.run (.rmi (lineKey x)) s =
        ((removeBy (D.refuses (.rmi (lineKey x))) lineKey (lineKey x) s.images).1,
          { s with images :=
            (removeBy (D.refuses (.rmi (lineKey x))) lineKey (lineKey x) s.images).2 }) := rfl
    have hrb := removeBy_present (D.refuses (.rmi (lineKey x))) lineKey x s.images hx
    unfold imageAction
    simp only [hnow, hlive, Bool.false_eq_true, if_false, executeCommand_andThen, hrun, hrb]
    rcases hr : D.refuses (.rmi (lineKey x)) with _ | _
    · simp [itemRemovals, Cmd.isMutate, commandResult, ok]
    · simp only [Bool.true_eq_false, if_false, commandResult, failed]
      rcases hsl : sliceTo (lineKey x) 12 with _ | idHead
      · have := (sliceTo_eq_none _ _).1 hsl
        simp [itemRemovals, Cmd.isMutate, this]
      · have : ¬ len (lineKey x) < 12 := by
          intro hlt
          rw [(sliceTo_eq_none _ _).2 hlt] at hsl
          cases hsl
        simp [itemRemovals, Cmd.isMutate, this]

theorem pruneDangling_daemon (D : Daemon) (c : Cleanup) (s : Records) :
    itemRemovals (pruneDangling D.env c s).trace = [] ∧ (pruneDangling D.env c s).st = s := by
  unfold pruneDangling
  have hrun : D.env.run .imagePrune s = (ok "", s) := rfl
  split_ifs
  · exact ⟨rfl, rfl⟩
  · simp [hrun, commandResult, ok, itemRemovals, Cmd.isMutate]

/-- What a live run of `CleanImages` attempts and leaves in front of the daemon. -/
theorem CleanImages_sim (D : Daemon) (c : Cleanup) (hlive : c.dryRun = false)
    (s : Records) (hwf : ∀ x ∈ s.images, wfLine x = true)
    (hnd : (s.images.map lineKey).Nodup) :
    itemRemovals (CleanImages D.env c s).trace
        = (attempts (imageEligible D c) (fun x => D.refuses (.rmi (lineKey x)))
            (fun x => decide (len (lineKey x) < 12)) s.images).map
              (fun x => Cmd.rmi (lineKey x)) ∧
      (CleanImages D.env c s).st.images
        = survivors (imageEligible D c) (fun x => D.refuses (.rmi (lineKey x)))
            (fun x => decide (len (lineKey x) < 12)) s.images := by
  have h1 : D.env.run .images s = (ok (render s.images), s) := rfl
  have h2 : D.env.run .psImages s = (ok D.imageRefs, s) := rfl
  have hloop := loop_sim (imageStep D.env c (usedImagesOf D.imageRefs)) Records.images lineKey
    Cmd.rmi (imageEligible D c) (fun x => D.refuses (.rmi (lineKey x)))
    (fun x => decide (len (lineKey x) < 12))
    (fun s x hx _ => imageStep_sim D c hlive s x hx)
  unfold CleanImages
  simp only [executeCommand_andThen, h1, h2, commandResult, ok]
  unfold cleanListedImages
  have hlines : ∀ xs : List String, (∀ x ∈ xs, x ∈ s.images ∨ x = "") →
      ∀ r : Run Records Unit, r = forEach (imageStep D.env c (usedImagesOf D.imageRefs)) xs s →
      itemRemovals (r.andThen fun _ s3 => pruneDangling D.env c s3).trace
          = itemRemovals r.trace ∧
        (r.andThen fun _ s3 => pruneDangling D.env c s3).st = r.st := by
    intro xs _ r _
    unfold Run.andThen
    rcases r.val with _ | u
    · exact ⟨rfl, rfl⟩
    · simp [(pruneDangling_daemon D c r.st).1, (pruneDangling_daemon D c r.st).2]
  rcases hv : s.images with _ | ⟨v, vs⟩
  · rw [linesOf_render_nil]
    obtain ⟨a1, a2⟩ := hlines [""] (by simp) _ rfl
    simp only [itemRemovals, mutations_call, Cmd.isMutate, Bool.false_eq_true, if_false] at a1 ⊢
    rw [a1, a2]
    simp [forEach_cons, imageStep, attempts, survivors, hv]
  · rw [linesOf_render _ (by simp) (hv ▸ hwf)]
    obtain ⟨a1, a2⟩ := hlines (v :: vs) (by intro x hx; left; rw [hv]; exact hx) _ rfl
    obtain ⟨i1, i2⟩ := hloop (v :: vs) [] s (by simp [hv]) (by simpa [hv] using hnd)
    simp only [itemRemovals, mutations_call, Cmd.isMutate, Bool.false_eq_true, if_false] at a1 i1 ⊢
    rw [a1, a2, i1]
    exact ⟨rfl, by simpa using i2⟩

end TwiceImages

section Twice

theorem attempts_subset (elig refused short : String → Bool) (xs : List String) :
    ∀ x ∈ attempts elig refused short xs, x ∈ xs := by
  induction xs with
  | nil => intro x hx; cases hx
  | cons a xs ih =>
    intro x hx
    unfold attempts at hx
    split_ifs at hx
    · simp only [List.mem_singleton] at hx
      exact hx ▸ List.mem_cons_self _ _
    · rcases List.mem_cons.1 hx with h | h
      · exact h ▸ List.mem_cons_self _ _
      · exact List.mem_cons_of_mem _ (ih x h)
    · exact List.mem_cons_of_mem _ (ih x hx)

/-- An attempted record survives the pass exactly when its removal was refused. -/
theorem attempts_survived (elig refused short : String → Bool) (key : String → String)
    (xs : List String) (hnd : (xs.map key).Nodup) :
    ∀ x ∈ attempts elig refused short xs,
      (key x ∈ (survivors elig refused short xs).map key ↔ refused x = true) := by
  induction xs with
  | nil => intro x hx; cases hx
  | cons a xs ih =>
    rw [List.map_cons, List.nodup_cons] at hnd
    obtain ⟨ha, hnd2⟩ := hnd
    have hsub : ∀ y, key y ∈ (survivors elig refused short xs).map key → key y ∈ xs.map key :=
      fun y hy => ((survivors_sublist elig refused short xs).map key).subset hy
    have hne : ∀ x ∈ attempts elig refused short xs, key x ≠ key a := by
      intro x hx hk
      exact ha (hk ▸ List.mem_map.2 ⟨x, attempts_subset _ _ _ xs x hx, rfl⟩)
    intro x hx
    unfold attempts at hx
    unfold survivors
    by_cases he : elig a = true
    · rw [if_pos he] at hx ⊢
      by_cases hp : refused a = true
      · rw [if_pos hp]
        by_cases hs : short a = true
        · rw [if_pos (by simp [hp, hs])] at hx
          rw [if_pos hs]
          simp only [List.mem_singleton] at hx
          subst hx
          simp [hp]
        · rw [if_neg (by simp [hs])] at hx
          rw [if_neg hs]
          rcases List.mem_cons.1 hx with h | h
          · subst h
            simp [hp]
          · rw [List.map_cons, List.mem_cons]
            rw [← ih hnd2 x h]
            simp [hne x h]
      · rw [if_neg (by simp [hp])] at hx
        rw [if_neg hp]
        rcases List.mem_cons.1 hx with h | h
        · subst h
          constructor
          · intro hmem
            exact absurd (hsub _ hmem) ha
          · intro hr
            exact absurd hr hp
        · exact ih hnd2 x h
    · rw [if_neg he] at hx ⊢
      rw [List.map_cons, List.mem_cons]
      rw [← ih hnd2 x hx]
      simp [hne x hx]

/-- The two passes of a reclaimer, from what one pass attempts and leaves. -/
theorem twice_of_sim (D : Daemon) (key : String → String) (mk : String → Cmd)
    (elig short : String → Bool) (xs : List String) (first second : List Cmd)
    (left : List String) (hnd : (xs.map key).Nodup)
    (hmk : ∀ a b, mk a = mk b → a = b)
    (h1 : first = (attempts elig (fun x => D.refuses (mk (key x))) short xs).map
      (fun x => mk (key x)))
    (hl : left = survivors elig (fun x => D.refuses (mk (key x))) short xs)
    (h2 : second = (attempts elig (fun x => D.refuses (mk (key x))) short left).map
      (fun x => mk (key x))) :
    second = first.filter D.refuses ∧
      ((∀ cmd ∈ first, D.refuses cmd = false) → second = []) ∧
      (∀ cmd ∈ first, (cmd ∈ left.map (fun x => mk (key x)) ↔ D.refuses cmd = true)) := by
  have hmain : second = first.filter D.refuses := by
    rw [h2, hl, attempts_survivors, h1, List.filter_map]
    rfl
  refine ⟨hmain, ?_, ?_⟩
  · intro hall
    rw [hmain, List.filter_eq_nil_iff]
    intro cmd hc
    simp [hall cmd hc]
  · intro cmd hc
    rw [h1] at hc
    obtain ⟨x, hx, rfl⟩ := List.mem_map.1 hc
    have := attempts_survived elig (fun x => D.refuses (mk (key x))) short key xs hnd x hx
    rw [← this, hl]
    simp only [List.mem_map]
    constructor
    · rintro ⟨y, hy, hk⟩
      exact ⟨y, hy, hmk _ _ hk⟩
    · rintro ⟨y, hy, hk⟩
      exact ⟨y, hy, by rw [hk]⟩

end Twice

section EligibleSets

/-- Filtering a list without duplicates by membership in a sublist gives the
sublist. -/
theorem filter_mem_sublist (xs ys : List String) (hnd : xs.Nodup) (h : ys.Sublist xs) :
    xs.filter (fun x => decide (x ∈ ys)) = ys := by
  induction h with
  | slnil => rfl
  | @cons ys xs a h ih =>
    rw [List.nodup_cons] at hnd
    have ha : a ∉ ys := fun hm => hnd.1 (h.subset hm)
    rw [List.filter_cons_of_neg (by simpa using ha)]
    exact ih hnd.2
  | @cons₂ ys xs a h ih =>
    rw [List.nodup_cons] at hnd
    rw [List.filter_cons_of_pos (by simp)]
    congr 1
    refine Eq.trans (List.filter_congr ?_) (ih hnd.2)
    intro x hx
    have hxa : x ≠ a := fun e => hnd.1 (e ▸ hx)
    simp only [List.mem_cons, hxa, false_or]

/-- A pass in which no refused removal ends the loop attempts the eligible
records and leaves the records that are not eligible or whose removal is
refused. -/
theorem attempts_of_safe (elig refused short : String → Bool) (xs : List String)
    (hsafe : ∀ x ∈ xs, elig x = true → refused x = true → short x = false) :
    attempts elig refused short xs = xs.filter elig ∧
      survivors elig refused short xs = xs.filter (fun x => !elig x || refused x) := by
  induction xs with
  | nil => exact ⟨rfl, rfl⟩
  | cons x xs ih =>
    obtain ⟨i1, i2⟩ := ih (fun y hy => hsafe y (List.mem_cons_of_mem _ hy))
    have hx := hsafe x (List.mem_cons_self _ _)
    by_cases he : elig x = true
    · by_cases hp : refused x = true
      · have hs := hx he hp
        simp [attempts, survivors, he, hp, hs, i1, i2]
      · simp [attempts, survivors, he, hp, i1, i2]
    · simp [attempts, survivors, he, i1, i2]

/-- The eligible sets of two passes of a reclaimer, from what one pass
attempts and leaves. -/
theorem twice_eligible (refused : String → Bool) (mk : String → Cmd)
    (elig short : String → Bool) (xs left : List String) (first second : List Cmd)
    (hnd : xs.Nodup)
    (h1 : first = (attempts elig refused short xs).map mk)
    (hl : left = survivors elig refused short xs)
    (h2 : second = (attempts elig refused short left).map mk) :
    left.filter elig = (xs.filter elig).filter (fun x => decide (x ∈ left)) ∧
      ((∀ x ∈ xs, elig x = true → refused x = true → short x = false) →
        first = (xs.filter elig).map mk ∧
          left = xs.filter (fun x => !elig x || refused x) ∧
          left.filter elig = (xs.filter elig).filter refused ∧
          second = (left.filter elig).map mk) ∧
      ((∀ x ∈ xs.filter elig, refused x = false) →
        first = (xs.filter elig).map mk ∧ left.filter elig = [] ∧ second = []) := by
  have hsub : left.Sublist xs := hl ▸ survivors_sublist elig refused short xs
  have hmain : (∀ x ∈ xs, elig x = true → refused x = true → short x = false) →
      first = (xs.filter elig).map mk ∧
        left = xs.filter (fun x => !elig x || refused x) ∧
        left.filter elig = (xs.filter elig).filter refused ∧
        second = (left.filter elig).map mk := by
    intro hsafe
    obtain ⟨a1, a2⟩ := attempts_of_safe elig refused short xs hsafe
    obtain ⟨b1, _⟩ := attempts_of_safe elig refused short left
      (fun x hx => hsafe x (hsub.subset hx))
    refine ⟨by rw [h1, a1], by rw [hl, a2], ?_, by rw [h2, b1]⟩
    rw [hl, a2, List.filter_filter, List.filter_filter]
    apply List.filter_congr
    intro x _
    cases elig x <;> cases refused x <;> rfl
  refine ⟨?_, hmain, ?_⟩
  · rw [List.filter_filter]
    conv_lhs => rw [← filter_mem_sublist xs left hnd hsub]
    rw [List.filter_filter]
    apply List.filter_congr
    intro x _
    exact Bool.and_comm _ _
  · intro hnone
    obtain ⟨m1, _, m3, m4⟩ := hmain (fun x hx he hr => by
      rw [hnone x (List.mem_filter.2 ⟨hx, he⟩)] at hr
      cases hr)
    have hnil : (xs.filter elig).filter refused = [] := by
      rw [List.filter_eq_nil_iff]
      intro x hx
      rw [hnone x hx]
      simp
    rw [hnil] at m3
    exact ⟨m1, m3, by rw [m4, m3]; rfl⟩

end EligibleSets

section Idempotence

theorem wf_of_sublist (xs ys : List String) (key : String → String) (h : ys.Sublist xs)
    (hwf : ∀ x ∈ xs, wfLine x = true) (hnd : (xs.map key).Nodup) :
    (∀ x ∈ ys, wfLine x = true) ∧ (ys.map key).Nodup :=
  ⟨fun x hx => hwf x (h.subset hx), hnd.sublist (h.map key)⟩

/-- C9. In front of a daemon in which a successful removal deletes exactly its
record and nothing else changes, run a reclaimer twice in live mode from
well-formed records. The eligible set of the second run is the eligible set of
the first run restricted to the records that survived it. Unless the refused
removal of an eligible image with an ID under 12 bytes ends a run at the
out-of-range slice, the first run issues a removal for each record of its
eligible set, in listing order, and for nothing else; it leaves the records
that are not eligible or whose removal the daemon refused; the eligible set of
the second run consists of the eligible records of the first run whose removal
was refused; and the second run issues a removal for each of them. When the
daemon refuses the removal of no eligible record, the eligible set of the
second run is empty and the second run attempts nothing. In every case, the
removals the second run attempts are those of the first run that the daemon
refused, in the same order, none when the daemon refused none, and the record
of a removal of the first run is still held after it exactly when the removal
was refused. -/
theorem second_run_retries_refused (D : Daemon) (c : Cleanup) (hlive : c.dryRun = false)
    (s : Records) (hwf : s.wf) (p : Phase) :
    eligibleSet D c p (reclaimer D.env c p s).st
        = (eligibleSet D c p s).filter
            (fun x => decide (x ∈ Records.of p (reclaimer D.env c p s).st)) ∧
      ((∀ x ∈ s.images, p = .images → imageEligible D c x = true →
          D.refuses (.rmi (lineKey x)) = true → 12 ≤ len (lineKey x)) →
        itemRemovals (reclaimer D.env c p s).trace = (eligibleSet D c p s).map (removalOf p) ∧
          Records.of p (reclaimer D.env c p s).st
            = (Records.of p s).filter
                (fun x => !eligible D c p x || D.refuses (removalOf p x)) ∧
          eligibleSet D c p (reclaimer D.env c p s).st
            = (eligibleSet D c p s).filter (fun x => D.refuses (removalOf p x)) ∧
          itemRemovals (reclaimer D.env c p (reclaimer D.env c p s).st).trace
            = (eligibleSet D c p (reclaimer D.env c p s).st).map (removalOf p)) ∧
      ((∀ x ∈ eligibleSet D c p s, D.refuses (removalOf p x) = false) →
        itemRemovals (reclaimer D.env c p s).trace = (eligibleSet D c p s).map (removalOf p) ∧
          eligibleSet D c p (reclaimer D.env c p s).st = [] ∧
          itemRemovals (reclaimer D.env c p (reclaimer D.env c p s).st).trace = []) ∧
      itemRemovals (reclaimer D.env c p (reclaimer D.env c p s).st).trace
        = (itemRemovals (reclaimer D.env c p s).trace).filter D.refuses ∧
      ((∀ cmd ∈ itemRemovals (reclaimer D.env c p s).trace, D.refuses cmd = false) →
        itemRemovals (reclaimer D.env c p (reclaimer D.env c p s).st).trace = []) ∧
      (∀ cmd ∈ itemRemovals (reclaimer D.env c p s).trace,
        (cmd ∈ removalCommands p (reclaimer D.env c p s).st ↔ D.refuses cmd = true)) := by
  obtain ⟨w1, w2, w3, w4, w5, w6⟩ := hwf
  cases p
  · obtain ⟨a1, a2⟩ := CleanContainers_sim D c hlive s w1 w2
    obtain ⟨v1, v2⟩ := wf_of_sublist s.containers (CleanContainers D.env c s).st.containers
      lineKey (a2 ▸ survivors_sublist _ _ _ _) w1 w2
    obtain ⟨b1, _⟩ := CleanContainers_sim D c hlive (CleanContainers D.env c s).st v1 v2
    have te := twice_eligible (fun x => D.refuses (.rm (lineKey x)))
      (fun x => Cmd.rm (lineKey x)) (containerEligible D c) (fun _ => false) s.containers
      _ _ _ (List.Nodup.of_map _ w2) a1 a2 b1
    exact ⟨te.1, fun _ => te.2.1 (fun _ _ _ _ => rfl), te.2.2,
      twice_of_sim D lineKey Cmd.rm (containerEligible D c) (fun _ => false) s.containers
        _ _ _ w2 (fun a b h => by cases h; rfl) a1 a2 b1⟩
  · obtain ⟨a1, a2⟩ := CleanImages_sim D c hlive s w3 w4
    obtain ⟨v1, v2⟩ := wf_of_sublist s.images (CleanImages D.env c s).st.images
      lineKey (a2 ▸ survivors_sublist _ _ _ _) w3 w4
    obtain ⟨b1, _⟩ := CleanImages_sim D c hlive (CleanImages D.env c s).st v1 v2
    have te := twice_eligible (fun x => D.refuses (.rmi (lineKey x)))
      (fun x => Cmd.rmi (lineKey x)) (imageEligible D c)
      (fun x => decide (len (lineKey x) < 12)) s.images
      _ _ _ (List.Nodup.of_map _ w4) a1 a2 b1
    exact ⟨te.1,
      fun hsafe => te.2.1 (fun x hx he hr => by
        have := hsafe x hx rfl he hr
        simp only [decide_eq_false_iff_not, not_lt]
        exact this),
      te.2.2,
      twice_of_sim D lineKey Cmd.rmi (imageEligible D c)
        (fun x => decide (len (lineKey x) < 12)) s.images
        _ _ _ w4 (fun a b h => by cases h; rfl) a1 a2 b1⟩
  · obtain ⟨a1, a2⟩ := CleanVolumes_sim D c hlive s w5 w6
    have hsub : ((CleanVolumes D.env c s).st.volumes).Sublist s.volumes :=
      a2 ▸ survivors_sublist _ _ _ _
    obtain ⟨b1, _⟩ := CleanVolumes_sim D c hlive (CleanVolumes D.env c s).st
      (fun x hx => w5 x (hsub.subset hx)) (w6.sublist hsub)
    have te := twice_eligible (fun x => D.refuses (.volumeRm x)) Cmd.volumeRm
      (volumeEligible (usedVolumesOf D.mounts)) (fun _ => false) s.volumes
      _ _ _ w6 a1 a2 b1
    exact ⟨te.1, fun _ => te.2.1 (fun _ _ _ _ => rfl), te.2.2,
      twice_of_sim D id Cmd.volumeRm (volumeEligible (usedVolumesOf D.mounts))
        (fun _ => false) s.volumes
        _ _ _ (by simpa using w6) (fun a b h => by cases h; rfl) a1 a2 b1⟩

set_option maxRecDepth 100000 in
set_option exponentiation.threshold 2000 in
/-- C9, at a daemon with two old stopped containers that refuses to remove
`c2`: both are eligible in the first run, which attempts both; `c2` alone is
eligible in the second run, which attempts `c2` alone. -/
theorem second_run_retries_refused_witness :
    (Cleanup.mk false 24).dryRun = false ∧ sampleRecords.wf ∧
      eligibleSet (sampleDaemon [.rm "c2"]) ⟨false, 24⟩ .containers sampleRecords
        = ["c1\texited", "c2\tdead"] ∧
      itemRemovals (reclaimer (sampleDaemon [.rm "c2"]).env ⟨false, 24⟩ .containers
          sampleRecords).trace = [.rm "c1", .rm "c2"] ∧
      eligibleSet (sampleDaemon [.rm "c2"]) ⟨false, 24⟩ .containers
          (reclaimer (sampleDaemon [.rm "c2"]).env ⟨false, 24⟩ .containers
            sampleRecords).st = ["c2\tdead"] ∧
      itemRemovals (reclaimer (sampleDaemon [.rm "c2"]).env ⟨false, 24⟩ .containers
          (reclaimer (sampleDaemon [.rm "c2"]).env ⟨false, 24⟩ .containers
            sampleRecords).st).trace = [.rm "c2"] :=
  ⟨rfl, by unfold Records.wf; decide, by decide,
    ((second_run_retries_refused (sampleDaemon [.rm "c2"]) ⟨false, 24⟩ rfl sampleRecords
      (by unfold Records.wf; decide) .containers).2.1
        (fun _ _ h => by cases h)).1.trans (by decide),
    ((second_run_retries_refused (sampleDaemon [.rm "c2"]) ⟨false, 24⟩ rfl sampleRecords
      (by unfold Records.wf; decide) .containers).2.1
        (fun _ _ h => by cases h)).2.2.1.trans (by decide),
    (second_run_retries_refused (sampleDaemon [.rm "c2"]) ⟨false, 24⟩ rfl sampleRecords
      (by unfold Records.wf; decide) .containers).2.2.2.1.trans (by decide)⟩

end Idempotence

section Orchestration

variable {σ : Type}

theorem cleanAllPhase_run (E : Env σ) (c : Cleanup) (p : Phase) (s : σ) :
    (cleanAllPhase E c p s).st = (reclaimer E c p s).st ∧
      (cleanAllPhase E c p s).val = (reclaimer E c p s).val.map (fun _ => ()) ∧
      (cleanAllPhase E c p s).trace =
        .print (.cleaningUp p) :: (reclaimer E c p s).trace ++
          (match (reclaimer E c p s).val with
            | some (some err) => [.print (.errorCleaning p err)]
            | _ => []) := by
  unfold cleanAllPhase
  simp only [print_andThen]
  unfold Run.andThen
  rcases (reclaimer E c p s).val with _ | _ | err
  · simp
  · simp
  · simp

/-- When its image phase does not panic, `CleanAll` runs the three phases in
order, each once, each from the state the one before left, whatever errors
they return, and returns nil. -/
theorem CleanAll_phases (E : Env σ) (c : Cleanup) (s : σ)
    (h : (CleanImages E c (CleanContainers E c s).st).val ≠ none) :
    (CleanAll E c s).val = some none ∧
      (CleanAll E c s).trace =
        (cleanAllPhase E c .containers s).trace ++
          (cleanAllPhase E c .images (CleanContainers E c s).st).trace ++
          (cleanAllPhase E c .volumes (CleanImages E c (CleanContainers E c s).st).st).trace ∧
      (CleanAll E c s).st =
        (CleanVolumes E c (CleanImages E c (CleanContainers E c s).st).st).st := by
  obtain ⟨e1, he1⟩ := CleanContainers_val E c s
  obtain ⟨e2, he2⟩ : ∃ e, (CleanImages E c (CleanContainers E c s).st).val = some e :=
    Option.ne_none_iff_exists'.1 h
  obtain ⟨e3, he3⟩ := CleanVolumes_val E c (CleanImages E c (CleanContainers E c s).st).st
  have p1 := cleanAllPhase_run E c .containers s
  have p2 := cleanAllPhase_run E c .images (CleanContainers E c s).st
  have p3 := cleanAllPhase_run E c .volumes (CleanImages E c (CleanContainers E c s).st).st
  simp only [reclaimer] at p1 p2 p3
  rw [he1] at p1
  rw [he2] at p2
  rw [he3] at p3
  unfold CleanAll
  rw [andThen_some _ _ _ p1.2.1]
  simp only [p1.1]
  rw [andThen_some _ _ _ p2.2.1]
  simp only [p2.1]
  rw [andThen_some _ _ _ p3.2.1]
  simp [p3.1]

end Orchestration

section DryRun

variable {σ β : Type}

/-- An additive observation that is empty on every iteration is empty on the
loop, whether or not the loop panics. -/
theorem forEach_obs_nil {γ : Type} (obs : List Event → List γ) (hnil : obs [] = [])
    (happ : ∀ a b, obs (a ++ b) = obs a ++ obs b) (body : β → σ → Run σ Unit)
    (h : ∀ x s, obs (body x s).trace = []) (xs : List β) (s : σ) :
    obs (forEach body xs s).trace = [] := by
  induction xs generalizing s with
  | nil => simpa using hnil
  | cons x xs ih =>
    rw [forEach_cons]
    unfold Run.andThen
    split
    · exact h x s
    · simp only [happ, h x s, ih, List.append_nil]

theorem containerStep_dry (E : Env σ) (c : Cleanup) (hd : c.dryRun = true) (x : String)
    (s : σ) : mutations (containerStep E c x s).trace = [] := by
  rcases h : containerDecision E c x s with _ | id
  · exact (containerStep_of_none E c x s h).1
  · rw [containerStep_of_some E c x s id h]
    simp [containerAction, hd, Cmd.isMutate]

theorem imageStep_dry (E : Env σ) (c : Cleanup) (hd : c.dryRun = true) (used : StrSet)
    (x : String) (s : σ) : mutations (imageStep E c used x s).trace = [] := by
  rcases h : imageDecision E c used x s with _ | ⟨id, name⟩
  · rcases (imageStep_of_none E c used x s h).2 with h1 | ⟨_, _, h1⟩ <;> rw [h1] <;> simp
  · rw [imageStep_of_some E c used x s id name h]
    unfold imageAction
    rw [if_pos hd]
    cases sliceTo id 12 <;> simp

/-- A dry run issues no mutate call: in every environment, for every
reclaimer, and also when the run panics. -/
theorem dry_run_never_mutates (E : Env σ) (c : Cleanup) (hd : c.dryRun = true) (p : Phase)
    (s : σ) : mutations (reclaimer E c p s).trace = [] := by
  cases p
  · have hloop := forEach_obs_nil mutations rfl mutations_append (containerStep E c)
      (containerStep_dry E c hd)
    simp only [reclaimer, CleanContainers, executeCommand_andThen]
    rcases commandResult (E.run Cmd.psStopped s).1 with err | output
    · simp [Cmd.isMutate]
    · simp only
      split_ifs
      · simp [Cmd.isMutate]
      · rw [andThen_some _ _ _ (forEach_val _ (containerStep_val E c) _ _)]
        simp [Cmd.isMutate, hloop]
  · rcases hl : listingFails E .images s with _ | _
    · have hloop := forEach_obs_nil mutations rfl mutations_append
        (imageStep E c (usedImagesOf (E.run .psImages (E.run .images s).2).1.output))
        (imageStep_dry E c hd _)
      simp only [reclaimer]
      rw [(CleanImages_listed E c s hl).2.1]
      unfold cleanListedImages Run.andThen
      split
      · simp [Cmd.isMutate, hloop]
      · simp [Cmd.isMutate, hloop, pruneDangling, hd]
    · exact (reclaimer_of_listingFails E c .images s hl).2
  · rcases hl : listingFails E .volumes s with _ | _
    · have hloop := forEach_obs_nil mutations rfl mutations_append
        (volumeStep E c (usedVolumesOf (E.run .psMounts (E.run .volumeLs s).2).1.output))
        (fun x s1 => by rw [volumeStep_mutations]; simp [hd])
      simp only [listingFails, Bool.or_eq_false_iff] at hl
      simp only [reclaimer, CleanVolumes, executeCommand_andThen,
        commandResult_of_none _ hl.1, commandResult_of_none _ hl.2]
      rw [andThen_some _ _ _ (forEach_val _ (volumeStep_val E c _) _ _)]
      simp [Cmd.isMutate, hloop]
    · exact (reclaimer_of_listingFails E c .volumes s hl).2

end DryRun

section Prediction

variable {σ β : Type}

/-- Two loops over the same elements, neither of whose bodies panics, whose
bodies leave the same state and whose traces are related, iteration by
iteration: the loops leave the same state and their traces are related. -/
theorem forEach_pair (R : List Event → List Event → Prop) (h0 : R [] [])
    (happ : ∀ a b a1 b1, R a b → R a1 b1 → R (a ++ a1) (b ++ b1))
    (dry live : β → σ → Run σ Unit) (xs : List β)
    (hstep : ∀ x ∈ xs, ∀ s, (dry x s).val = some () ∧ (live x s).val = some () ∧
      (live x s).st = (dry x s).st ∧ R (dry x s).trace (live x s).trace) (s : σ) :
    (forEach dry xs s).val = some () ∧ (forEach live xs s).val = some () ∧
      (forEach live xs s).st = (forEach dry xs s).st ∧
      R (forEach dry xs s).trace (forEach live xs s).trace := by
  induction xs generalizing s with
  | nil => exact ⟨rfl, rfl, rfl, h0⟩
  | cons x xs ih =>
    obtain ⟨h1, h2, h3, h4⟩ := hstep x (List.mem_cons_self _ _) s
    obtain ⟨i1, i2, i3, i4⟩ := ih (fun y hy => hstep y (List.mem_cons_of_mem _ hy)) (dry x s).st
    rw [forEach_cons, forEach_cons, andThen_some _ _ _ h1, andThen_some _ _ _ h2, h3]
    exact ⟨i1, i2, i3, happ _ _ _ _ h4 i4⟩

/-- On a line it decides against, the loop body of `CleanContainers` does the
same in a dry run and in a live run. -/
theorem containerStep_of_none_eq (E : Env σ) (o : Int) (container : String) (s : σ)
    (h : containerDecision E ⟨true, o⟩ container s = none) :
    containerStep E ⟨false, o⟩ container s = containerStep E ⟨true, o⟩ container s := by
  by_cases hne : container = ""
  · unfold containerStep
    rw [if_pos hne, if_pos hne]
  · obtain ⟨p, hp⟩ := Split_head container tab
    rw [containerStep_id E _ container s p hne hp, containerStep_id E _ container s p hne hp]
    unfold containerDecision at h
    rw [if_neg hne, hp] at h
    simp only [executeCommand_andThen] at h ⊢
    rcases hr : commandResult (E.run (.inspectFinishedAt p) s).1 with err | out
    · rfl
    · rw [hr] at h
      simp only at h ⊢
      rcases hparse : E.parseRFC3339Nano (TrimSpace out) with err | finishTime
      · rfl
      · rw [hparse] at h
        simp only at h ⊢
        by_cases ho : olderThanHours
            (Since E finishTime (E.run (.inspectFinishedAt p) s).2).1 o = true
        · rw [if_pos ho] at h
          cases h
        · simp only [if_neg ho]

/-- The dry run of `CleanContainers` predicts the live run: in front of a
daemon whose answers to the read commands do not depend on the removals
requested before, the containers the dry run reports are, in order, the
containers whose removal the live run requests. -/
theorem dry_run_predicts_containers (E : Env σ) (o : Int) (s : σ)
    (hframe : ∀ cmd s1, cmd.isMutate = true → (E.run cmd s1).2 = s1) :
    mutations (CleanContainers E ⟨false, o⟩ s).trace =
      (reportedContainers (CleanContainers E ⟨true, o⟩ s).trace).map Cmd.rm := by
  have hrapp : ∀ a b, reportedContainers (a ++ b) = reportedContainers a ++ reportedContainers b :=
    fun a b => by simp [reportedContainers]
  have hloop := forEach_pair
    (fun a b => mutations b = (reportedContainers a).map Cmd.rm) rfl
    (fun a b a1 b1 h1 h2 => by simp only [mutations_append, hrapp, List.map_append, h1, h2])
    (containerStep E ⟨true, o⟩) (containerStep E ⟨false, o⟩)
  unfold CleanContainers
  simp only [executeCommand_andThen]
  rcases commandResult (E.run Cmd.psStopped s).1 with err | output
  · simp [Cmd.isMutate, reportedContainers]
  · simp only
    split_ifs
    · simp [Cmd.isMutate, reportedContainers]
    · obtain ⟨h1, h2, _, h4⟩ := hloop (linesOf output) (fun x _ s1 => by
        refine ⟨containerStep_val E _ x s1, containerStep_val E _ x s1, ?_⟩
        rcases h : containerDecision E ⟨true, o⟩ x s1 with _ | id
        · rw [containerStep_of_none_eq E o x s1 h]
          exact ⟨rfl, by rw [(containerStep_of_none E _ x s1 h).1,
            (containerStep_of_none E _ x s1 h).2]; rfl⟩
        · have h2 : containerDecision E ⟨false, o⟩ x s1 = some id := h
          rw [containerStep_of_some E _ x s1 id h, containerStep_of_some E _ x s1 id h2]
          have hf := hframe (.rm id) (E.now (E.run (.inspectFinishedAt id) s1).2).2 rfl
          constructor
          · simp only [containerAction, Bool.false_eq_true, if_false, if_true,
              executeCommand_andThen, print_st, hf]
            split <;> rfl
          · simp only [containerAction, Bool.false_eq_true, if_false, if_true,
              executeCommand_andThen, print_trace]
            split <;> simp [Cmd.isMutate, reportedContainers]) (E.run Cmd.psStopped s).2
      rw [andThen_some _ _ _ h1, andThen_some _ _ _ h2]
      simp only [ret_trace, List.append_nil, mutations_call, Cmd.isMutate, Bool.false_eq_true,
        if_false, h4]
      simp [reportedContainers]

/-- The dry run of `CleanVolumes` predicts the live run, in every environment:
the volumes the dry run reports are, in order, the volumes whose removal the
live run requests. -/
theorem dry_run_predicts_volumes (E : Env σ) (o : Int) (s : σ) :
    mutations (CleanVolumes E ⟨false, o⟩ s).trace =
      (reportedVolumes (CleanVolumes E ⟨true, o⟩ s).trace).map Cmd.volumeRm := by
  rcases hl : listingFails E .volumes s with _ | _
  · simp only [listingFails, Bool.or_eq_false_iff] at hl
    have h1 := commandResult_of_none _ hl.1
    have h2 := commandResult_of_none _ hl.2
    have hm := forEach_obs mutations rfl mutations_append
      (volumeStep E ⟨false, o⟩ (usedVolumesOf (E.run .psMounts (E.run .volumeLs s).2).1.output))
      _ (volumeStep_val E _ _) (volumeStep_mutations E _ _)
      (linesOf (E.run .volumeLs s).1.output) (E.run .psMounts (E.run .volumeLs s).2).2
    have hr := forEach_obs reportedVolumes rfl (fun a b => by simp [reportedVolumes])
      (volumeStep E ⟨true, o⟩ (usedVolumesOf (E.run .psMounts (E.run .volumeLs s).2).1.output))
      _ (volumeStep_val E _ _) (volumeStep_reported E _ _)
      (linesOf (E.run .volumeLs s).1.output) (E.run .psMounts (E.run .volumeLs s).2).2
    have hcall : ∀ (cmd : Cmd) (tr : List Event),
        reportedVolumes (.call cmd :: tr) = reportedVolumes tr := by
      intro cmd tr; simp [reportedVolumes]
    simp only [CleanVolumes, executeCommand_andThen, h1, h2,
      andThen_some _ _ _ (forEach_val _ (volumeStep_val E _ _) _ _), ret_trace,
      List.append_nil, mutations_call, Cmd.isMutate, Bool.false_eq_true, if_false, hm, hcall, hr]
    simp [flatMap_ite_singleton, List.map_flatMap]
  · have hm := (reclaimer_of_listingFails E ⟨false, o⟩ .volumes s hl).2
    simp only [reclaimer] at hm
    rw [hm]
    simp only [listingFails, Bool.or_eq_true] at hl
    have hcall : ∀ (cmd : Cmd) (tr : List Event),
        reportedVolumes (.call cmd :: tr) = reportedVolumes tr := by
      intro cmd tr; simp [reportedVolumes]
    rcases hi : (E.run .volumeLs s).1.err.isSome with _ | _
    · rw [hi] at hl
      obtain ⟨e, he⟩ := (commandResult_error_iff _).2 (by simpa using hl)
      simp [CleanVolumes, commandResult_of_none _ hi, he, hcall, reportedVolumes]
    · obtain ⟨e, he⟩ := (commandResult_error_iff _).2 hi
      simp [CleanVolumes, he, hcall, reportedVolumes]

end Prediction

section ImagePrediction

variable {σ : Type}

theorem sliceTo_of_le (s : String) (n : Nat) (h : n ≤ len s) :
    sliceTo s n = some ((utf8Bytes s).take n) := by
  unfold sliceTo
  rw [if_pos h]

/-- On a line it decides against, the loop body of `CleanImages` does the same
in a dry run and in a live run. -/
theorem imageStep_of_none_eq (E : Env σ) (o : Int) (used : StrSet) (line : String) (s : σ)
    (h : imageDecision E ⟨true, o⟩ used line s = none) :
    imageStep E ⟨false, o⟩ used line s = imageStep E ⟨true, o⟩ used line s := by
  rcases line_cases line with hsk | ⟨hne, a, b, d, e, rest, hs⟩
  · rw [imageStep_skip E _ used line s hsk, imageStep_skip E _ used line s hsk]
  · rw [imageStep_fields E _ used line s a b d e rest hne hs,
      imageStep_fields E _ used line s a b d e rest hne hs]
    unfold imageDecision at h
    simp only [hne, if_false, hs] at h
    rcases hp : E.parseCreatedAt e with err | created
    · rfl
    · rw [hp] at h
      simp only at h ⊢
      by_cases hu : used.get (b ++ ":" ++ d) = true
      · simp only [hu, if_true]
      · simp only [hu, Bool.false_eq_true, if_false]
        by_cases ho : olderThanHours (Since E created s).1 o = true
        · simp [hu, ho] at h
        · simp only [ho, Bool.false_eq_true, if_false]

/-- The dry run of `CleanImages` predicts the live run: when no eligible image
has an ID shorter than 12 bytes, in front of a daemon whose answers to the read
commands do not depend on the removals requested before, both runs return nil
and the images the dry run reports, by name and first 12 bytes of the ID, are
in order the images whose removal the live run requests before it prunes. -/
theorem dry_run_predicts_images (E : Env σ) (o : Int) (s : σ)
    (hframe : ∀ cmd s1, cmd.isMutate = true → (E.run cmd s1).2 = s1)
    (hl : listingFails E .images s = false)
    (hid : ∀ line ∈ linesOf (E.run .images s).1.output, ∀ s1 imageID imageName,
      imageDecision E ⟨true, o⟩ (usedImagesOf (E.run .psImages (E.run .images s).2).1.output)
        line s1 = some (imageID, imageName) → 12 ≤ len imageID) :
    (CleanImages E ⟨true, o⟩ s).val = some none ∧
      (CleanImages E ⟨false, o⟩ s).val = some none ∧
      ∃ elig : List (String × String),
        reportedImages (CleanImages E ⟨true, o⟩ s).trace =
            elig.map (fun p => (p.2, (utf8Bytes p.1).take 12)) ∧
          mutations (CleanImages E ⟨false, o⟩ s).trace =
            elig.map (fun p => Cmd.rmi p.1) ++ [.imagePrune] := by
  have hrapp : ∀ a b, reportedImages (a ++ b) = reportedImages a ++ reportedImages b :=
    fun a b => by simp [reportedImages]
  obtain ⟨h1, h2, _, elig, h4, h5⟩ := forEach_pair
    (fun a b => ∃ elig : List (String × String),
      reportedImages a = elig.map (fun p => (p.2, (utf8Bytes p.1).take 12)) ∧
        mutations b = elig.map (fun p => Cmd.rmi p.1))
    ⟨[], rfl, rfl⟩
    (fun a b a1 b1 ⟨e1, p1, q1⟩ ⟨e2, p2, q2⟩ =>
      ⟨e1 ++ e2, by simp only [hrapp, p1, p2, List.map_append],
        by simp only [mutations_append, q1, q2, List.map_append]⟩)
    (imageStep E ⟨true, o⟩ (usedImagesOf (E.run .psImages (E.run .images s).2).1.output))
    (imageStep E ⟨false, o⟩ (usedImagesOf (E.run .psImages (E.run .images s).2).1.output))
    (linesOf (E.run .images s).1.output)
    (fun x hx s1 => by
      rcases h : imageDecision E ⟨true, o⟩
          (usedImagesOf (E.run .psImages (E.run .images s).2).1.output) x s1
        with _ | ⟨id, name⟩
      · rw [imageStep_of_none_eq E o _ x s1 h]
        refine ⟨(imageStep_of_none E _ _ x s1 h).1, (imageStep_of_none E _ _ x s1 h).1, rfl,
          [], ?_, ?_⟩
        · rcases (imageStep_of_none E _ _ x s1 h).2 with h1 | ⟨_, _, h1⟩ <;> rw [h1] <;>
            simp [reportedImages]
        · rcases (imageStep_of_none E _ _ x s1 h).2 with h1 | ⟨_, _, h1⟩ <;> rw [h1] <;> simp
      · have h2 : imageDecision E ⟨false, o⟩
            (usedImagesOf (E.run .psImages (E.run .images s).2).1.output) x s1
            = some (id, name) := h
        have hs := sliceTo_of_le id 12 (hid x hx s1 id name h)
        have hf := hframe (.rmi id) (E.now s1).2 rfl
        rw [imageStep_of_some E _ _ x s1 id name h, imageStep_of_some E _ _ x s1 id name h2]
        simp only [imageAction, Bool.false_eq_true, if_false, if_true, hs,
          executeCommand_andThen, hf]
        refine ⟨rfl, ?_, ?_, [(id, name)], ?_, ?_⟩
        · split <;> rfl
        · split <;> rfl
        · simp [reportedImages]
        · split <;> simp [Cmd.isMutate])
    (E.run .psImages (E.run .images s).2).2
  have hcall : ∀ (cmd : Cmd) (tr : List Event),
      reportedImages (.call cmd :: tr) = reportedImages tr := by
    intro cmd tr; simp [reportedImages]
  refine ⟨?_, ?_, elig, ?_, ?_⟩
  · rw [(CleanImages_listed E _ s hl).2.2]
    unfold cleanListedImages
    rw [andThen_some _ _ _ h1]
    exact pruneDangling_val E _ _
  · rw [(CleanImages_listed E _ s hl).2.2]
    unfold cleanListedImages
    rw [andThen_some _ _ _ h2]
    exact pruneDangling_val E _ _
  · rw [(CleanImages_listed E _ s hl).2.1]
    unfold cleanListedImages
    rw [andThen_some _ _ _ h1]
    simp only [hcall, hrapp, h4]
    simp [pruneDangling, reportedImages]
  · rw [(CleanImages_listed E _ s hl).2.1]
    unfold cleanListedImages
    rw [andThen_some _ _ _ h2]
    simp only [mutations_call, Cmd.isMutate, Bool.false_eq_true, if_false, mutations_append, h5]
    simp only [pruneDangling, Bool.false_eq_true, if_false, executeCommand_andThen,
      mutations_call, Cmd.isMutate, if_true]
    split <;> simp

end ImagePrediction

section Failures

variable {σ : Type}

/-- A dry run of the loop body of `CleanContainers` reads the environment only
through the read commands, the clock and the time parser. -/
theorem containerStep_dry_env (E1 E2 : Env σ)
    (hread : ∀ cmd s1, cmd.isMutate = false → E2.run cmd s1 = E1.run cmd s1)
    (hnow : E2.now = E1.now) (hp : E2.parseRFC3339Nano = E1.parseRFC3339Nano) (o : Int) :
    containerStep E2 ⟨true, o⟩ = containerStep E1 ⟨true, o⟩ := by
  funext x s
  by_cases hne : x = ""
  · unfold containerStep
    rw [if_pos hne, if_pos hne]
  · obtain ⟨p, hp0⟩ := Split_head x tab
    rw [containerStep_id E1 _ x s p hne hp0, containerStep_id E2 _ x s p hne hp0]
    simp only [executeCommand_andThen, hread (.inspectFinishedAt p) s rfl, hp, Since, hnow,
      if_true]

/-- A dry run of the loop body of `CleanImages` reads the environment only
through the clock and the time parser. -/
theorem imageStep_dry_env (E1 E2 : Env σ) (hnow : E2.now = E1.now)
    (hp : E2.parseCreatedAt = E1.parseCreatedAt) (o : Int) (used : StrSet) :
    imageStep E2 ⟨true, o⟩ used = imageStep E1 ⟨true, o⟩ used := by
  funext x s
  rcases line_cases x with hsk | ⟨hne, a, b, d, e, rest, hs⟩
  · rw [imageStep_skip E1 _ used x s hsk, imageStep_skip E2 _ used x s hsk]
  · rw [imageStep_fields E1 _ used x s a b d e rest hne hs,
      imageStep_fields E2 _ used x s a b d e rest hne hs]
    simp only [hp, Since, hnow, if_true]

/-- The decision on an image reads the environment only through the clock and
the time parser. -/
theorem imageDecision_env_eq (E1 E2 : Env σ) (hnow : E2.now = E1.now)
    (hp : E2.parseCreatedAt = E1.parseCreatedAt) (c : Cleanup) (used : StrSet) (x : String)
    (s : σ) : imageDecision E2 c used x s = imageDecision E1 c used x s := by
  unfold imageDecision
  simp only [hp, Since, hnow]

/-- A dry run of the loop body of `CleanVolumes` does not read the
environment. -/
theorem volumeStep_dry_env (E1 E2 : Env σ) (o : Int) (used : StrSet) :
    volumeStep E2 ⟨true, o⟩ used = volumeStep E1 ⟨true, o⟩ used := by
  funext x s
  unfold volumeStep
  simp only [if_true]

/-- A live run on an eligible image whose ID has 12 bytes at least: one
`docker rmi` call, no panic; the state is the one the call leaves. -/
theorem imageAction_live (E : Env σ) (o : Int) (imageID imageName : String) (s1 : σ)
    (h : 12 ≤ len imageID) :
    (imageAction E ⟨false, o⟩ imageID imageName s1).st = (E.run (.rmi imageID) s1).2 ∧
      (imageAction E ⟨false, o⟩ imageID imageName s1).val = some () ∧
      mutations (imageAction E ⟨false, o⟩ imageID imageName s1).trace = [.rmi imageID] := by
  simp only [imageAction, Bool.false_eq_true, if_false, sliceTo_of_le imageID 12 h,
    executeCommand_andThen, mutations_call, Cmd.isMutate, if_true]
  refine ⟨?_, ?_, ?_⟩ <;> split <;> rfl

theorem listingFails_env (E1 E2 : Env σ)
    (hread : ∀ cmd s1, cmd.isMutate = false → E2.run cmd s1 = E1.run cmd s1) (p : Phase)
    (s : σ) : listingFails E2 p s = listingFails E1 p s := by
  cases p
  · simp only [listingFails, hread .psStopped s rfl]
  · simp only [listingFails, hread .images s rfl, hread .psImages _ rfl]
  · simp only [listingFails, hread .volumeLs s rfl, hread .psMounts _ rfl]

/-- A failed removal is not fatal and does not change what else is attempted:
two daemons that answer the read commands alike, and in which a removal
request changes no later answer, get the same mutate calls from a live run of
each reclaimer, in the same order, whichever of these calls fail in the one or
in the other; for the image reclaimer, provided no eligible image has an ID
shorter than 12 bytes. -/
theorem failures_do_not_change_attempts (E1 E2 : Env σ)
    (hread : ∀ cmd s1, cmd.isMutate = false → E2.run cmd s1 = E1.run cmd s1)
    (hnow : E2.now = E1.now) (hp1 : E2.parseRFC3339Nano = E1.parseRFC3339Nano)
    (hp2 : E2.parseCreatedAt = E1.parseCreatedAt)
    (hf1 : ∀ cmd s1, cmd.isMutate = true → (E1.run cmd s1).2 = s1)
    (hf2 : ∀ cmd s1, cmd.isMutate = true → (E2.run cmd s1).2 = s1)
    (o : Int) (s : σ)
    (hid : ∀ line ∈ linesOf (E1.run .images s).1.output, ∀ s1 imageID imageName,
      imageDecision E1 ⟨true, o⟩ (usedImagesOf (E1.run .psImages (E1.run .images s).2).1.output)
        line s1 = some (imageID, imageName) → 12 ≤ len imageID)
    (p : Phase) :
    mutations (reclaimer E2 ⟨false, o⟩ p s).trace =
      mutations (reclaimer E1 ⟨false, o⟩ p s).trace := by
  cases p
  · simp only [reclaimer]
    rw [dry_run_predicts_containers E1 o s hf1, dry_run_predicts_containers E2 o s hf2]
    simp only [CleanContainers, containerStep_dry_env E1 E2 hread hnow hp1 o,
      executeCommand_andThen, hread .psStopped s rfl]
  · rcases hl : listingFails E1 .images s with _ | _
    · have hl2 : listingFails E2 .images s = false := by rw [listingFails_env E1 E2 hread, hl]
      obtain ⟨h1, h2, _, h4⟩ := forEach_pair (fun a b => mutations b = mutations a) rfl
        (fun a b a1 b1 q1 q2 => by simp only [mutations_append, q1, q2])
        (imageStep E1 ⟨false, o⟩ (usedImagesOf (E1.run .psImages (E1.run .images s).2).1.output))
        (imageStep E2 ⟨false, o⟩ (usedImagesOf (E1.run .psImages (E1.run .images s).2).1.output))
        (linesOf (E1.run .images s).1.output)
        (fun x hx s1 => by
          rcases h : imageDecision E1 ⟨true, o⟩
              (usedImagesOf (E1.run .psImages (E1.run .images s).2).1.output) x s1
            with _ | ⟨id, name⟩
          · have hE2 : imageDecision E2 ⟨true, o⟩
                (usedImagesOf (E1.run .psImages (E1.run .images s).2).1.output) x s1 = none := by
              rw [imageDecision_env_eq E1 E2 hnow hp2, h]
            rw [imageStep_of_none_eq E2 o _ x s1 hE2, imageStep_dry_env E1 E2 hnow hp2 o,
              imageStep_of_none_eq E1 o _ x s1 h]
            exact ⟨(imageStep_of_none E1 _ _ x s1 h).1, (imageStep_of_none E1 _ _ x s1 h).1,
              rfl, rfl⟩
          · have h1 : imageDecision E1 ⟨false, o⟩
                (usedImagesOf (E1.run .psImages (E1.run .images s).2).1.output) x s1
                = some (id, name) := h
            have h2 : imageDecision E2 ⟨false, o⟩
                (usedImagesOf (E1.run .psImages (E1.run .images s).2).1.output) x s1
                = some (id, name) := by
              rw [imageDecision_env_eq E1 E2 hnow hp2]
              exact h
            have hlen := hid x hx s1 id name h
            obtain ⟨a1, a2, a3⟩ := imageAction_live E1 o id name (E1.now s1).2 hlen
            obtain ⟨b1, b2, b3⟩ := imageAction_live E2 o id name (E1.now s1).2 hlen
            rw [imageStep_of_some E1 _ _ x s1 id name h1,
              imageStep_of_some E2 _ _ x s1 id name h2, hnow]
            exact ⟨a2, b2, by rw [a1, b1, hf1 (.rmi id) _ rfl, hf2 (.rmi id) _ rfl],
              b3.trans a3.symm⟩)
        (E1.run .psImages (E1.run .images s).2).2
      simp only [reclaimer]
      rw [(CleanImages_listed E1 _ s hl).2.1, (CleanImages_listed E2 _ s hl2).2.1]
      simp only [hread .images s rfl, hread .psImages _ rfl]
      unfold cleanListedImages
      rw [andThen_some _ _ _ h1, andThen_some _ _ _ h2]
      simp only [mutations_call, Cmd.isMutate, Bool.false_eq_true, if_false, mutations_append,
        h4, pruneDangling, executeCommand_andThen, if_true]
      congr 2
      split <;> split <;> rfl
    · have hl2 : listingFails E2 .images s = true := by rw [listingFails_env E1 E2 hread, hl]
      rw [(reclaimer_of_listingFails E1 _ .images s hl).2,
        (reclaimer_of_listingFails E2 _ .images s hl2).2]
  · simp only [reclaimer]
    rw [dry_run_predicts_volumes E1 o s, dry_run_predicts_volumes E2 o s]
    simp only [CleanVolumes, volumeStep_dry_env E1 E2 o, executeCommand_andThen,
      hread .volumeLs s rfl, hread .psMounts _ rfl]

end Failures
end DockerCleanup
